import Mathlib

/-!
Verification development for the polymer simulation core of pinetree
(`pysinthe/polymer.py`).  The kernel tracks elements (promoters,
terminators), a mask, and mobile polymerases ("walkers") on a single
polymer; it is embedded here as executable Lean functions on explicit
state records.  Operations return the updated state, the list of emitted
events (signals plus instrumented covering updates), and an optional
error mirroring the Python exceptions.  Python object identity of
polymerase objects is modelled by an `id` field; uniform and
propensity-weighted random choices are modelled by quantifying over the
chosen index, and the uniform termination draw by its Boolean outcome.
-/

namespace Pinetree

/-- Modelled from the spec (feature.py is not part of the sources):
an element is an immobile site with a name, a type string
("promoter" or "terminator"), an inclusive integer interval, a set of
interacting walker names, a terminator efficiency table, a gene label,
a reference-counted covering state with snapshot, a transient
readthrough flag and a reading frame. -/
structure Elt where
  name : String
  etype : String
  start : Int
  stop : Int
  interactions : List String
  effs : List (String × Rat)
  gene : String
  covered : Nat
  old_covered : Nat
  readthrough : Bool
  reading_frame : Int
deriving Repr, DecidableEq

/-- Modelled from the spec: `cover()` increments the covering count. -/
def Elt.cover (e : Elt) : Elt := { e with covered := e.covered + 1 }

/-- Modelled from the spec: `uncover()` decrements the covering count,
saturating at 0 (Nat subtraction). -/
def Elt.uncover (e : Elt) : Elt := { e with covered := e.covered - 1 }

/-- Modelled from the spec: `save_state()` copies `covered` into
`old_covered`. -/
def Elt.save_state (e : Elt) : Elt := { e with old_covered := e.covered }

/-- Modelled from the spec: an element is covered when its count is
positive. -/
def Elt.is_covered (e : Elt) : Bool := e.covered != 0

/-- Modelled from the spec: `was_covered` means the count moved from 0 to
at least 1 since the last snapshot. -/
def Elt.was_covered (e : Elt) : Bool := e.old_covered == 0 && e.covered != 0

/-- Modelled from the spec: `was_uncovered` means the count moved from at
least 1 to 0 since the last snapshot. -/
def Elt.was_uncovered (e : Elt) : Bool := e.old_covered != 0 && e.covered == 0

/-- Modelled from the spec: `check_interaction` tests membership of a
walker name in the element's interaction table. -/
def Elt.check_interaction (e : Elt) (n : String) : Bool := e.interactions.contains n

/-- Modelled from the spec: the mask is a distinguished interval hiding
part of the polymer, with a whitelist of walker names that may push it. -/
structure Mask where
  name : String
  start : Int
  stop : Int
  interactions : List String
deriving Repr, DecidableEq

/-- Modelled from the spec: `recede()` advances `mask.start` by 1, never
past `mask.stop` — once `start` has reached `stop` the advance is
skipped. -/
def Mask.recede (m : Mask) : Mask :=
  { m with start := if m.start < m.stop then m.start + 1 else m.start }

/-- Modelled from the spec: the mask's interaction test. -/
def Mask.check_interaction (m : Mask) (n : String) : Bool := m.interactions.contains n

/-- Modelled from the spec: a polymerase (walker) with name, footprint,
speed, a current inclusive interval, an attachment flag, the last gene
label set at termination, and a reading frame.  The `id` field models
Python object identity (list membership and `list.index` compare
objects, not field values). -/
structure Pol where
  id : Nat
  name : String
  footprint : Int
  speed : Int
  start : Int
  stop : Int
  attached : Bool
  last_gene : String
  reading_frame : Int
deriving Repr, DecidableEq

/-- Modelled from the spec: `move()` advances both endpoints by 1. -/
def Pol.move (p : Pol) : Pol := { p with start := p.start + 1, stop := p.stop + 1 }

/-- Modelled from the spec: `move_back()` rolls both endpoints back by 1. -/
def Pol.move_back (p : Pol) : Pol := { p with start := p.start - 1, stop := p.stop - 1 }

/-- The overlap test from `Polymer.elements_intersect`:
`a.stop >= b.start and b.stop >= a.start` on inclusive intervals. -/
def elements_intersect (s1 t1 s2 t2 : Int) : Bool :=
  decide (s2 ≤ t1) && decide (s1 ≤ t2)

/-- Intersection of a walker with an element. -/
def polEltInter (p : Pol) (e : Elt) : Bool :=
  elements_intersect p.start p.stop e.start e.stop

/-- Intersection of the mask with an element. -/
def maskEltInter (m : Mask) (e : Elt) : Bool :=
  elements_intersect m.start m.stop e.start e.stop

/-- Intersection of a walker with the mask. -/
def polMaskInter (p : Pol) (m : Mask) : Bool :=
  elements_intersect p.start p.stop m.start m.stop

/-- Intersection of two walkers. -/
def polPolInter (p q : Pol) : Bool :=
  elements_intersect p.start p.stop q.start q.stop

/-- The `uncovered` cache: an association list mirroring the Python dict
from element names to free counts. -/
abbrev UMap := List (String × Int)

/-- Dict lookup; names absent from the cache read as 0 (the source
initialises every element name in `__init__`, so reads on reachable
states always hit a present key). -/
def uget (m : UMap) (k : String) : Int :=
  match m.find? (fun kv => kv.1 == k) with
  | some kv => kv.2
  | none => 0

/-- Dict membership. -/
def uhas (m : UMap) (k : String) : Bool :=
  (m.find? (fun kv => kv.1 == k)).isSome

/-- Dict update (insert-or-replace). -/
def uset (m : UMap) (k : String) (v : Int) : UMap :=
  if uhas m k then m.map (fun kv => if kv.1 == k then (k, v) else kv)
  else m ++ [(k, v)]

/-- Observable events: the kernel's signals, plus instrumented
cover/uncover updates tagged with the element's index so that ordering
claims can be stated. -/
inductive Ev where
  | block : Nat → String → Ev
  | promoterFree : Nat → String → Ev
  | coverEv : Nat → Ev
  | uncoverEv : Nat → Ev
  | moveSig : Ev
  | propensity : Ev
  | termination : List String → Ev
  | transcriptSig : Ev
deriving Repr, DecidableEq

/-- Errors mirroring the Python exceptions raised by the kernel. -/
inductive Err where
  | notFound
  | incompatibleBinding
  | footprintTooLarge
  | overlapsMask
  | alreadyBound
  | noActivity
  | emptyTranscript
  | corruption
  | valueError
  | assertionError
  | runtime
deriving Repr, DecidableEq

/-- Which subclass of Polymer the state belongs to; it only changes which
termination signal `terminate` fires. -/
inductive PKind where
  | polymer
  | genome
  | transcript
deriving Repr, DecidableEq

/-- A gene descriptor of the transcript template
(`{name, start, stop, rbs, length}`). -/
structure Gene where
  name : String
  start : Int
  stop : Int
  rbs : Int
  glen : Int
deriving Repr, DecidableEq

/-- The full polymer state: elements, mask, the ordered walker list with
its parallel speed list, the total propensity, the `uncovered` cache and
(for genomes) the transcript template. -/
structure PSt where
  kind : PKind
  name : String
  length : Int
  elements : List Elt
  mask : Mask
  polymerases : List Pol
  prop_list : List Int
  prop_sum : Int
  uncovered : UMap
  transcript_template : List Gene
deriving Repr, DecidableEq

/-- The constructor fold of `Polymer.__init__` over one element: an
element intersecting the mask is covered and its name is registered with
count 0; otherwise its free count is bumped (inserted as 1 when absent). -/
def initStep (mask : Mask) (acc : List Elt × UMap) (e : Elt) : List Elt × UMap :=
  if maskEltInter mask e then
    (acc.1 ++ [e.cover], if uhas acc.2 e.name then acc.2 else uset acc.2 e.name 0)
  else
    (acc.1 ++ [e], uset acc.2 e.name (uget acc.2 e.name + 1))

/-- `Polymer.__init__` (also used for `Genome` and `Transcript`
construction): walker list and propensities start empty, and the
elements are scanned against the mask to initialise covering and the
`uncovered` cache. -/
def initPolymer (kind : PKind) (name : String) (length : Int) (elements : List Elt)
    (mask : Mask) (tmpl : List Gene) : PSt :=
  let p := elements.foldl (initStep mask) ([], [])
  { kind := kind, name := name, length := length, elements := p.1, mask := mask,
    polymerases := [], prop_list := [], prop_sum := 0, uncovered := p.2,
    transcript_template := tmpl }

/-- `Polymer._check_state` on the element at index `i`: edge detection on
the covering snapshot, updating the `uncovered` cache and firing
`block_signal` / `promoter_signal`; terminators reset `readthrough`
instead of being counted. -/
def check_state (i : Nat) (e : Elt) (um : UMap) : Elt × UMap × List Ev :=
  let r1 : Elt × UMap × List Ev :=
    if e.was_covered && e.etype != "terminator" then
      (e.save_state, uset um e.name (uget um e.name - 1), [Ev.block i e.name])
    else (e, um, [])
  let e1 := r1.1
  let um1 := r1.2.1
  let evs1 := r1.2.2
  if e1.was_uncovered then
    if e1.etype == "terminator" then
      ({ e1.save_state with readthrough := false }, um1, evs1)
    else
      (e1.save_state, uset um1 e1.name (uget um1 e1.name + 1),
        evs1 ++ [Ev.promoterFree i e1.name])
  else (e1, um1, evs1)

/-- Indices of the free promoters matching `promoter` that
`bind_polymerase` collects as `element_choices`. -/
def element_choices (st : PSt) (promoter : String) : List Nat :=
  (List.range st.elements.length).filter fun i =>
    match st.elements.get? i with
    | some e => e.name == promoter && !e.is_covered
    | none => false

/-- The scan of `_insert_polymerase`: position of the first walker whose
start exceeds the new walker's start (append when none). -/
def insertPos : List Pol → Int → Nat
  | [], _ => 0
  | q :: rest, s => if s < q.start then 0 else insertPos rest s + 1

/-- Write-through of a mutation of a polymerase object: Python aliases the
argument with the list entry, so any stored copy with the same identity
is updated as well. -/
def syncPol (ps : List Pol) (p : Pol) : List Pol :=
  ps.map fun q => if q.id == p.id then p else q

/-- Index of the walker with the given identity (`list.index` /
membership use object identity in the source). -/
def idxOfPol : List Pol → Nat → Option Nat
  | [], _ => none
  | q :: rest, i =>
    if q.id == i then some 0 else (idxOfPol rest i).map (· + 1)

/-- `Polymer._insert_polymerase`: refuse a walker already present, else
insert walker and speed at the scan position in both parallel lists. -/
def insert_polymerase (st : PSt) (p : Pol) : PSt × Option Err :=
  if (idxOfPol st.polymerases p.id).isSome then (st, some Err.alreadyBound)
  else
    let ip := insertPos st.polymerases p.start
    ({ st with polymerases := st.polymerases.insertIdx ip p,
               prop_list := st.prop_list.insertIdx ip p.speed }, none)

/-- `Polymer.bind_polymerase` with the random promoter selection made
explicit: `k` indexes into `element_choices`.  Mirrors the source step by
step: free-promoter search, interaction check, coordinate update (written
through to any aliased list entry), footprint and mask validation,
covering, cache decrement, ordered insertion, propensity update and
`propensity_signal`. -/
def bind_polymerase (st : PSt) (pol : Pol) (promoter : String) (k : Nat) :
    PSt × List Ev × Option Err :=
  let choices := element_choices st promoter
  if choices.isEmpty then (st, [], some Err.notFound)
  else
    match choices.get? k with
    | none => (st, [], some Err.runtime)
    | some i =>
      match st.elements.get? i with
      | none => (st, [], some Err.runtime)
      | some element =>
        if !element.check_interaction pol.name then
          (st, [], some Err.incompatibleBinding)
        else
          let p1 := { pol with start := element.start,
                               stop := element.start + pol.footprint }
          let st1 := { st with polymerases := syncPol st.polymerases p1 }
          if decide (element.stop < p1.stop) then
            (st1, [], some Err.footprintTooLarge)
          else if decide (st1.mask.start < p1.stop) then
            (st1, [], some Err.overlapsMask)
          else
            let st2 := { st1 with
              elements := st1.elements.set i (element.cover.save_state),
              uncovered := uset st1.uncovered element.name
                (uget st1.uncovered element.name - 1) }
            match insert_polymerase st2 p1 with
            | (st3, some er) => (st3, [Ev.coverEv i], some er)
            | (st3, none) =>
              ({ st3 with prop_sum := st3.prop_sum + p1.speed },
                [Ev.coverEv i, Ev.propensity], none)

/-- The promoter ("rbs") element built for a matching gene descriptor in
`Genome._build_transcript`. -/
def rbsOf (g : Gene) : Elt :=
  { name := "rbs", etype := "promoter", start := g.start + g.rbs, stop := g.start,
    interactions := ["ribosome"], effs := [], gene := "", covered := 0,
    old_covered := 0, readthrough := false, reading_frame := 0 }

/-- The terminator ("tstop") element built for a matching gene descriptor
in `Genome._build_transcript`. -/
def tstopOf (g : Gene) : Elt :=
  { name := "tstop", etype := "terminator", start := g.stop - 1, stop := g.stop,
    interactions := ["ribosome"], effs := [("ribosome", 1)], gene := g.name,
    covered := 0, old_covered := 0, readthrough := false, reading_frame := 0 }

/-- `Genome._build_transcript`: after the two asserts, every template
descriptor lying within `[start, stop]` contributes an rbs promoter and a
tstop terminator, in template order; with no matching descriptor the
build fails, else a `Transcript` named "rna" is constructed with mask
`[start, stop]`. -/
def build_transcript (st : PSt) (start stop : Int) : Except Err PSt :=
  if !decide (0 ≤ start) then Except.error Err.assertionError
  else if !decide (0 < stop) then Except.error Err.assertionError
  else
    let elements := st.transcript_template.foldr
      (fun g acc =>
        if decide (start ≤ g.start) && decide (g.stop ≤ stop) then
          rbsOf g :: tstopOf g :: acc
        else acc) []
    if elements.isEmpty then Except.error Err.emptyTranscript
    else
      Except.ok (initPolymer PKind.transcript "rna" st.length elements
        { name := "mask", start := start, stop := stop, interactions := [] } [])

/-- `Genome.bind_polymerase`: the base bind followed by transcript
construction; the transcript signal fires only after a successful build,
while a failing build leaves the base bind committed. -/
def genome_bind (st : PSt) (pol : Pol) (promoter : String) (k : Nat) :
    PSt × List Ev × Option Err :=
  match bind_polymerase st pol promoter k with
  | (st1, tr, some er) => (st1, tr, some er)
  | (st1, tr, none) =>
    let pstart := match idxOfPol st1.polymerases pol.id with
      | some j => (st1.polymerases.getD j pol).start
      | none => pol.start
    match build_transcript st1 pstart st1.length with
    | Except.error er => (st1, tr, some er)
    | Except.ok _t => (st1, tr ++ [Ev.transcriptSig], none)

/-- First element index intersecting the mask (the `break` scan of
`shift_mask`). -/
def firstMaskIdx (m : Mask) : Nat → List Elt → Option (Nat × Elt)
  | _, [] => none
  | i, e :: rest => if maskEltInter m e then some (i, e) else firstMaskIdx m (i + 1) rest

/-- `Polymer.shift_mask`: no-op at end; otherwise save-and-uncover the
first element intersecting the mask, recede, re-cover it if it still
intersects, and run edge detection on that element only. -/
def shift_mask (st : PSt) : PSt × List Ev :=
  if st.mask.start == st.mask.stop then (st, [])
  else
    match firstMaskIdx st.mask 0 st.elements with
    | none => ({ st with mask := st.mask.recede }, [])
    | some (i, e) =>
      let e1 := e.save_state.uncover
      let m1 := st.mask.recede
      let r2 : Elt × List Ev :=
        if maskEltInter m1 e1 then (e1.cover, [Ev.uncoverEv i, Ev.coverEv i])
        else (e1, [Ev.uncoverEv i])
      let r3 := check_state i r2.1 st.uncovered
      ({ st with mask := m1, elements := st.elements.set i r3.1,
                 uncovered := r3.2.1 }, r2.2 ++ r3.2.2)

/-- `Polymer.terminate` (the base method): subtract the walker's speed
from `prop_sum` first, then look the walker up by identity — an absent
walker raises there, after the subtraction — then fire
`propensity_signal` and delete walker and speed at the same index. -/
def terminateCore (st : PSt) (pol : Pol) : PSt × List Ev × Option Err :=
  let st1 := { st with prop_sum := st.prop_sum - pol.speed }
  match idxOfPol st1.polymerases pol.id with
  | none => (st1, [], some Err.valueError)
  | some i =>
    ({ st1 with polymerases := st1.polymerases.eraseIdx i,
                prop_list := st1.prop_list.eraseIdx i }, [Ev.propensity], none)

/-- `terminate` with the subclass overrides: `Genome.terminate` also
fires `termination_signal(pol.name)`; `Transcript.terminate` fires
`termination_signal(pol.last_gene, pol.name)`; the base `Polymer` fires
no termination signal. -/
def terminateRun (st : PSt) (pol : Pol) : PSt × List Ev × Option Err :=
  match terminateCore st pol with
  | (st1, tr, some er) => (st1, tr, some er)
  | (st1, tr, none) =>
    match st.kind with
    | PKind.polymer => (st1, tr, none)
    | PKind.genome => (st1, tr ++ [Ev.termination [pol.name]], none)
    | PKind.transcript => (st1, tr ++ [Ev.termination [pol.last_gene, pol.name]], none)

/-- Modelled from the spec (4.1.5, missing feature.py): termination
resolution between a walker and a terminator.  Disagreeing reading
frames skip termination unconditionally; an already-readthrough
terminator lets the walker pass; otherwise the uniform draw is consumed,
abstracted by its Boolean outcome `u ≤ efficiency` — `true` detaches the
walker and records the terminator's gene, `false` sets `readthrough`. -/
def resolve_termination (e : Elt) (p : Pol) (draws : List Bool) :
    Elt × Pol × List Bool :=
  if p.reading_frame != e.reading_frame then (e, p, draws)
  else if e.readthrough then (e, p, draws)
  else
    match draws with
    | [] => (e, p, [])
    | b :: rest =>
      if b then (e, { p with attached := false, last_gene := e.gene }, rest)
      else ({ e with readthrough := true }, p, rest)

/-- The save-and-uncover pass of `_move_polymerase` on one element: an
element intersecting the walker, and then one intersecting the mask, is
snapshotted and uncovered (one overlapping both is uncovered twice). -/
def phase1Elt (p : Pol) (m : Mask) (e : Elt) : Elt :=
  let e1 := if polEltInter p e then e.save_state.uncover else e
  if maskEltInter m e1 then e1.save_state.uncover else e1

/-- The save-and-uncover pass over the element list, emitting the
instrumented uncover events with element indices. -/
def phase1 (p : Pol) (m : Mask) : Nat → List Elt → List Elt × List Ev
  | _, [] => ([], [])
  | i, e :: rest =>
    let evs := (if polEltInter p e then [Ev.uncoverEv i] else []) ++
      (if maskEltInter m e then [Ev.uncoverEv i] else [])
    let r := phase1 p m (i + 1) rest
    (phase1Elt p m e :: r.1, evs ++ r.2)

/-- `Polymer._resolve_collisions`: only the walker immediately downstream
is checked; an overlap of more than one position is corruption, else the
moved walker rolls back and the collision is recorded. -/
def resolveCollisions (ps : List Pol) (idx : Nat) (p : Pol) : Except Err (Pol × Bool) :=
  match ps.get? (idx + 1) with
  | none => Except.ok (p, false)
  | some q =>
    if polPolInter p q then
      if decide (1 < p.stop - q.start) then Except.error Err.corruption
      else Except.ok (p.move_back, true)
    else Except.ok (p, false)

/-- `Polymer._resolve_mask_collisions`: an overlap of more than one
position is corruption; a whitelisted walker pushes the mask back and
keeps its position; any other walker rolls back and the mask collision
is recorded. -/
def resolveMaskCollisions (m : Mask) (p : Pol) : Except Err (Mask × Pol × Bool) :=
  if polMaskInter p m then
    if decide (1 < p.stop - m.start) then Except.error Err.corruption
    else if m.check_interaction p.name then Except.ok (m.recede, p, false)
    else Except.ok (m, p.move_back, true)
  else Except.ok (m, p, false)

/-- Mutable context threaded through the recover loop of
`_move_polymerase`: the moving walker (aliased with its list entry), the
walker and speed lists, propensity, cache, remaining draws and a pending
error that aborts the loop. -/
structure MSt where
  kind : PKind
  pol : Pol
  polymerases : List Pol
  prop_list : List Int
  prop_sum : Int
  uncovered : UMap
  draws : List Bool
  err : Option Err
deriving Repr, DecidableEq

/-- The call `self.terminate(pol)` made from inside the recover loop,
operating on the loop context (identical to `terminateRun` on the
corresponding state). -/
def terminateInMove (ms : MSt) : MSt × List Ev :=
  let ms1 := { ms with prop_sum := ms.prop_sum - ms.pol.speed }
  match idxOfPol ms1.polymerases ms.pol.id with
  | none => ({ ms1 with err := some Err.valueError }, [])
  | some i =>
    let ms2 := { ms1 with polymerases := ms1.polymerases.eraseIdx i,
                          prop_list := ms1.prop_list.eraseIdx i }
    match ms.kind with
    | PKind.polymer => (ms2, [Ev.propensity])
    | PKind.genome => (ms2, [Ev.propensity, Ev.termination [ms.pol.name]])
    | PKind.transcript =>
      (ms2, [Ev.propensity, Ev.termination [ms.pol.last_gene, ms.pol.name]])

/-- The mask part of the recover pass on one element: re-cover under the
mask and run edge detection. -/
def maskBranch (m : Mask) (i : Nat) (e : Elt) (um : UMap) : Elt × UMap × List Ev :=
  if maskEltInter m e then
    let rc := check_state i e.cover um
    (rc.1, rc.2.1, Ev.coverEv i :: rc.2.2)
  else (e, um, [])

/-- The walker part of the recover pass on one element: re-cover under
the walker, and on an interacting terminator resolve termination and, if
the walker detached, call `terminate` from inside the loop. -/
def polBranch (i : Nat) (e1 : Elt) (ms1 : MSt) : Elt × MSt × List Ev :=
  if polEltInter ms1.pol e1 then
    let ec := e1.cover
    if ec.check_interaction ms1.pol.name && ec.etype == "terminator" then
      let rt := resolve_termination ec ms1.pol ms1.draws
      let ms2 := { ms1 with pol := rt.2.1, draws := rt.2.2,
                            polymerases := syncPol ms1.polymerases rt.2.1 }
      if rt.2.1.attached == false then
        let tm := terminateInMove ms2
        (rt.1, tm.1, Ev.coverEv i :: tm.2)
      else (rt.1, ms2, [Ev.coverEv i])
    else (ec, ms1, [Ev.coverEv i])
  else (e1, ms1, [])

/-- The recover pass of `_move_polymerase` on the element at index `i`:
re-cover under the mask with edge detection, re-cover under the walker
with possible termination resolution and detachment, then the final edge
detection — which is skipped when the detachment raised. -/
def recoverElt (m : Mask) (i : Nat) (e : Elt) (ms : MSt) : Elt × MSt × List Ev :=
  let r1 := maskBranch m i e ms.uncovered
  let r2 := polBranch i r1.1 { ms with uncovered := r1.2.1 }
  let e2 := r2.1
  let ms2 := r2.2.1
  if ms2.err.isSome then (e2, ms2, r1.2.2 ++ r2.2.2)
  else
    let r3 := check_state i e2 ms2.uncovered
    (r3.1, { ms2 with uncovered := r3.2.1 }, r1.2.2 ++ r2.2.2 ++ r3.2.2)

/-- The recover loop over the element list; a pending error aborts it,
leaving the remaining elements untouched. -/
def recover (m : Mask) : Nat → List Elt → MSt → List Elt × MSt × List Ev
  | _, [], ms => ([], ms, [])
  | i, e :: rest, ms =>
    match ms.err with
    | some _ => (e :: rest, ms, [])
    | none =>
      let r1 := recoverElt m i e ms
      let r2 := recover m (i + 1) rest r1.2.1
      (r1.1 :: r2.1, r2.2.1, r1.2.2 ++ r2.2.2)

/-- `Polymer._move_polymerase` on the walker with identity `polId`:
reject an unbound walker; save-and-uncover; advance; resolve walker and
mask collisions (corruption aborts with the mutations so far); fire
`move_signal` when neither collision occurred; then the recover loop. -/
def move_polymerase (st : PSt) (polId : Nat) (draws : List Bool) :
    PSt × List Ev × Option Err :=
  match idxOfPol st.polymerases polId with
  | none => (st, [], some Err.runtime)
  | some idx =>
    match st.polymerases.get? idx with
    | none => (st, [], some Err.runtime)
    | some p0 =>
    let r1 := phase1 p0 st.mask 0 st.elements
    let p1 := p0.move
    let pols1 := syncPol st.polymerases p1
    match resolveCollisions pols1 idx p1 with
    | Except.error er => ({ st with elements := r1.1, polymerases := pols1 }, r1.2, some er)
    | Except.ok (p2, polC) =>
      let pols2 := syncPol pols1 p2
      match resolveMaskCollisions st.mask p2 with
      | Except.error er =>
        ({ st with elements := r1.1, polymerases := pols2 }, r1.2, some er)
      | Except.ok (m2, p3, maskC) =>
        let pols3 := syncPol pols2 p3
        let evs2 := if !polC && !maskC then [Ev.moveSig] else []
        let ms0 : MSt :=
          { kind := st.kind, pol := p3, polymerases := pols3,
            prop_list := st.prop_list, prop_sum := st.prop_sum,
            uncovered := st.uncovered, draws := draws, err := none }
        let r2 := recover m2 0 r1.1 ms0
        ({ st with elements := r2.1, mask := m2, polymerases := r2.2.1.polymerases,
                   prop_list := r2.2.1.prop_list, prop_sum := r2.2.1.prop_sum,
                   uncovered := r2.2.1.uncovered },
          r1.2 ++ evs2 ++ r2.2.2, r2.2.1.err)

/-- `Polymer.execute` with the propensity-weighted walker selection made
explicit: zero total propensity or an empty walker list raise, else the
walker at index `i` moves. -/
def execute (st : PSt) (i : Nat) (draws : List Bool) : PSt × List Ev × Option Err :=
  if st.prop_sum == 0 then (st, [], some Err.noActivity)
  else if st.prop_list.isEmpty then (st, [], some Err.runtime)
  else
    match st.polymerases.get? i with
    | none => (st, [], some Err.runtime)
    | some p => move_polymerase st p.id draws

/-- One successful external call, with every random choice universally
quantified: binding (any free matching promoter), execute (any walker,
any draw outcomes), shifting the mask, and terminating a bound walker.
A call that raises is not a step: its partial mutations are kept by the
run functions but the resulting state is not considered reached. -/
inductive Step : PSt → PSt → Prop where
  | bind (st : PSt) (pol : Pol) (promoter : String) (k : Nat) (st' : PSt)
      (tr : List Ev) :
      0 < pol.footprint →
      bind_polymerase st pol promoter k = (st', tr, none) → Step st st'
  | exec (st : PSt) (i : Nat) (draws : List Bool) (st' : PSt) (tr : List Ev) :
      execute st i draws = (st', tr, none) → Step st st'
  | shiftStep (st : PSt) : Step st (shift_mask st).1
  | termStep (st : PSt) (k : Nat) (h : k < st.polymerases.length) (st' : PSt)
      (tr : List Ev) :
      terminateRun st (st.polymerases.get ⟨k, h⟩) = (st', tr, none) → Step st st'

/-- Well-formed constructor input: pairwise non-overlapping elements with
fresh covering counters. -/
def ElemsWf (elements : List Elt) : Prop :=
  elements.Pairwise (fun a b =>
    elements_intersect a.start a.stop b.start b.stop = false) ∧
  ∀ e ∈ elements, e.covered = 0 ∧ e.old_covered = 0

/-- States reachable from a construction with well-formed elements by
successful external calls. -/
inductive Reach : PSt → Prop where
  | init (kind : PKind) (name : String) (length : Int) (elements : List Elt)
      (mask : Mask) (tmpl : List Gene) :
      ElemsWf elements → Reach (initPolymer kind name length elements mask tmpl)
  | step (st st' : PSt) : Reach st → Step st st' → Reach st'

/-- `Polymer.count_uncovered`: a pure cache read. -/
def count_uncovered (st : PSt) (species : String) : Int :=
  uget st.uncovered species

/-- `Polymer.calculate_propensity`: a pure cache read. -/
def calculate_propensity (st : PSt) : Int :=
  st.prop_sum

/-- Modelled from the spec: the `Promoter(name, start, stop,
interactions)` constructor of the missing feature.py. -/
def Promoter (name : String) (start stop : Int) (ints : List String) : Elt :=
  { name := name, etype := "promoter", start := start, stop := stop,
    interactions := ints, effs := [], gene := "", covered := 0,
    old_covered := 0, readthrough := false, reading_frame := 0 }

/-- Modelled from the spec: the `Terminator(name, start, stop, table)`
constructor of the missing feature.py; the table maps walker names to
termination efficiencies. -/
def Terminator (name : String) (start stop : Int) (table : List (String × Rat)) : Elt :=
  { name := name, etype := "terminator", start := start, stop := stop,
    interactions := table.map (fun kv => kv.1), effs := table, gene := "",
    covered := 0, old_covered := 0, readthrough := false, reading_frame := 0 }

/-- Modelled from the spec: the `Polymerase(name, footprint, speed)`
constructor of the missing feature.py; coordinates are assigned at
binding. -/
def Polymerase (id : Nat) (name : String) (fp speed : Int) : Pol :=
  { id := id, name := name, footprint := fp, speed := speed, start := 0,
    stop := 0, attached := true, last_gene := "", reading_frame := 0 }

/-- The coordinate pair of a walker; the geometric invariants of the
walker list depend only on these. -/
def coordsOf (p : Pol) : Int × Int := (p.start, p.stop)

/-- Name and coordinates of a walker: everything the geometric
invariants and the mask whitelist read. -/
def polKey (p : Pol) : String × Int × Int := (p.name, p.start, p.stop)

/-- Number of walkers in the list overlapping the element. -/
def wcount (ps : List Pol) (e : Elt) : Nat :=
  ps.countP fun p => polEltInter p e

/-- 1 when the mask overlaps the element, else 0. -/
def maskBitN (m : Mask) (e : Elt) : Nat := if maskEltInter m e then 1 else 0

/-- 1 when the walker overlaps the element, else 0. -/
def polBitN (p : Pol) (e : Elt) : Nat := if polEltInter p e then 1 else 0

/-- Pairwise non-overlapping elements. -/
def EltsDisjoint (es : List Elt) : Prop :=
  es.Pairwise fun a b =>
    elements_intersect a.start a.stop b.start b.stop = false

/-- Every element's covering counter dominates the number of walkers on
it plus the mask bit: the reserve that keeps the saturating `uncover`
exact through a move. -/
def CoverLB (es : List Elt) (ps : List Pol) (m : Mask) : Prop :=
  ∀ (j : Nat) (hj : j < es.length),
    wcount ps (es.get ⟨j, hj⟩) + maskBitN m (es.get ⟨j, hj⟩) ≤
      (es.get ⟨j, hj⟩).covered

/-- Strict ordering of the walker list: each walker ends before the next
one starts. -/
def WalkersOrdered (ps : List Pol) : Prop :=
  ps.Pairwise fun a b => a.stop < b.start

/-- Aliasing discipline of the recover loop: every list entry sharing the
moving walker's identity carries its name and coordinates. -/
def PolAliasKey (ms : MSt) : Prop :=
  ∀ r ∈ ms.polymerases, r.id = ms.pol.id → polKey r = polKey ms.pol

/-- The state invariant maintained by successful external calls: ordered
walkers with positive extent, only whitelisted walkers touching the
mask, distinct walker identities, pairwise disjoint elements and the
covering reserve. -/
def Inv (st : PSt) : Prop :=
  WalkersOrdered st.polymerases ∧
  (∀ p ∈ st.polymerases, p.start < p.stop) ∧
  (∀ p ∈ st.polymerases, polMaskInter p st.mask = true →
    st.mask.check_interaction p.name = true) ∧
  (st.polymerases.map Pol.id).Nodup ∧
  EltsDisjoint st.elements ∧
  CoverLB st.elements st.polymerases st.mask

/-- A polymer whose single terminator does not intersect the mask at
construction. -/
def c1st : PSt := initPolymer PKind.polymer "plm" 100
  [Terminator "myterm" 50 55 [("w", 1)]]
  { name := "mask", start := 60, stop := 100, interactions := [] } []

/-- A polymer with one free promoter at `[5, 15]`. -/
def c3st : PSt := initPolymer PKind.polymer "plm" 100
  [Promoter "p1" 5 15 ["w"]]
  { name := "mask", start := 20, stop := 100, interactions := [] } []

/-- The walker of the C3 scenario: footprint 10, speed 30. -/
def c3w : Pol := Polymerase 1 "w" 10 30

/-- C7 counterexample state: a free promoter `[5, 20]` with the mask
starting at 15, so that a footprint-10 walker binds with computed
stop 15 equal to `mask.start`. -/
def c7st : PSt :=
  { kind := PKind.polymer, name := "plm", length := 100,
    elements := [Promoter "p1" 5 20 ["w"]],
    mask := { name := "mask", start := 15, stop := 100, interactions := [] },
    polymerases := [], prop_list := [], prop_sum := 0,
    uncovered := [("p1", 1)], transcript_template := [] }

/-- The whitelisted walker of the C8 witness, one step into the mask. -/
def c8w : Pol := { Polymerase 1 "w" 10 30 with start := 11, stop := 21 }

/-- The mask of the C8 witness, whitelisting "w". -/
def c8m : Mask := { name := "mask", start := 21, stop := 100, interactions := ["w"] }

/-- The fully receded (zero-width) mask of the C8 counterexample: the
whitelisted walker `c8w` touches it, but `recede` cannot advance
`start` past `stop`. -/
def c8mz : Mask := { name := "mask", start := 21, stop := 21, interactions := ["w"] }

/-- Projection of an element onto the fields fixed at construction
(everything except the covering state and readthrough). -/
def eltCore (e : Elt) : String × String × Int × Int × List String × List (String × Rat) × String :=
  (e.name, e.etype, e.start, e.stop, e.interactions, e.effs, e.gene)

/-- The raw element list assembled by the `_build_transcript` loop. -/
def buildElts (tmpl : List Gene) (start stop : Int) : List Elt :=
  tmpl.foldr (fun g acc =>
    if decide (start ≤ g.start) && decide (g.stop ≤ stop) then
      rbsOf g :: tstopOf g :: acc
    else acc) []

/-- The element list built by `_build_transcript`, written with the
claim's field values. -/
def claimedTranscriptElts (tmpl : List Gene) (start stop : Int) :
    List (String × String × Int × Int × List String × List (String × Rat) × String) :=
  tmpl.foldr (fun g acc =>
    if start ≤ g.start ∧ g.stop ≤ stop then
      ("rbs", "promoter", g.start + g.rbs, g.start, ["ribosome"],
        ([] : List (String × Rat)), "") ::
      ("tstop", "terminator", g.stop - 1, g.stop, ["ribosome"],
        [(("ribosome" : String), (1 : Rat))], g.name) :: acc
    else acc) []

/-- The sample transcript template of the tests: three genes with
rbs offset −15, at `[10, 210]`, `[230, 270]` and `[300, 600]`. -/
def sampleTmpl : List Gene :=
  [{ name := "rnapol", start := 10, stop := 210, rbs := -15, glen := 200 },
   { name := "proteinX", start := 230, stop := 270, rbs := -15, glen := 40 },
   { name := "proteinY", start := 300, stop := 600, rbs := -15, glen := 300 }]

/-- The sample genome: length 700, no DNA elements needed for building,
sample template. -/
def c9st : PSt := initPolymer PKind.genome "gnm" 700 []
  { name := "mask", start := 10, stop := 700, interactions := [] } sampleTmpl

/-- A transcript state with one bound ribosome of speed 10, used by the
C6 and C10 scenarios. -/
def c6w : Pol :=
  { Polymerase 3 "ribo" 5 10 with start := 30, stop := 35, last_gene := "geneX" }

/-- The transcript state owning `c6w`. -/
def c6st : PSt :=
  { kind := PKind.transcript, name := "rna", length := 100, elements := [],
    mask := { name := "mask", start := 90, stop := 100, interactions := [] },
    polymerases := [c6w], prop_list := [10], prop_sum := 10,
    uncovered := [], transcript_template := [] }

/-- The genome of the C4 counterexample: one free promoter and an empty
transcript template, so that the base bind succeeds and the transcript
build then fails. -/
def c4st : PSt := initPolymer PKind.genome "gnm" 100
  [Promoter "p1" 5 15 ["w"]]
  { name := "mask", start := 20, stop := 100, interactions := [] } []

/-- The failing genome bind of the C4 counterexample. -/
def c4r : PSt × List Ev × Option Err := genome_bind c4st (Polymerase 1 "w" 10 30) "p1" 0

/-- The polymer of the AlreadyBound part of the C4 counterexample: two
free promoters sharing the name "p". -/
def c4ab0 : PSt := initPolymer PKind.polymer "plm" 100
  [Promoter "p" 5 15 ["w"], Promoter "p" 40 60 ["w"]]
  { name := "mask", start := 90, stop := 100, interactions := [] } []

/-- First bind of the AlreadyBound scenario (succeeds, covers the first
"p" promoter). -/
def c4ab1 : PSt × List Ev × Option Err :=
  bind_polymerase c4ab0 (Polymerase 1 "w" 10 30) "p" 0

/-- Second bind of the same walker object (its stored record), which
selects the second free "p" promoter and fails with AlreadyBound after
covering it and decrementing the cache. -/
def c4ab2 : PSt × List Ev × Option Err :=
  bind_polymerase c4ab1.1 { Polymerase 1 "w" 10 30 with start := 5, stop := 15 } "p" 0

/-- An event is a termination signal. -/
def isTermEv (ev : Ev) : Prop := ∃ a, ev = Ev.termination a

/-- A covering update (re-cover or edge signal) of an element strictly
after position `k` in the element list. -/
def taggedCoverUpd (k : Nat) (ev : Ev) : Prop :=
  (∃ j, k < j ∧ ev = Ev.coverEv j) ∨
  (∃ j nm, k < j ∧ ev = Ev.block j nm) ∨
  (∃ j nm, k < j ∧ ev = Ev.promoterFree j nm)

/-- The terminator of the C5 scenario, listed first, efficiency 1 for
"w", gene "geneX". -/
def c5T : Elt := { Terminator "t1" 17 22 [("w", 1)] with gene := "geneX" }

/-- The promoter of the C5 scenario, listed after the terminator. -/
def c5P : Elt := Promoter "p1" 5 15 ["w"]

/-- The walker of the C5 scenario, about to leave the promoter and enter
the terminator in the same move. -/
def c5w : Pol := { Polymerase 1 "w" 1 30 with start := 15, stop := 16 }

/-- The genome state of the C5 scenario: the walker at `[15, 16]` covers
the promoter; moving to `[16, 17]` leaves the promoter and enters the
terminator, which detaches it. -/
def c5st : PSt :=
  { kind := PKind.genome, name := "gnm", length := 100,
    elements := [c5T, { c5P with covered := 1, old_covered := 1 }],
    mask := { name := "mask", start := 90, stop := 100, interactions := [] },
    polymerases := [c5w], prop_list := [30], prop_sum := 30,
    uncovered := [("t1", 0), ("p1", 0)], transcript_template := [] }

/-- The polymer of the C2 scenario: three pairwise disjoint promoters,
two of them named "p". -/
def c2st0 : PSt := initPolymer PKind.polymer "plm" 200
  [Promoter "p" 5 15 ["w"], Promoter "q" 20 30 ["v"], Promoter "p" 40 60 ["w"]]
  { name := "mask", start := 90, stop := 100, interactions := [] } []

/-- First bind: walker 1 "w" onto the "p" promoter at `[5, 15]`. -/
def c2r1 : PSt × List Ev × Option Err :=
  bind_polymerase c2st0 (Polymerase 1 "w" 10 30) "p" 0

/-- Second bind: walker 2 "v" onto the "q" promoter at `[20, 30]`. -/
def c2r2 : PSt × List Ev × Option Err :=
  bind_polymerase c2r1.1 (Polymerase 2 "v" 8 20) "q" 0

/-- Third call: re-binding the already bound walker 1, which selects the
free "p" promoter at `[40, 60]` and fails with AlreadyBound after the
write-through has already teleported the stored walker. -/
def c2r3 : PSt × List Ev × Option Err :=
  bind_polymerase c2r2.1 (Polymerase 1 "w" 10 30) "p" 0

/-! ## Theorems -/

/-! ### C1: the `uncovered` cache versus the ground-truth recount -/

/-- C1 (code bug): at construction, an unmasked terminator is counted
into the `uncovered` cache, so `count_uncovered "myterm"` returns 1
while the ground truth `|{e : e.name = "myterm" ∧ e.covered = 0 ∧
e.type ≠ terminator}|` is 0.  The constructor contradicts the cache's
own documentation ("running count of free promoters") and the update
rule `_check_state`, which never counts terminators. -/
theorem uncovered_cache_counts_unmasked_terminator :
    count_uncovered c1st "myterm" = 1 ∧
    (c1st.elements.filter fun e =>
      e.name == "myterm" && e.covered == 0 && e.etype != "terminator").length = 0 ∧
    (1 : Int) ≠ 0 := by
  refine ⟨by decide, by decide, by decide⟩

/-! ### C3: binding coordinates -/

/-- C3 (code bug): binding a walker of footprint 10 to the promoter at
start 5 succeeds and sets the walker's interval to `[5, 15]` — the code
computes `stop = element.start + footprint` with no `− 1`, so the stop
is 15, not the 14 required by the claim (and asserted by the repo's own
test `test_bind_polymerase`). -/
theorem bind_stop_is_start_plus_footprint :
    (bind_polymerase c3st c3w "p1" 0).2.2 = none ∧
    (bind_polymerase c3st c3w "p1" 0).1.polymerases.map
      (fun p => (p.start, p.stop)) = [(5, 15)] ∧
    (5 : Int) + 10 - 1 = 14 ∧ (15 : Int) ≠ 14 := by
  refine ⟨by decide, by decide, by decide, by decide⟩

/-! ### C7: the two binding validations -/

/-- C7 counterexample: a binding whose computed `walker.stop` equals
`mask.start` is accepted (no error at all), not rejected with
OverlapsMask as the claim states — the source tests `pol.stop >
mask.start`, not `≥`. -/
theorem bind_accepts_stop_equal_mask_start :
    (bind_polymerase c7st c3w "p1" 0).2.2 = none ∧
    (bind_polymerase c7st c3w "p1" 0).1.polymerases.map
      (fun p => (p.start, p.stop)) = [(5, 15)] ∧
    c7st.mask.start = 15 := by
  refine ⟨by decide, by decide, by decide⟩

/-- C7 amended: on the selected element, `bind_polymerase` validates
`walker.stop ≤ element.stop` (FootprintTooLarge otherwise) and
`walker.stop ≤ mask.start` (OverlapsMask otherwise); a computed stop
equal to `mask.start` passes both validations. -/
theorem bind_validations (st : PSt) (pol : Pol) (promoter : String)
    (k i : Nat) (element : Elt)
    (hk : (element_choices st promoter).get? k = some i)
    (he : st.elements.get? i = some element)
    (hint : element.check_interaction pol.name = true) :
    (element.stop < element.start + pol.footprint →
      (bind_polymerase st pol promoter k).2.2 = some Err.footprintTooLarge) ∧
    (element.start + pol.footprint ≤ element.stop →
      st.mask.start < element.start + pol.footprint →
      (bind_polymerase st pol promoter k).2.2 = some Err.overlapsMask) ∧
    (element.start + pol.footprint ≤ element.stop →
      element.start + pol.footprint ≤ st.mask.start →
      (bind_polymerase st pol promoter k).2.2 ≠ some Err.footprintTooLarge ∧
      (bind_polymerase st pol promoter k).2.2 ≠ some Err.overlapsMask) := by
  have hne : (element_choices st promoter).isEmpty = false := by
    cases hcs : element_choices st promoter with
    | nil => rw [hcs] at hk; simp at hk
    | cons a l => simp [hcs]
  refine ⟨?_, ?_, ?_⟩
  · intro hlt
    simp only [bind_polymerase, hne, hk, he, hint, Bool.not_true, if_false]
    simp [hlt]
  · intro hle hmask
    simp only [bind_polymerase, hne, hk, he, hint, Bool.not_true, if_false]
    simp [not_lt.mpr hle, hmask]
  · intro hle hmle
    simp only [bind_polymerase, hne, hk, he, hint, Bool.not_true, if_false]
    simp only [not_lt.mpr hle, not_lt.mpr hmle, decide_eq_false,
      Bool.false_eq_true, if_false]
    cases hins : insert_polymerase
        { st with
          polymerases := syncPol st.polymerases
            { pol with start := element.start, stop := element.start + pol.footprint },
          elements := (st.elements.set i (element.cover.save_state)),
          uncovered := uset st.uncovered element.name (uget st.uncovered element.name - 1) }
        { pol with start := element.start, stop := element.start + pol.footprint } with
    | mk st3 oerr =>
      cases oerr with
      | none => simp [hins]
      | some er =>
        have : er = Err.alreadyBound := by
          by_contra hne2
          simp only [insert_polymerase] at hins
          split at hins
          · cases hins; exact hne2 rfl
          · cases hins
        subst this
        simp [hins]

/-- C7 witness: the validations at a concrete state. -/
theorem bind_validations_witness :
    (element_choices c3st "p1").get? 0 = some 0 ∧
    c3st.elements.get? 0 = some (Promoter "p1" 5 15 ["w"]) ∧
    (Promoter "p1" 5 15 ["w"]).check_interaction c3w.name = true ∧
    ((Promoter "p1" 5 15 ["w"]).start + c3w.footprint ≤ (Promoter "p1" 5 15 ["w"]).stop →
      (Promoter "p1" 5 15 ["w"]).start + c3w.footprint ≤ c3st.mask.start →
      (bind_polymerase c3st c3w "p1" 0).2.2 ≠ some Err.footprintTooLarge ∧
      (bind_polymerase c3st c3w "p1" 0).2.2 ≠ some Err.overlapsMask) := by
  refine ⟨by decide, by decide, by decide, ?_⟩
  exact (bind_validations c3st c3w "p1" 0 0 (Promoter "p1" 5 15 ["w"])
    (by decide) (by decide) (by decide)).2.2

/-! ### C8: mask collision resolution -/

/-- C8 (amended): when the moved walker intersects the mask in
`_resolve_mask_collisions`: an overlap of more than one position raises
Corruption; a whitelisted walker makes the mask recede — `mask.start`
advances by 1 when it has not yet reached `mask.stop`, and stays put
once `mask.start = mask.stop` — while the walker keeps its new position
and never rolls back; any other walker moves back one position and the
mask collision is recorded. -/
theorem mask_collision_cases (m : Mask) (p : Pol) (h : polMaskInter p m = true) :
    (1 < p.stop - m.start →
      resolveMaskCollisions m p = Except.error Err.corruption) ∧
    (p.stop - m.start ≤ 1 → m.check_interaction p.name = true →
      resolveMaskCollisions m p = Except.ok (m.recede, p, false) ∧
      (m.start < m.stop → m.recede.start = m.start + 1) ∧
      (¬m.start < m.stop → m.recede.start = m.start) ∧
      m.recede.stop = m.stop) ∧
    (p.stop - m.start ≤ 1 → m.check_interaction p.name = false →
      resolveMaskCollisions m p = Except.ok (m, p.move_back, true) ∧
      p.move_back.start = p.start - 1 ∧ p.move_back.stop = p.stop - 1) := by
  refine ⟨?_, ?_, ?_⟩
  · intro hlt
    simp [resolveMaskCollisions, h, hlt]
  · intro hle hint
    refine ⟨by simp [resolveMaskCollisions, h, not_lt.mpr hle, hint], ?_, ?_, rfl⟩
    · intro hlt
      show (if m.start < m.stop then m.start + 1 else m.start) = m.start + 1
      rw [if_pos hlt]
    · intro hlt
      show (if m.start < m.stop then m.start + 1 else m.start) = m.start
      rw [if_neg hlt]
  · intro hle hint
    simp [resolveMaskCollisions, h, not_lt.mpr hle, hint, Pol.move_back]

/-- C8 counterexample: a whitelisted walker touching the fully receded
mask `[21, 21]` keeps its position, but `recede` leaves `mask.start`
unchanged — the mask does not advance by 1, refuting the unconditional
"mask.start advances by 1". -/
theorem mask_stuck_at_stop :
    polMaskInter c8w c8mz = true ∧
    c8mz.check_interaction "w" = true ∧
    resolveMaskCollisions c8mz c8w = Except.ok (c8mz.recede, c8w, false) ∧
    c8mz.recede.start = 21 ∧ c8mz.start = 21 ∧ c8mz.stop = 21 ∧
    c8mz.recede.start ≠ c8mz.start + 1 := by
  refine ⟨by decide, by decide, by rfl, by decide, by decide, by decide, by decide⟩

/-- C8 witness: the three concrete outcomes — the whitelisted walker
pushes the wide mask from 21 to 22 keeping `[11, 21]`, and without the
whitelist the same walker rolls back to `[10, 20]`. -/
theorem mask_collision_cases_witness :
    resolveMaskCollisions c8m c8w = Except.ok (c8m.recede, c8w, false) ∧
    c8m.recede.start = 22 ∧
    resolveMaskCollisions { c8m with interactions := [] } c8w =
      Except.ok ({ c8m with interactions := [] }, c8w.move_back, true) ∧
    c8w.move_back.start = 10 ∧ c8w.move_back.stop = 20 := by
  refine ⟨?_, by decide, ?_, by rfl, by rfl⟩
  · exact ((mask_collision_cases c8m c8w (by decide)).2.1 (by decide) (by decide)).1
  · exact ((mask_collision_cases { c8m with interactions := [] } c8w
      (by decide)).2.2 (by decide) (by decide)).1

/-! ### C9: transcript construction -/

/-- The constructor scan only changes covering counts, never the
construction fields of the elements, and keeps their order. -/
theorem initFold_core (mask : Mask) :
    ∀ (es acc : List Elt) (um : UMap),
      ((es.foldl (initStep mask) (acc, um)).1).map eltCore =
        acc.map eltCore ++ es.map eltCore := by
  intro es
  induction es with
  | nil => intro acc um; simp
  | cons e rest ih =>
    intro acc um
    simp only [List.foldl_cons, initStep]
    by_cases hm : maskEltInter mask e = true
    · simp only [hm, if_true]
      rw [ih]
      simp [eltCore, Elt.cover]
    · simp only [Bool.not_eq_true] at hm
      simp only [hm, Bool.false_eq_true, if_false]
      rw [ih]
      simp [eltCore]

/-- Peeling one descriptor off the build loop. -/
theorem buildElts_cons (g : Gene) (rest : List Gene) (start stop : Int) :
    buildElts (g :: rest) start stop =
      if start ≤ g.start ∧ g.stop ≤ stop then
        rbsOf g :: tstopOf g :: buildElts rest start stop
      else buildElts rest start stop := by
  by_cases hg : start ≤ g.start ∧ g.stop ≤ stop
  · rw [if_pos hg]
    simp only [buildElts, List.foldr_cons]
    rw [if_pos (by simp [hg.1, hg.2])]
  · rw [if_neg hg]
    simp only [buildElts, List.foldr_cons]
    rw [if_neg (by rcases not_and_or.mp hg with h1 | h1 <;> simp [h1])]

/-- The build loop produces exactly the claim's elements, in template
order. -/
theorem buildElts_core (start stop : Int) :
    ∀ tmpl : List Gene,
      (buildElts tmpl start stop).map eltCore = claimedTranscriptElts tmpl start stop := by
  intro tmpl
  induction tmpl with
  | nil => rfl
  | cons g rest ih =>
    rw [buildElts_cons]
    by_cases hg : start ≤ g.start ∧ g.stop ≤ stop
    · rw [if_pos hg]
      simp only [claimedTranscriptElts, List.foldr_cons]
      rw [if_pos hg, List.map_cons, List.map_cons, ih]
      rfl
    · rw [if_neg hg]
      simp only [claimedTranscriptElts, List.foldr_cons]
      rw [if_neg hg, ih]
      rfl

/-- The build loop is empty exactly when no descriptor matches. -/
theorem buildElts_nil_iff (start stop : Int) :
    ∀ tmpl : List Gene,
      (buildElts tmpl start stop = [] ↔
        ∀ g ∈ tmpl, ¬(start ≤ g.start ∧ g.stop ≤ stop)) := by
  intro tmpl
  induction tmpl with
  | nil => simp [buildElts]
  | cons g rest ih =>
    rw [buildElts_cons]
    by_cases hg : start ≤ g.start ∧ g.stop ≤ stop
    · rw [if_pos hg]
      simp only [List.cons_ne_nil, false_iff]
      intro hall
      exact hall g (by simp) hg
    · rw [if_neg hg, ih]
      constructor
      · intro hall g2 hg2
        rcases List.mem_cons.mp hg2 with h2 | h2
        · subst h2; exact hg
        · exact hall g2 h2
      · intro hall g2 hg2
        exact hall g2 (List.mem_cons_of_mem _ hg2)

/-- `_build_transcript` after the asserts, phrased with `buildElts`. -/
theorem build_transcript_eq (st : PSt) (start stop : Int)
    (hs : 0 ≤ start) (hp : 0 < stop) :
    build_transcript st start stop =
      if (buildElts st.transcript_template start stop).isEmpty then
        Except.error Err.emptyTranscript
      else
        Except.ok (initPolymer PKind.transcript "rna" st.length
          (buildElts st.transcript_template start stop)
          { name := "mask", start := start, stop := stop, interactions := [] } []) := by
  simp only [build_transcript, buildElts, decide_eq_true hs, decide_eq_true hp,
    Bool.not_true, Bool.false_eq_true, if_false]

/-- C9: for nonnegative bounds, `_build_transcript` fails with
EmptyTranscript exactly when no template descriptor lies within
`[start, stop]`; otherwise it returns a transcript whose elements are,
in template order, an "rbs" promoter at `[g.start + rbs, g.start]`
interacting with the ribosome, and a "tstop" terminator at
`[g.stop − 1, g.stop]` with ribosome efficiency 1 and the gene recorded,
under the transcript mask `[start, stop]`; over `[200, 600]` the sample
three-gene template yields exactly the four claimed elements in order. -/
theorem build_transcript_spec :
    (∀ (st : PSt) (start stop : Int), 0 ≤ start → 0 < stop →
      (build_transcript st start stop = Except.error Err.emptyTranscript ↔
        ∀ g ∈ st.transcript_template, ¬(start ≤ g.start ∧ g.stop ≤ stop)) ∧
      (∀ t, build_transcript st start stop = Except.ok t →
        t.elements.map eltCore = claimedTranscriptElts st.transcript_template start stop ∧
        t.mask.start = start ∧ t.mask.stop = stop ∧ t.mask.interactions = [] ∧
        t.name = "rna" ∧ t.length = st.length)) ∧
    ((build_transcript c9st 200 600).toOption.map
        (fun t => (t.elements.map (fun e => (e.name, e.start, e.stop, e.gene, e.effs)),
          t.mask.start, t.mask.stop)) =
      some ([("rbs", 215, 230, "", []), ("tstop", 269, 270, "proteinX", [("ribosome", 1)]),
        ("rbs", 285, 300, "", []), ("tstop", 599, 600, "proteinY", [("ribosome", 1)])],
        200, 600)) := by
  constructor
  · intro st start stop hs hp
    rw [build_transcript_eq st start stop hs hp]
    constructor
    · by_cases he : buildElts st.transcript_template start stop = []
      · rw [if_pos (List.isEmpty_iff.mpr he)]
        constructor
        · intro _
          exact (buildElts_nil_iff start stop st.transcript_template).mp he
        · intro _
          rfl
      · rw [if_neg (by simpa [List.isEmpty_iff] using he)]
        constructor
        · intro hb
          exact Except.noConfusion hb
        · intro hall
          exact absurd ((buildElts_nil_iff start stop st.transcript_template).mpr hall) he
    · intro t ht
      by_cases he : buildElts st.transcript_template start stop = []
      · rw [if_pos (List.isEmpty_iff.mpr he)] at ht
        cases ht
      · rw [if_neg (by simpa [List.isEmpty_iff] using he)] at ht
        cases ht
        refine ⟨?_, rfl, rfl, rfl, rfl, rfl⟩
        simp only [initPolymer]
        rw [initFold_core]
        simp only [List.map_nil, List.nil_append]
        exact buildElts_core start stop st.transcript_template
  · rfl

/-- C9 witness: the general characterisation applied to the sample
genome over `[200, 600]`, which is not empty since proteinX matches. -/
theorem build_transcript_spec_witness :
    (build_transcript c9st 200 600 = Except.error Err.emptyTranscript ↔
      ∀ g ∈ c9st.transcript_template, ¬((200 : Int) ≤ g.start ∧ g.stop ≤ 600)) ∧
    ¬ ∀ g ∈ c9st.transcript_template, ¬((200 : Int) ≤ g.start ∧ g.stop ≤ 600) := by
  constructor
  · exact (build_transcript_spec.1 c9st 200 600 (by decide) (by decide)).1
  · intro hall
    exact hall { name := "proteinX", start := 230, stop := 270, rbs := -15, glen := 40 }
      (by decide) (by constructor <;> decide)

/-! ### C10: terminating an unbound walker -/

/-- C10: calling `terminate` on a walker that is not in the walker list
subtracts its speed from `prop_sum`, then raises from the identity
lookup, leaving both parallel lists unchanged and firing no signal — the
failure is not atomic and leaves `prop_sum` inconsistent. -/
theorem terminate_unbound_not_atomic (st : PSt) (pol : Pol)
    (h : idxOfPol st.polymerases pol.id = none) :
    terminateRun st pol =
      ({ st with prop_sum := st.prop_sum - pol.speed }, [], some Err.valueError) ∧
    (terminateRun st pol).1.polymerases = st.polymerases ∧
    (terminateRun st pol).1.prop_list = st.prop_list ∧
    (terminateRun st pol).1.prop_sum = st.prop_sum - pol.speed ∧
    (terminateRun st pol).2.1 = [] := by
  have hc : terminateCore st pol =
      ({ st with prop_sum := st.prop_sum - pol.speed }, [], some Err.valueError) := by
    simp only [terminateCore]
    rw [show ({ st with prop_sum := st.prop_sum - pol.speed } : PSt).polymerases =
      st.polymerases from rfl, h]
  have hr : terminateRun st pol =
      ({ st with prop_sum := st.prop_sum - pol.speed }, [], some Err.valueError) := by
    simp only [terminateRun, hc]
  exact ⟨hr, by rw [hr], by rw [hr], by rw [hr], by rw [hr]⟩

/-- C10 witness: the non-atomic failure at the concrete transcript state
with total propensity 10 and an unbound walker of speed 7 — `prop_sum`
ends at 3 with both lists untouched and no signal fired. -/
theorem terminate_unbound_not_atomic_witness :
    terminateRun c6st (Polymerase 99 "x" 5 7) =
      ({ c6st with prop_sum := 3 }, [], some Err.valueError) ∧
    ({ c6st with prop_sum := 3 } : PSt).polymerases = [c6w] := by
  constructor
  · exact ((terminate_unbound_not_atomic c6st (Polymerase 99 "x" 5 7)
      (by decide)).1).trans (by rfl)
  · rfl

/-! ### C6: terminating a bound walker -/

/-- C6 amended: `terminate` on a bound walker subtracts its speed from
`prop_sum`, removes walker and speed at the same index from the two
parallel lists and fires `propensity_changed`; the termination signal is
fired only by the subclasses — Genome with `(walker.name)` and
Transcript with `(walker.last_gene, walker.name)` — while the base
Polymer fires none. -/
theorem terminate_bound_spec (st : PSt) (pol : Pol) (k : Nat)
    (h : idxOfPol st.polymerases pol.id = some k) :
    terminateRun st pol =
      ({ st with prop_sum := st.prop_sum - pol.speed,
                 polymerases := st.polymerases.eraseIdx k,
                 prop_list := st.prop_list.eraseIdx k },
        Ev.propensity :: (match st.kind with
          | PKind.polymer => []
          | PKind.genome => [Ev.termination [pol.name]]
          | PKind.transcript => [Ev.termination [pol.last_gene, pol.name]]),
        none) := by
  have hc : terminateCore st pol =
      ({ st with prop_sum := st.prop_sum - pol.speed,
                 polymerases := st.polymerases.eraseIdx k,
                 prop_list := st.prop_list.eraseIdx k }, [Ev.propensity], none) := by
    simp only [terminateCore]
    rw [show ({ st with prop_sum := st.prop_sum - pol.speed } : PSt).polymerases =
      st.polymerases from rfl, h]
  cases hk : st.kind <;> simp [terminateRun, hc, hk]

/-- C6 witness: terminating the bound ribosome of the concrete
transcript state — speed 10 leaves `prop_sum` 0, both lists empty, and
the transcript fires `(last_gene, name)`. -/
theorem terminate_bound_spec_witness :
    terminateRun c6st c6w =
      ({ c6st with prop_sum := 0, polymerases := [], prop_list := [] },
        [Ev.propensity, Ev.termination ["geneX", "ribo"]], none) := by
  exact (terminate_bound_spec c6st c6w 0 (by decide)).trans (by rfl)

/-- C6 counterexample: the claim's `termination_signal(walker.name,
walker.last_gene)` never fires — the Transcript override fires the
arguments in the opposite order `(last_gene, name)`, and the base
Polymer `terminate` fires no termination signal at all. -/
theorem terminate_signal_mismatch :
    (terminateRun c6st c6w).2.1 = [Ev.propensity, Ev.termination ["geneX", "ribo"]] ∧
    c6w.name = "ribo" ∧ c6w.last_gene = "geneX" ∧
    Ev.termination ["ribo", "geneX"] ∉ (terminateRun c6st c6w).2.1 ∧
    (terminateRun { c6st with kind := PKind.polymer } c6w).2.1 = [Ev.propensity] := by
  refine ⟨by rfl, by rfl, by rfl, by decide, by rfl⟩

/-! ### C4: state preservation on contract violations -/

/-- The identity lookup fails exactly when no list entry carries the
identity. -/
theorem idxOfPol_eq_none_iff (ps : List Pol) (x : Nat) :
    idxOfPol ps x = none ↔ ∀ q ∈ ps, q.id ≠ x := by
  induction ps with
  | nil => simp [idxOfPol]
  | cons q rest ih =>
    by_cases hq : q.id = x
    · simp [idxOfPol, hq]
    · constructor
      · intro h r hr
        rcases List.mem_cons.mp hr with hr | hr
        · subst hr; exact hq
        · refine ih.mp ?_ r hr
          cases hmap : idxOfPol rest x with
          | none => rfl
          | some j =>
            rw [idxOfPol, if_neg (by simp [hq]), hmap] at h
            simp at h
      · intro hall
        rw [idxOfPol, if_neg (by simp [hq]),
          ih.mpr (fun r hr => hall r (List.mem_cons_of_mem _ hr))]
        rfl

/-- Write-through on a walker identity absent from the list is the
identity. -/
theorem syncPol_eq_of_not_mem (ps : List Pol) (p : Pol)
    (h : idxOfPol ps p.id = none) : syncPol ps p = ps := by
  have hall : ∀ q ∈ ps, (q.id == p.id) = false := by
    intro q hq
    exact beq_eq_false_iff_ne.mpr ((idxOfPol_eq_none_iff ps p.id).mp h q hq)
  calc syncPol ps p = ps.map id := by
        apply List.map_congr_left
        intro q hq
        simp [syncPol, hall q hq]
    _ = ps := List.map_id ps

/-- C4 amended: the contract violations NotFound, IncompatibleBinding,
FootprintTooLarge and OverlapsMask (the latter two for a walker that is
not already bound) and NoActivity leave the polymer state exactly as it
was, with no signal fired; AlreadyBound and EmptyTranscript are not
state-preserving (see the counterexample). -/
theorem contract_errors_state (st : PSt) (pol : Pol) (promoter : String) (k : Nat) :
    ((element_choices st promoter).isEmpty = true →
      bind_polymerase st pol promoter k = (st, [], some Err.notFound)) ∧
    (∀ i element, (element_choices st promoter).get? k = some i →
      st.elements.get? i = some element →
      element.check_interaction pol.name = false →
      bind_polymerase st pol promoter k = (st, [], some Err.incompatibleBinding)) ∧
    (∀ i element, (element_choices st promoter).get? k = some i →
      st.elements.get? i = some element →
      element.check_interaction pol.name = true →
      idxOfPol st.polymerases pol.id = none →
      element.stop < element.start + pol.footprint →
      bind_polymerase st pol promoter k = (st, [], some Err.footprintTooLarge)) ∧
    (∀ i element, (element_choices st promoter).get? k = some i →
      st.elements.get? i = some element →
      element.check_interaction pol.name = true →
      idxOfPol st.polymerases pol.id = none →
      element.start + pol.footprint ≤ element.stop →
      st.mask.start < element.start + pol.footprint →
      bind_polymerase st pol promoter k = (st, [], some Err.overlapsMask)) ∧
    (∀ i draws, st.prop_sum = 0 →
      execute st i draws = (st, [], some Err.noActivity)) := by
  refine ⟨?_, ?_, ?_, ?_, ?_⟩
  · intro he
    simp [bind_polymerase, he]
  · intro i element hk he hint
    have hne : (element_choices st promoter).isEmpty = false := by
      cases hcs : element_choices st promoter with
      | nil => rw [hcs] at hk; simp at hk
      | cons a l => simp [hcs]
    have hk2 : (element_choices st promoter)[k]? = some i := by
      rw [← List.get?_eq_getElem?]; exact hk
    have he2 : st.elements[i]? = some element := by
      rw [← List.get?_eq_getElem?]; exact he
    simp [bind_polymerase, hne, hk2, he2, hint]
  · intro i element hk he hint hid hlt
    have hne : (element_choices st promoter).isEmpty = false := by
      cases hcs : element_choices st promoter with
      | nil => rw [hcs] at hk; simp at hk
      | cons a l => simp [hcs]
    have hk2 : (element_choices st promoter)[k]? = some i := by
      rw [← List.get?_eq_getElem?]; exact hk
    have he2 : st.elements[i]? = some element := by
      rw [← List.get?_eq_getElem?]; exact he
    have hsync := syncPol_eq_of_not_mem st.polymerases
      { pol with start := element.start, stop := element.start + pol.footprint }
      (by simpa using hid)
    simp [bind_polymerase, hne, hk2, he2, hint, hlt, hsync]
  · intro i element hk he hint hid hle hmask
    have hne : (element_choices st promoter).isEmpty = false := by
      cases hcs : element_choices st promoter with
      | nil => rw [hcs] at hk; simp at hk
      | cons a l => simp [hcs]
    have hk2 : (element_choices st promoter)[k]? = some i := by
      rw [← List.get?_eq_getElem?]; exact hk
    have he2 : st.elements[i]? = some element := by
      rw [← List.get?_eq_getElem?]; exact he
    have hsync := syncPol_eq_of_not_mem st.polymerases
      { pol with start := element.start, stop := element.start + pol.footprint }
      (by simpa using hid)
    simp [bind_polymerase, hne, hk2, he2, hint, not_lt.mpr hle, hmask, hsync]
  · intro i draws hz
    simp [execute, hz]

/-- C4 witness: the NotFound and NoActivity branches at concrete states
return the input state unchanged. -/
theorem contract_errors_state_witness :
    bind_polymerase c1st c3w "nope" 0 = (c1st, [], some Err.notFound) ∧
    execute c1st 0 [] = (c1st, [], some Err.noActivity) := by
  constructor
  · exact (contract_errors_state c1st c3w "nope" 0).1 (by decide)
  · exact (contract_errors_state c1st c3w "nope" 0).2.2.2.2 0 [] (by decide)

/-- C4 counterexample: a `Genome.bind_polymerase` call failing with
EmptyTranscript leaves the walker bound, `prop_sum` raised from 0 to 30
and the propensity signal fired; and a bind failing with AlreadyBound
leaves the selected promoter covered with `uncovered["p"]` decremented
from 1 to 0 — both contradict "kernel state unchanged". -/
theorem contract_errors_counterexample :
    c4r.2.2 = some Err.emptyTranscript ∧
    c4r.1.prop_sum = 30 ∧ c4st.prop_sum = 0 ∧
    c4r.1.polymerases.length = 1 ∧ c4st.polymerases.length = 0 ∧
    c4r.2.1 = [Ev.coverEv 0, Ev.propensity] ∧
    c4ab2.2.2 = some Err.alreadyBound ∧
    uget c4ab1.1.uncovered "p" = 1 ∧ uget c4ab2.1.uncovered "p" = 0 ∧
    (c4ab2.1.elements.map Elt.covered ≠ c4ab1.1.elements.map Elt.covered) := by
  refine ⟨by rfl, by rfl, by rfl, by rfl, by rfl, by rfl, by rfl, by rfl, by rfl, by decide⟩

/-! ### C5: ordering of the termination signal inside a move -/

/-- Write-through never changes the identities in the list. -/
theorem syncPol_map_id (ps : List Pol) (p : Pol) :
    (syncPol ps p).map Pol.id = ps.map Pol.id := by
  induction ps with
  | nil => rfl
  | cons q rest ih =>
    simp only [syncPol, List.map_cons] at ih ⊢
    by_cases hq : q.id = p.id
    · rw [if_pos (by simp [hq]), ih, hq]
    · rw [if_neg (by simp [hq]), ih]

/-- Identity lookup is invariant under write-through. -/
theorem idxOfPol_syncPol (ps : List Pol) (p : Pol) (x : Nat) :
    idxOfPol (syncPol ps p) x = idxOfPol ps x := by
  induction ps with
  | nil => rfl
  | cons q rest ih =>
    simp only [syncPol, List.map_cons] at ih ⊢
    by_cases hq : q.id = p.id
    · rw [if_pos (by simp [hq])]
      simp only [idxOfPol, hq]
      rw [ih]
    · rw [if_neg (by simp [hq])]
      simp only [idxOfPol]
      rw [ih]

/-- Deleting at an index commutes with taking identities. -/
theorem map_id_eraseIdx (ps : List Pol) :
    ∀ i, (ps.eraseIdx i).map Pol.id = (ps.map Pol.id).eraseIdx i := by
  induction ps with
  | nil => intro i; simp
  | cons q rest ih =>
    intro i
    cases i with
    | zero => simp
    | succ j => simp [List.eraseIdx_cons_succ, ih j]

/-- With distinct identities, erasing the found entry removes the
identity from the list. -/
theorem idxOfPol_eraseIdx (ps : List Pol) (x : Nat) :
    ∀ idx, (ps.map Pol.id).Nodup → idxOfPol ps x = some idx →
      idxOfPol (ps.eraseIdx idx) x = none := by
  induction ps with
  | nil => intro idx _ h; cases h
  | cons q rest ih =>
    intro idx hnd h
    by_cases hq : q.id = x
    · rw [idxOfPol, if_pos (by simp [hq])] at h
      cases h
      rw [List.eraseIdx_cons_zero]
      rw [idxOfPol_eq_none_iff]
      intro r hr
      have : q.id ∉ rest.map Pol.id := (List.nodup_cons.mp hnd).1
      intro hrx
      exact this (by rw [hq, ← hrx]; exact List.mem_map_of_mem Pol.id hr)
    · rw [idxOfPol, if_neg (by simp [hq])] at h
      cases hrest : idxOfPol rest x with
      | none => rw [hrest] at h; cases h
      | some j =>
        rw [hrest] at h
        simp only [Option.map_some'] at h
        cases h
        rw [List.eraseIdx_cons_succ]
        rw [idxOfPol, if_neg (by simp [hq]),
          ih j (List.nodup_cons.mp hnd).2 hrest]
        rfl

/-- The edge detector fires only block or promoter signals about its own
element index. -/
theorem check_state_evs (i : Nat) (e : Elt) (um : UMap) :
    ∀ ev ∈ (check_state i e um).2.2,
      (∃ nm, ev = Ev.block i nm) ∨ ∃ nm, ev = Ev.promoterFree i nm := by
  intro ev hev
  by_cases h1 : (e.was_covered && e.etype != "terminator") = true
  · by_cases h2 : e.save_state.was_uncovered = true
    · by_cases h3 : (e.save_state.etype == "terminator") = true
      · simp [check_state, h1, h2, h3] at hev
        exact Or.inl ⟨e.name, hev⟩
      · simp [check_state, h1, h2, h3] at hev
        rcases hev with hev | hev
        · exact Or.inl ⟨e.name, hev⟩
        · exact Or.inr ⟨e.save_state.name, hev⟩
    · simp [check_state, h1, h2] at hev
      exact Or.inl ⟨e.name, hev⟩
  · by_cases h2 : e.was_uncovered = true
    · by_cases h3 : (e.etype == "terminator") = true
      · simp [check_state, h1, h2, h3] at hev
      · simp [check_state, h1, h2, h3] at hev
        exact Or.inr ⟨e.name, hev⟩
    · simp [check_state, h1, h2] at hev

/-- The edge detector is silent on terminators. -/
theorem check_state_terminator_evs (i : Nat) (e : Elt) (um : UMap)
    (h : e.etype = "terminator") : (check_state i e um).2.2 = [] := by
  have h1 : (e.was_covered && e.etype != "terminator") = false := by
    simp [h]
  by_cases h2 : e.was_uncovered = true
  · simp [check_state, h1, h2, h]
  · simp [check_state, h1, h2]

/-- The edge detector never changes an element's type. -/
theorem check_state_etype (i : Nat) (e : Elt) (um : UMap) :
    (check_state i e um).1.etype = e.etype := by
  simp only [check_state]
  by_cases h1 : (e.was_covered && e.etype != "terminator") = true
  · rw [if_pos h1]
    split
    · split <;> rfl
    · rfl
  · rw [if_neg h1]
    split
    · split <;> rfl
    · rfl

/-- Splitting a concatenation at an occurrence that lies in the right
part. -/
theorem split_right {α : Type} (x : α) :
    ∀ (l1 l2 pre post : List α), x ∉ l1 →
      l1 ++ l2 = pre ++ x :: post →
      ∃ pre2, l2 = pre2 ++ x :: post ∧ pre = l1 ++ pre2 := by
  intro l1
  induction l1 with
  | nil =>
    intro l2 pre post _ h
    exact ⟨pre, by simpa using h, by simp⟩
  | cons a l1 ih =>
    intro l2 pre post hx h
    cases pre with
    | nil =>
      simp only [List.nil_append, List.cons_append, List.cons.injEq] at h
      exact absurd (h.1 ▸ List.mem_cons_self a l1) hx
    | cons p pre2 =>
      simp only [List.cons_append, List.cons.injEq] at h
      obtain ⟨rfl, h2⟩ := h
      obtain ⟨pre3, hl2, hpre⟩ := ih l2 pre2 post (fun hm => hx (List.mem_cons_of_mem _ hm)) h2
      exact ⟨pre3, hl2, by rw [hpre]; rfl⟩

/-- A list with a unique marked element splits only at that element. -/
theorem unique_term_position :
    ∀ (A : List Ev) (B pre post : List Ev) (x y : Ev), isTermEv x → isTermEv y →
      (∀ z ∈ A, ¬isTermEv z) → (∀ z ∈ B, ¬isTermEv z) →
      A ++ x :: B = pre ++ y :: post →
      pre = A ∧ y = x ∧ post = B := by
  intro A
  induction A with
  | nil =>
    intro B pre post x y hx hy hA hB h
    cases pre with
    | nil =>
      simp only [List.nil_append, List.cons.injEq] at h
      exact ⟨rfl, h.1.symm, h.2.symm⟩
    | cons p pre2 =>
      simp only [List.nil_append, List.cons_append, List.cons.injEq] at h
      exfalso
      have : y ∈ B := by
        rw [h.2]
        exact List.mem_append_right pre2 (List.mem_cons_self y post)
      exact hB y this hy
  | cons a A ih =>
    intro B pre post x y hx hy hA hB h
    cases pre with
    | nil =>
      simp only [List.nil_append, List.cons_append, List.cons.injEq] at h
      exact absurd (h.1 ▸ hy) (hA a (List.mem_cons_self a A))
    | cons p pre2 =>
      simp only [List.cons_append, List.cons.injEq] at h
      obtain ⟨rfl, h2⟩ := h
      obtain ⟨hp, hyx, hpost⟩ := ih B pre2 post x y hx hy
        (fun z hz => hA z (List.mem_cons_of_mem _ hz)) hB h2
      exact ⟨by rw [hp], hyx, hpost⟩

/-- The first pass returns the mapped element list. -/
theorem phase1_fst (p : Pol) (m : Mask) :
    ∀ (es : List Elt) (i : Nat), (phase1 p m i es).1 = es.map (phase1Elt p m) := by
  intro es
  induction es with
  | nil => intro i; rfl
  | cons e rest ih => intro i; simp [phase1, ih]

/-- The first pass emits only uncover events. -/
theorem phase1_evs (p : Pol) (m : Mask) :
    ∀ (es : List Elt) (i : Nat), ∀ ev ∈ (phase1 p m i es).2, ∃ j, ev = Ev.uncoverEv j := by
  intro es
  induction es with
  | nil => intro i ev hev; cases hev
  | cons e rest ih =>
    intro i ev hev
    simp only [phase1, List.mem_append] at hev
    rcases hev with (hev | hev) | hev
    · by_cases hp : polEltInter p e = true
      · simp [hp] at hev; exact ⟨i, hev⟩
      · simp [hp] at hev
    · by_cases hm : maskEltInter m e = true
      · simp [hm] at hev; exact ⟨i, hev⟩
      · simp [hm] at hev
    · exact ih (i + 1) ev hev

/-- Save-and-uncover does not change an element's type. -/
theorem phase1Elt_etype (p : Pol) (m : Mask) (e : Elt) :
    (phase1Elt p m e).etype = e.etype := by
  simp only [phase1Elt]
  by_cases hp : polEltInter p e = true
  · rw [if_pos hp]
    split <;> rfl
  · rw [if_neg hp]
    split <;> rfl

/-- Termination resolution preserves the walker's identity and
coordinates. -/
theorem resolve_termination_pol (e : Elt) (p : Pol) (d : List Bool) :
    (resolve_termination e p d).2.1.id = p.id ∧
    (resolve_termination e p d).2.1.start = p.start ∧
    (resolve_termination e p d).2.1.stop = p.stop ∧
    (resolve_termination e p d).2.1.speed = p.speed ∧
    (resolve_termination e p d).2.1.name = p.name := by
  simp only [resolve_termination]
  split
  · exact ⟨rfl, rfl, rfl, rfl, rfl⟩
  · split
    · exact ⟨rfl, rfl, rfl, rfl, rfl⟩
    · split
      · exact ⟨rfl, rfl, rfl, rfl, rfl⟩
      · split
        · exact ⟨rfl, rfl, rfl, rfl, rfl⟩
        · exact ⟨rfl, rfl, rfl, rfl, rfl⟩

/-- Termination resolution preserves the element's type and
coordinates. -/
theorem resolve_termination_elt (e : Elt) (p : Pol) (d : List Bool) :
    (resolve_termination e p d).1.etype = e.etype := by
  simp only [resolve_termination]
  split
  · rfl
  · split
    · rfl
    · split
      · rfl
      · split <;> rfl

/-- Equation: the recover loop on the empty list. -/
theorem recover_nil (m : Mask) (i : Nat) (ms : MSt) :
    recover m i [] ms = ([], ms, []) := rfl

/-- Equation: the recover loop aborts on a pending error. -/
theorem recover_err (m : Mask) :
    ∀ (es : List Elt) (i : Nat) (ms : MSt) (er : Err), ms.err = some er →
      recover m i es ms = (es, ms, []) := by
  intro es i ms er h
  cases es with
  | nil => rfl
  | cons e rest => simp [recover, h]

/-- Equation: one step of the recover loop. -/
theorem recover_cons (m : Mask) (i : Nat) (e : Elt) (rest : List Elt) (ms : MSt)
    (h : ms.err = none) :
    recover m i (e :: rest) ms =
      ((recoverElt m i e ms).1 :: (recover m (i + 1) rest (recoverElt m i e ms).2.1).1,
       (recover m (i + 1) rest (recoverElt m i e ms).2.1).2.1,
       (recoverElt m i e ms).2.2 ++ (recover m (i + 1) rest (recoverElt m i e ms).2.1).2.2) := by
  simp [recover, h]

/-- The mask part of a recover step only fires cover/edge events about
its own element index. -/
theorem maskBranch_evs (m : Mask) (i : Nat) (e : Elt) (um : UMap) :
    ∀ ev ∈ (maskBranch m i e um).2.2,
      ev = Ev.coverEv i ∨ (∃ nm, ev = Ev.block i nm) ∨
        ∃ nm, ev = Ev.promoterFree i nm := by
  intro ev hev
  by_cases hm : maskEltInter m e = true
  · simp only [maskBranch, hm, if_true, List.mem_cons] at hev
    rcases hev with hev | hev
    · exact Or.inl hev
    · rcases check_state_evs i e.cover um ev hev with h | h
      · exact Or.inr (Or.inl h)
      · exact Or.inr (Or.inr h)
  · simp [maskBranch, hm] at hev

/-- The mask part of a recover step preserves the element's type. -/
theorem maskBranch_etype (m : Mask) (i : Nat) (e : Elt) (um : UMap) :
    (maskBranch m i e um).1.etype = e.etype := by
  by_cases hm : maskEltInter m e = true
  · simp only [maskBranch, hm, if_true]
    exact check_state_etype i e.cover um
  · simp [maskBranch, hm]

/-- The two outcomes of the in-loop `terminate` call. -/
theorem terminateInMove_cases (ms : MSt) :
    (idxOfPol ms.polymerases ms.pol.id = none →
      terminateInMove ms =
        ({ ms with prop_sum := ms.prop_sum - ms.pol.speed,
                   err := some Err.valueError }, [])) ∧
    (∀ j, idxOfPol ms.polymerases ms.pol.id = some j →
      terminateInMove ms =
        ({ ms with prop_sum := ms.prop_sum - ms.pol.speed,
                   polymerases := ms.polymerases.eraseIdx j,
                   prop_list := ms.prop_list.eraseIdx j },
          Ev.propensity :: (match ms.kind with
            | PKind.polymer => []
            | PKind.genome => [Ev.termination [ms.pol.name]]
            | PKind.transcript =>
              [Ev.termination [ms.pol.last_gene, ms.pol.name]]))) := by
  constructor
  · intro h
    simp only [terminateInMove]
    rw [show ({ ms with prop_sum := ms.prop_sum - ms.pol.speed } : MSt).polymerases =
      ms.polymerases from rfl, h]
  · intro j h
    simp only [terminateInMove]
    rw [show ({ ms with prop_sum := ms.prop_sum - ms.pol.speed } : MSt).polymerases =
      ms.polymerases from rfl, h]
    cases hk : ms.kind <;> simp [hk]

/-- Equation: the walker part when the walker misses the element. -/
theorem polBranch_eq_miss (i : Nat) (e1 : Elt) (ms1 : MSt)
    (hp : polEltInter ms1.pol e1 = false) :
    polBranch i e1 ms1 = (e1, ms1, []) := by
  simp [polBranch, hp]

/-- Equation: the walker part on a covered element that is not an
interacting terminator. -/
theorem polBranch_eq_cover (i : Nat) (e1 : Elt) (ms1 : MSt)
    (hp : polEltInter ms1.pol e1 = true)
    (ht : (e1.cover.check_interaction ms1.pol.name &&
      e1.cover.etype == "terminator") = false) :
    polBranch i e1 ms1 = (e1.cover, ms1, [Ev.coverEv i]) := by
  simp [polBranch, hp, ht]

/-- Equation: the walker part on an interacting terminator that does not
detach the walker. -/
theorem polBranch_eq_alive (i : Nat) (e1 : Elt) (ms1 : MSt)
    (hp : polEltInter ms1.pol e1 = true)
    (ht : (e1.cover.check_interaction ms1.pol.name &&
      e1.cover.etype == "terminator") = true)
    (ha : (resolve_termination e1.cover ms1.pol ms1.draws).2.1.attached = true) :
    polBranch i e1 ms1 =
      ((resolve_termination e1.cover ms1.pol ms1.draws).1,
        { ms1 with
            pol := (resolve_termination e1.cover ms1.pol ms1.draws).2.1,
            draws := (resolve_termination e1.cover ms1.pol ms1.draws).2.2,
            polymerases := syncPol ms1.polymerases
              (resolve_termination e1.cover ms1.pol ms1.draws).2.1 },
        [Ev.coverEv i]) := by
  simp only [polBranch, hp, if_true, ht]
  rw [if_neg (by simp [ha])]

/-- Equation: the walker part when the walker detaches but is no longer
in the list — the in-loop `terminate` raises. -/
theorem polBranch_eq_term_err (i : Nat) (e1 : Elt) (ms1 : MSt)
    (hp : polEltInter ms1.pol e1 = true)
    (ht : (e1.cover.check_interaction ms1.pol.name &&
      e1.cover.etype == "terminator") = true)
    (ha : (resolve_termination e1.cover ms1.pol ms1.draws).2.1.attached = false)
    (hidx : idxOfPol (syncPol ms1.polymerases
        (resolve_termination e1.cover ms1.pol ms1.draws).2.1)
        (resolve_termination e1.cover ms1.pol ms1.draws).2.1.id = none) :
    polBranch i e1 ms1 =
      ((resolve_termination e1.cover ms1.pol ms1.draws).1,
        { ms1 with
            pol := (resolve_termination e1.cover ms1.pol ms1.draws).2.1,
            draws := (resolve_termination e1.cover ms1.pol ms1.draws).2.2,
            polymerases := syncPol ms1.polymerases
              (resolve_termination e1.cover ms1.pol ms1.draws).2.1,
            prop_sum := ms1.prop_sum -
              (resolve_termination e1.cover ms1.pol ms1.draws).2.1.speed,
            err := some Err.valueError },
        [Ev.coverEv i]) := by
  simp only [polBranch, hp, if_true, ht]
  rw [if_pos (by simp [ha])]
  rw [(terminateInMove_cases _).1 hidx]

/-- Equation: the walker part when the walker detaches and is removed by
the in-loop `terminate`. -/
theorem polBranch_eq_term (i : Nat) (e1 : Elt) (ms1 : MSt) (j : Nat)
    (hp : polEltInter ms1.pol e1 = true)
    (ht : (e1.cover.check_interaction ms1.pol.name &&
      e1.cover.etype == "terminator") = true)
    (ha : (resolve_termination e1.cover ms1.pol ms1.draws).2.1.attached = false)
    (hidx : idxOfPol (syncPol ms1.polymerases
        (resolve_termination e1.cover ms1.pol ms1.draws).2.1)
        (resolve_termination e1.cover ms1.pol ms1.draws).2.1.id = some j) :
    polBranch i e1 ms1 =
      ((resolve_termination e1.cover ms1.pol ms1.draws).1,
        { ms1 with
            pol := (resolve_termination e1.cover ms1.pol ms1.draws).2.1,
            draws := (resolve_termination e1.cover ms1.pol ms1.draws).2.2,
            polymerases := (syncPol ms1.polymerases
              (resolve_termination e1.cover ms1.pol ms1.draws).2.1).eraseIdx j,
            prop_list := ms1.prop_list.eraseIdx j,
            prop_sum := ms1.prop_sum -
              (resolve_termination e1.cover ms1.pol ms1.draws).2.1.speed },
        Ev.coverEv i :: Ev.propensity :: (match ms1.kind with
          | PKind.polymer => []
          | PKind.genome => [Ev.termination
              [(resolve_termination e1.cover ms1.pol ms1.draws).2.1.name]]
          | PKind.transcript => [Ev.termination
              [(resolve_termination e1.cover ms1.pol ms1.draws).2.1.last_gene,
               (resolve_termination e1.cover ms1.pol ms1.draws).2.1.name]])) := by
  simp only [polBranch, hp, if_true, ht]
  rw [if_pos (by simp [ha])]
  rw [(terminateInMove_cases _).2 j hidx]

/-- The walker part of a recover step only write-throughs or erases in
the walker list, keeps the moving walker's identity, coordinates and
kind, and either keeps no error or raises the in-loop ValueError. -/
theorem polBranch_state (i : Nat) (e1 : Elt) (ms1 : MSt) (h0 : ms1.err = none) :
    ((polBranch i e1 ms1).2.1.polymerases.map Pol.id).Sublist
      (ms1.polymerases.map Pol.id) ∧
    (polBranch i e1 ms1).2.1.pol.id = ms1.pol.id ∧
    (polBranch i e1 ms1).2.1.kind = ms1.kind ∧
    (polBranch i e1 ms1).2.1.pol.start = ms1.pol.start ∧
    (polBranch i e1 ms1).2.1.pol.stop = ms1.pol.stop ∧
    ((polBranch i e1 ms1).2.1.err = none ∨
      (polBranch i e1 ms1).2.1.err = some Err.valueError) := by
  by_cases hp : polEltInter ms1.pol e1 = true
  · by_cases ht : (e1.cover.check_interaction ms1.pol.name &&
        e1.cover.etype == "terminator") = true
    · obtain ⟨hid, hstart, hstop, hspeed, hname⟩ :=
        resolve_termination_pol e1.cover ms1.pol ms1.draws
      by_cases ha : (resolve_termination e1.cover ms1.pol ms1.draws).2.1.attached = true
      · rw [polBranch_eq_alive i e1 ms1 hp ht ha]
        exact ⟨by rw [syncPol_map_id], hid, rfl, hstart, hstop, Or.inl h0⟩
      · have ha2 : (resolve_termination e1.cover ms1.pol ms1.draws).2.1.attached = false := by
          revert ha
          cases (resolve_termination e1.cover ms1.pol ms1.draws).2.1.attached <;> simp
        cases hidx : idxOfPol (syncPol ms1.polymerases
            (resolve_termination e1.cover ms1.pol ms1.draws).2.1)
            (resolve_termination e1.cover ms1.pol ms1.draws).2.1.id with
        | none =>
          rw [polBranch_eq_term_err i e1 ms1 hp ht ha2 hidx]
          exact ⟨by rw [syncPol_map_id], hid, rfl, hstart, hstop, Or.inr rfl⟩
        | some j =>
          rw [polBranch_eq_term i e1 ms1 j hp ht ha2 hidx]
          refine ⟨?_, hid, rfl, hstart, hstop, Or.inl h0⟩
          rw [map_id_eraseIdx, syncPol_map_id]
          exact List.eraseIdx_sublist _ j
    · have ht2 : (e1.cover.check_interaction ms1.pol.name &&
          e1.cover.etype == "terminator") = false := by
        revert ht
        cases (e1.cover.check_interaction ms1.pol.name && e1.cover.etype == "terminator") <;> simp
      rw [polBranch_eq_cover i e1 ms1 hp ht2]
      exact ⟨List.Sublist.refl _, rfl, rfl, rfl, rfl, Or.inl h0⟩
  · have hp2 : polEltInter ms1.pol e1 = false := by
      revert hp
      cases polEltInter ms1.pol e1 <;> simp
    rw [polBranch_eq_miss i e1 ms1 hp2]
    exact ⟨List.Sublist.refl _, rfl, rfl, rfl, rfl, Or.inl h0⟩

/-- When the walker part fires a termination signal: the element is an
interacting terminator, the call succeeded, the walker is gone from the
list afterwards, and the termination event closes the branch trace. -/
theorem polBranch_term (i : Nat) (e1 : Elt) (ms1 : MSt) (h0 : ms1.err = none)
    (hnd : (ms1.polymerases.map Pol.id).Nodup) (a : List String)
    (hin : Ev.termination a ∈ (polBranch i e1 ms1).2.2) :
    e1.etype = "terminator" ∧
    (polBranch i e1 ms1).1.etype = "terminator" ∧
    (polBranch i e1 ms1).2.1.err = none ∧
    idxOfPol (polBranch i e1 ms1).2.1.polymerases
      (polBranch i e1 ms1).2.1.pol.id = none ∧
    (polBranch i e1 ms1).2.2 = [Ev.coverEv i, Ev.propensity, Ev.termination a] := by
  by_cases hp : polEltInter ms1.pol e1 = true
  · by_cases ht : (e1.cover.check_interaction ms1.pol.name &&
        e1.cover.etype == "terminator") = true
    · have hterm : e1.etype = "terminator" := by
        have := (Bool.and_eq_true _ _).mp ht
        have h2 := this.2
        rw [beq_iff_eq] at h2
        exact h2
      by_cases ha : (resolve_termination e1.cover ms1.pol ms1.draws).2.1.attached = true
      · rw [polBranch_eq_alive i e1 ms1 hp ht ha] at hin ⊢
        simp at hin
      · have ha2 : (resolve_termination e1.cover ms1.pol ms1.draws).2.1.attached = false := by
          revert ha
          cases (resolve_termination e1.cover ms1.pol ms1.draws).2.1.attached <;> simp
        cases hidx : idxOfPol (syncPol ms1.polymerases
            (resolve_termination e1.cover ms1.pol ms1.draws).2.1)
            (resolve_termination e1.cover ms1.pol ms1.draws).2.1.id with
        | none =>
          rw [polBranch_eq_term_err i e1 ms1 hp ht ha2 hidx] at hin ⊢
          simp at hin
        | some j =>
          rw [polBranch_eq_term i e1 ms1 j hp ht ha2 hidx] at hin ⊢
          have hetype2 : (resolve_termination e1.cover ms1.pol ms1.draws).1.etype =
              "terminator" := by
            rw [resolve_termination_elt]
            exact hterm
          have habs : idxOfPol ((syncPol ms1.polymerases
              (resolve_termination e1.cover ms1.pol ms1.draws).2.1).eraseIdx j)
              (resolve_termination e1.cover ms1.pol ms1.draws).2.1.id = none := by
            apply idxOfPol_eraseIdx
            · rw [syncPol_map_id]; exact hnd
            · exact hidx
          revert hin
          cases hk : ms1.kind with
          | polymer =>
            intro hin
            simp at hin
          | genome =>
            intro hin
            dsimp only at hin ⊢
            simp only [List.mem_cons] at hin
            rcases hin with h | h | h | h
            · cases h
            · cases h
            · cases h
              exact ⟨hterm, hetype2, h0, habs, rfl⟩
            · cases h
          | transcript =>
            intro hin
            dsimp only at hin ⊢
            simp only [List.mem_cons] at hin
            rcases hin with h | h | h | h
            · cases h
            · cases h
            · cases h
              exact ⟨hterm, hetype2, h0, habs, rfl⟩
            · cases h
    · have ht2 : (e1.cover.check_interaction ms1.pol.name &&
          e1.cover.etype == "terminator") = false := by
        revert ht
        cases (e1.cover.check_interaction ms1.pol.name && e1.cover.etype == "terminator") <;>
          simp
      rw [polBranch_eq_cover i e1 ms1 hp ht2] at hin
      simp at hin
  · have hp2 : polEltInter ms1.pol e1 = false := by
      revert hp
      cases polEltInter ms1.pol e1 <;> simp
    rw [polBranch_eq_miss i e1 ms1 hp2] at hin
    simp at hin

/-- When the moving walker is no longer in the list, a successful walker
part fires only its own cover event and keeps the walker absent. -/
theorem polBranch_absent (i : Nat) (e1 : Elt) (ms1 : MSt) (h0 : ms1.err = none)
    (habs : idxOfPol ms1.polymerases ms1.pol.id = none)
    (hok : (polBranch i e1 ms1).2.1.err = none) :
    idxOfPol (polBranch i e1 ms1).2.1.polymerases
      (polBranch i e1 ms1).2.1.pol.id = none ∧
    ∀ ev ∈ (polBranch i e1 ms1).2.2, ev = Ev.coverEv i := by
  by_cases hp : polEltInter ms1.pol e1 = true
  · by_cases ht : (e1.cover.check_interaction ms1.pol.name &&
        e1.cover.etype == "terminator") = true
    · obtain ⟨hid, _, _, _, _⟩ := resolve_termination_pol e1.cover ms1.pol ms1.draws
      have habs2 : idxOfPol (syncPol ms1.polymerases
          (resolve_termination e1.cover ms1.pol ms1.draws).2.1)
          (resolve_termination e1.cover ms1.pol ms1.draws).2.1.id = none := by
        rw [idxOfPol_syncPol, hid]
        exact habs
      by_cases ha : (resolve_termination e1.cover ms1.pol ms1.draws).2.1.attached = true
      · rw [polBranch_eq_alive i e1 ms1 hp ht ha]
        refine ⟨habs2, ?_⟩
        intro ev hev
        simp at hev
        exact hev
      · have ha2 : (resolve_termination e1.cover ms1.pol ms1.draws).2.1.attached = false := by
          revert ha
          cases (resolve_termination e1.cover ms1.pol ms1.draws).2.1.attached <;> simp
        rw [polBranch_eq_term_err i e1 ms1 hp ht ha2 habs2] at hok
        cases hok
    · have ht2 : (e1.cover.check_interaction ms1.pol.name &&
          e1.cover.etype == "terminator") = false := by
        revert ht
        cases (e1.cover.check_interaction ms1.pol.name && e1.cover.etype == "terminator") <;>
          simp
      rw [polBranch_eq_cover i e1 ms1 hp ht2]
      refine ⟨habs, ?_⟩
      intro ev hev
      simp at hev
      exact hev
  · have hp2 : polEltInter ms1.pol e1 = false := by
      revert hp
      cases polEltInter ms1.pol e1 <;> simp
    rw [polBranch_eq_miss i e1 ms1 hp2]
    exact ⟨habs, by intro ev hev; cases hev⟩

/-- The recover step's final context comes from the walker part: the
closing edge detection only touches element and cache. -/
theorem recoverElt_fields (m : Mask) (i : Nat) (e : Elt) (ms : MSt) :
    (recoverElt m i e ms).2.1.polymerases =
      (polBranch i (maskBranch m i e ms.uncovered).1
        { ms with uncovered := (maskBranch m i e ms.uncovered).2.1 }).2.1.polymerases ∧
    (recoverElt m i e ms).2.1.pol =
      (polBranch i (maskBranch m i e ms.uncovered).1
        { ms with uncovered := (maskBranch m i e ms.uncovered).2.1 }).2.1.pol ∧
    (recoverElt m i e ms).2.1.kind =
      (polBranch i (maskBranch m i e ms.uncovered).1
        { ms with uncovered := (maskBranch m i e ms.uncovered).2.1 }).2.1.kind ∧
    (recoverElt m i e ms).2.1.err =
      (polBranch i (maskBranch m i e ms.uncovered).1
        { ms with uncovered := (maskBranch m i e ms.uncovered).2.1 }).2.1.err := by
  by_cases hs : (polBranch i (maskBranch m i e ms.uncovered).1
      { ms with uncovered := (maskBranch m i e ms.uncovered).2.1 }).2.1.err.isSome = true
  · simp [recoverElt, hs]
  · simp [recoverElt, hs]

/-- Trace of a recover step whose walker part succeeded. -/
theorem recoverElt_evs_ok (m : Mask) (i : Nat) (e : Elt) (ms : MSt)
    (hok : (polBranch i (maskBranch m i e ms.uncovered).1
      { ms with uncovered := (maskBranch m i e ms.uncovered).2.1 }).2.1.err = none) :
    (recoverElt m i e ms).2.2 =
      (maskBranch m i e ms.uncovered).2.2 ++
      (polBranch i (maskBranch m i e ms.uncovered).1
        { ms with uncovered := (maskBranch m i e ms.uncovered).2.1 }).2.2 ++
      (check_state i (polBranch i (maskBranch m i e ms.uncovered).1
        { ms with uncovered := (maskBranch m i e ms.uncovered).2.1 }).1
        (polBranch i (maskBranch m i e ms.uncovered).1
          { ms with uncovered := (maskBranch m i e ms.uncovered).2.1 }).2.1.uncovered).2.2 := by
  simp [recoverElt, hok]

/-- Trace of a recover step whose walker part raised. -/
theorem recoverElt_evs_err (m : Mask) (i : Nat) (e : Elt) (ms : MSt) (er : Err)
    (herr : (polBranch i (maskBranch m i e ms.uncovered).1
      { ms with uncovered := (maskBranch m i e ms.uncovered).2.1 }).2.1.err = some er) :
    (recoverElt m i e ms).2.2 =
      (maskBranch m i e ms.uncovered).2.2 ++
      (polBranch i (maskBranch m i e ms.uncovered).1
        { ms with uncovered := (maskBranch m i e ms.uncovered).2.1 }).2.2 := by
  simp [recoverElt, herr]

/-- A recover step only write-throughs or erases in the walker list and
keeps the walker's identity and the kind. -/
theorem recoverElt_state (m : Mask) (i : Nat) (e : Elt) (ms : MSt)
    (h0 : ms.err = none) :
    ((recoverElt m i e ms).2.1.polymerases.map Pol.id).Sublist
      (ms.polymerases.map Pol.id) ∧
    (recoverElt m i e ms).2.1.pol.id = ms.pol.id ∧
    (recoverElt m i e ms).2.1.kind = ms.kind := by
  obtain ⟨hpols, hpol, hkind, _⟩ := recoverElt_fields m i e ms
  obtain ⟨hsub, hid, hk, _, _, _⟩ := polBranch_state i (maskBranch m i e ms.uncovered).1
    { ms with uncovered := (maskBranch m i e ms.uncovered).2.1 } h0
  refine ⟨?_, ?_, ?_⟩
  · rw [hpols]; exact hsub
  · rw [hpol]; exact hid
  · rw [hkind]; exact hk

/-- When a recover step fires a termination signal: the element is a
terminator, the step succeeded, the walker is gone from the list, and
the termination event closes the step's trace. -/
theorem recoverElt_term (m : Mask) (i : Nat) (e : Elt) (ms : MSt)
    (h0 : ms.err = none) (hnd : (ms.polymerases.map Pol.id).Nodup)
    (a : List String) (hin : Ev.termination a ∈ (recoverElt m i e ms).2.2) :
    e.etype = "terminator" ∧
    (recoverElt m i e ms).2.1.err = none ∧
    idxOfPol (recoverElt m i e ms).2.1.polymerases
      (recoverElt m i e ms).2.1.pol.id = none ∧
    ∃ A, (recoverElt m i e ms).2.2 = A ++ [Ev.termination a] ∧
      ∀ z ∈ A, ¬isTermEv z := by
  obtain ⟨hpols, hpol, _, herr⟩ := recoverElt_fields m i e ms
  have hnoterm1 : ∀ b, Ev.termination b ∉ (maskBranch m i e ms.uncovered).2.2 := by
    intro b hb
    rcases maskBranch_evs m i e ms.uncovered _ hb with h | ⟨nm, h⟩ | ⟨nm, h⟩ <;> cases h
  cases hperr : (polBranch i (maskBranch m i e ms.uncovered).1
      { ms with uncovered := (maskBranch m i e ms.uncovered).2.1 }).2.1.err with
  | some er =>
    exfalso
    rw [recoverElt_evs_err m i e ms er hperr] at hin
    rcases List.mem_append.mp hin with h | h
    · exact hnoterm1 a h
    · obtain ⟨_, _, hpe, _, _⟩ := polBranch_term i (maskBranch m i e ms.uncovered).1
        { ms with uncovered := (maskBranch m i e ms.uncovered).2.1 } h0 hnd a h
      rw [hperr] at hpe
      cases hpe
  | none =>
    rw [recoverElt_evs_ok m i e ms hperr] at hin
    have hin2 : Ev.termination a ∈ (polBranch i (maskBranch m i e ms.uncovered).1
        { ms with uncovered := (maskBranch m i e ms.uncovered).2.1 }).2.2 := by
      rcases List.mem_append.mp hin with h | h
      · rcases List.mem_append.mp h with h | h
        · exact absurd h (hnoterm1 a)
        · exact h
      · exfalso
        rcases check_state_evs _ _ _ _ h with ⟨nm, hh⟩ | ⟨nm, hh⟩ <;> cases hh
    obtain ⟨hetype, hetype2, _, habs, hevs⟩ := polBranch_term i
      (maskBranch m i e ms.uncovered).1
      { ms with uncovered := (maskBranch m i e ms.uncovered).2.1 } h0 hnd a hin2
    have hetype0 : e.etype = "terminator" := by
      rw [← maskBranch_etype m i e ms.uncovered]; exact hetype
    have hcs : (check_state i (polBranch i (maskBranch m i e ms.uncovered).1
        { ms with uncovered := (maskBranch m i e ms.uncovered).2.1 }).1
        (polBranch i (maskBranch m i e ms.uncovered).1
          { ms with uncovered := (maskBranch m i e ms.uncovered).2.1 }).2.1.uncovered).2.2
        = [] :=
      check_state_terminator_evs _ _ _ hetype2
    refine ⟨hetype0, by rw [herr]; exact hperr, ?_, ?_⟩
    · rw [hpols, hpol]; exact habs
    · refine ⟨(maskBranch m i e ms.uncovered).2.2 ++ [Ev.coverEv i, Ev.propensity], ?_, ?_⟩
      · rw [recoverElt_evs_ok m i e ms hperr, hevs, hcs]
        simp
      · intro z hz
        rcases List.mem_append.mp hz with h | h
        · rintro ⟨b, hb⟩
          exact hnoterm1 b (hb ▸ h)
        · rintro ⟨b, hb⟩
          rcases List.mem_cons.mp h with hh | hh
          · rw [hb] at hh; cases hh
          · rcases List.mem_cons.mp hh with hh2 | hh2
            · rw [hb] at hh2; cases hh2
            · cases hh2

/-- When the moving walker is no longer in the list, a successful
recover step fires only cover and edge events about its own index and
keeps the walker absent. -/
theorem recoverElt_absent (m : Mask) (i : Nat) (e : Elt) (ms : MSt)
    (h0 : ms.err = none)
    (habs : idxOfPol ms.polymerases ms.pol.id = none)
    (hok : (recoverElt m i e ms).2.1.err = none) :
    idxOfPol (recoverElt m i e ms).2.1.polymerases
      (recoverElt m i e ms).2.1.pol.id = none ∧
    ∀ ev ∈ (recoverElt m i e ms).2.2,
      ev = Ev.coverEv i ∨ (∃ nm, ev = Ev.block i nm) ∨
        ∃ nm, ev = Ev.promoterFree i nm := by
  obtain ⟨hpols, hpol, _, herr⟩ := recoverElt_fields m i e ms
  have hperr : (polBranch i (maskBranch m i e ms.uncovered).1
      { ms with uncovered := (maskBranch m i e ms.uncovered).2.1 }).2.1.err = none := by
    rw [← herr]; exact hok
  obtain ⟨habs2, hshape⟩ := polBranch_absent i (maskBranch m i e ms.uncovered).1
    { ms with uncovered := (maskBranch m i e ms.uncovered).2.1 } h0 habs hperr
  constructor
  · rw [hpols, hpol]; exact habs2
  · intro ev hev
    rw [recoverElt_evs_ok m i e ms hperr] at hev
    rcases List.mem_append.mp hev with h | h
    · rcases List.mem_append.mp h with h | h
      · exact maskBranch_evs m i e ms.uncovered ev h
      · exact Or.inl (hshape ev h)
    · rcases check_state_evs _ _ _ ev h with hh | hh
      · exact Or.inr (Or.inl hh)
      · exact Or.inr (Or.inr hh)

/-- After the moving walker has left the list, a successful remainder of
the recover loop fires only cover and edge events about indices from its
starting point on. -/
theorem recover_absent (m : Mask) :
    ∀ (es : List Elt) (i : Nat) (ms : MSt),
      ms.err = none → idxOfPol ms.polymerases ms.pol.id = none →
      (recover m i es ms).2.1.err = none →
      ∀ ev ∈ (recover m i es ms).2.2,
        ∃ j, i ≤ j ∧ (ev = Ev.coverEv j ∨ (∃ nm, ev = Ev.block j nm) ∨
          ∃ nm, ev = Ev.promoterFree j nm) := by
  intro es
  induction es with
  | nil =>
    intro i ms h0 habs hsucc ev hev
    rw [recover_nil] at hev
    cases hev
  | cons e rest ih =>
    intro i ms h0 habs hsucc ev hev
    rw [recover_cons m i e rest ms h0] at hsucc hev
    cases her1 : (recoverElt m i e ms).2.1.err with
    | some er =>
      rw [recover_err m rest (i + 1) (recoverElt m i e ms).2.1 er her1] at hsucc
      rw [her1] at hsucc
      cases hsucc
    | none =>
      obtain ⟨habs2, hshape⟩ := recoverElt_absent m i e ms h0 habs her1
      rcases List.mem_append.mp hev with h | h
      · exact ⟨i, le_refl i, hshape ev h⟩
      · obtain ⟨j, hj, hsh⟩ := ih (i + 1) (recoverElt m i e ms).2.1 her1 habs2 hsucc ev h
        exact ⟨j, le_trans (Nat.le_succ i) hj, hsh⟩

/-- In a successful recover loop, a termination signal is fired while
processing some terminator element, and every event after it concerns an
element strictly later in the list. -/
theorem recover_term_split (m : Mask) :
    ∀ (es : List Elt) (i : Nat) (ms : MSt),
      ms.err = none → (ms.polymerases.map Pol.id).Nodup →
      (recover m i es ms).2.1.err = none →
      ∀ (pre post : List Ev) (a : List String),
        (recover m i es ms).2.2 = pre ++ Ev.termination a :: post →
        ∃ k e0, i ≤ k ∧ es.get? (k - i) = some e0 ∧ e0.etype = "terminator" ∧
          ∀ ev ∈ post, taggedCoverUpd k ev := by
  intro es
  induction es with
  | nil =>
    intro i ms h0 hnd hsucc pre post a hsplit
    rw [recover_nil] at hsplit
    cases pre <;> simp at hsplit
  | cons e rest ih =>
    intro i ms h0 hnd hsucc pre post a hsplit
    rw [recover_cons m i e rest ms h0] at hsucc hsplit
    cases her1 : (recoverElt m i e ms).2.1.err with
    | some er =>
      rw [recover_err m rest (i + 1) (recoverElt m i e ms).2.1 er her1, her1] at hsucc
      cases hsucc
    | none =>
      by_cases hterm1 : ∃ b, Ev.termination b ∈ (recoverElt m i e ms).2.2
      · obtain ⟨b, hb⟩ := hterm1
        obtain ⟨hetype, _, habs, A, hAeq, hAfree⟩ :=
          recoverElt_term m i e ms h0 hnd b hb
        have hrest := recover_absent m rest (i + 1) (recoverElt m i e ms).2.1
          her1 habs hsucc
        have hBfree : ∀ z ∈ (recover m (i + 1) rest (recoverElt m i e ms).2.1).2.2,
            ¬isTermEv z := by
          intro z hz
          rintro ⟨c, hc⟩
          obtain ⟨j, _, hsh⟩ := hrest z hz
          rcases hsh with h | ⟨nm, h⟩ | ⟨nm, h⟩ <;> rw [hc] at h <;> cases h
        have hassoc : A ++ Ev.termination b ::
            (recover m (i + 1) rest (recoverElt m i e ms).2.1).2.2 =
            pre ++ Ev.termination a :: post := by
          rw [← hsplit, hAeq]
          simp
        obtain ⟨hpre, hba, hpost⟩ := unique_term_position A
          (recover m (i + 1) rest (recoverElt m i e ms).2.1).2.2 pre post
          (Ev.termination b) (Ev.termination a) ⟨b, rfl⟩ ⟨a, rfl⟩ hAfree hBfree hassoc
        refine ⟨i, e, le_refl i, by simp, hetype, ?_⟩
        intro ev hev
        rw [hpost] at hev
        obtain ⟨j, hj, hsh⟩ := hrest ev hev
        have hij : i < j := hj
        rcases hsh with h | ⟨nm, h⟩ | ⟨nm, h⟩
        · exact Or.inl ⟨j, hij, h⟩
        · exact Or.inr (Or.inl ⟨j, nm, hij, h⟩)
        · exact Or.inr (Or.inr ⟨j, nm, hij, h⟩)
      · have hnotin : Ev.termination a ∉ (recoverElt m i e ms).2.2 := by
          intro h
          exact hterm1 ⟨a, h⟩
        obtain ⟨pre2, hrest, hpre⟩ := split_right (Ev.termination a)
          (recoverElt m i e ms).2.2
          (recover m (i + 1) rest (recoverElt m i e ms).2.1).2.2 pre post hnotin hsplit
        have hnd2 : ((recoverElt m i e ms).2.1.polymerases.map Pol.id).Nodup :=
          List.Nodup.sublist (recoverElt_state m i e ms h0).1 hnd
        obtain ⟨k, e0, hk1, hkget, hety, htag⟩ := ih (i + 1) (recoverElt m i e ms).2.1
          her1 hnd2 hsucc pre2 post a hrest
        refine ⟨k, e0, le_trans (Nat.le_succ i) hk1, ?_, hety, htag⟩
        have hsub : k - i = (k - (i + 1)) + 1 := by omega
        rw [hsub]
        simpa using hkget

/-- C5 amended: within a successful `_move_polymerase` call (on a walker
list without duplicate identities), a termination signal is fired while
the recover loop is processing some terminator element of the list, and
every covering update that follows it — re-cover or edge signal —
belongs to an element strictly later in element-list order.  (The
original claim fails: the terminator's own edge detection and all
updates of later elements run after the signal, see the
counterexample.) -/
theorem termination_fires_before_later_elements
    (st st' : PSt) (polId : Nat) (draws : List Bool) (tr : List Ev)
    (hnd : (st.polymerases.map Pol.id).Nodup)
    (hrun : move_polymerase st polId draws = (st', tr, none))
    (pre post : List Ev) (a : List String)
    (hsplit : tr = pre ++ Ev.termination a :: post) :
    ∃ k e0, st.elements.get? k = some e0 ∧ e0.etype = "terminator" ∧
      ∀ ev ∈ post, taggedCoverUpd k ev := by
  simp only [move_polymerase] at hrun
  split at hrun
  · simp at hrun
  · split at hrun
    · simp at hrun
    · split at hrun
      · simp at hrun
      · split at hrun
        · simp at hrun
        · rename_i x1 idx hidx x2 p0 hp0 x3 p2 polC hcol x4 m2 p3 maskC hmask
          have herr := congrArg (fun x => x.2.2) hrun
          have htr := congrArg (fun x => x.2.1) hrun
          dsimp only at herr htr
          have hx : Ev.termination a ∉
              (phase1 p0 st.mask 0 st.elements).2 ++
              (if (!polC && !maskC) = true then [Ev.moveSig] else []) := by
            intro hmem
            rcases List.mem_append.mp hmem with h | h
            · obtain ⟨j, hj⟩ := phase1_evs p0 st.mask st.elements 0 _ h
              cases hj
            · revert h
              cases (!polC && !maskC) <;> simp
          obtain ⟨pre2, hrest, hpre⟩ := split_right (Ev.termination a) _ _ pre post hx
            (htr.trans hsplit)
          obtain ⟨k, e0, _, hkget, hety, htag⟩ := recover_term_split m2
            (phase1 p0 st.mask 0 st.elements).1 0
            { kind := st.kind, pol := p3,
              polymerases := syncPol (syncPol (syncPol st.polymerases p0.move) p2) p3,
              prop_list := st.prop_list, prop_sum := st.prop_sum,
              uncovered := st.uncovered, draws := draws, err := none }
            rfl
            (by dsimp only
                rw [syncPol_map_id, syncPol_map_id, syncPol_map_id]
                exact hnd)
            herr pre2 post a hrest
          rw [Nat.sub_zero, phase1_fst, List.get?_map] at hkget
          cases horig : st.elements.get? k with
          | none =>
            rw [horig] at hkget
            cases hkget
          | some orig =>
            rw [horig] at hkget
            simp only [Option.map_some'] at hkget
            cases hkget
            refine ⟨k, orig, horig, ?_, htag⟩
            rw [← phase1Elt_etype p0 st.mask orig]
            exact hety

/-- C5 counterexample: in this single successful `_move_polymerase`
call, `termination_signal` (trace position 4) fires before the vacated
promoter's edge detection — its `promoter_signal` and the increment of
`uncovered["p1"]` (trace position 5) — so the signal does not fire after
all covering updates of the move have been finalised. -/
theorem termination_signal_not_last :
    (move_polymerase c5st 1 [true]).2.2 = none ∧
    (move_polymerase c5st 1 [true]).2.1 =
      [Ev.uncoverEv 1, Ev.moveSig, Ev.coverEv 0, Ev.propensity,
       Ev.termination ["w"], Ev.promoterFree 1 "p1"] ∧
    (move_polymerase c5st 1 [true]).2.1.get? 4 = some (Ev.termination ["w"]) ∧
    (move_polymerase c5st 1 [true]).2.1.get? 5 = some (Ev.promoterFree 1 "p1") ∧
    uget (move_polymerase c5st 1 [true]).1.uncovered "p1" = 1 ∧
    uget c5st.uncovered "p1" = 0 := by
  refine ⟨by decide, by decide, by decide, by decide, by decide, by decide⟩

/-- C5 witness: the amended ordering property applied to the concrete
move — the termination signal fires at the terminator (index 0) and the
only event after it concerns the promoter at the strictly later
index 1. -/
theorem termination_fires_before_later_elements_witness :
    ∃ k e0, c5st.elements.get? k = some e0 ∧ e0.etype = "terminator" ∧
      ∀ ev ∈ [Ev.promoterFree 1 "p1"], taggedCoverUpd k ev :=
  termination_fires_before_later_elements c5st (move_polymerase c5st 1 [true]).1
    1 [true]
    [Ev.uncoverEv 1, Ev.moveSig, Ev.coverEv 0, Ev.propensity,
     Ev.termination ["w"], Ev.promoterFree 1 "p1"]
    (by decide) (by decide)
    [Ev.uncoverEv 1, Ev.moveSig, Ev.coverEv 0, Ev.propensity]
    [Ev.promoterFree 1 "p1"] ["w"] (by decide)

/-! ### C2: the walker ordering invariant -/

/-- Setting an index to the value it already holds is the identity. -/
theorem set_get_self {α : Type} : ∀ (l : List α) (i : Nat) (a : α),
    l.get? i = some a → l.set i a = l := by
  intro l
  induction l with
  | nil => intro i a h; cases h
  | cons x rest ih =>
    intro i a h
    cases i with
    | zero =>
      have : x = a := by
        have h2 : some x = some a := h
        cases h2; rfl
      rw [← this]; rfl
    | succ j =>
      show x :: rest.set j a = x :: rest
      rw [ih j a h]

/-- Additive effect of `set` on `countP`. -/
theorem countP_set_add {α : Type} (pred : α → Bool) :
    ∀ (l : List α) (i : Nat) (a b : α), l.get? i = some a →
      (l.set i b).countP pred + (if pred a then 1 else 0) =
        l.countP pred + (if pred b then 1 else 0) := by
  intro l
  induction l with
  | nil => intro i a b h; cases h
  | cons x rest ih =>
    intro i a b h
    cases i with
    | zero =>
      have hxa : x = a := by
        have h2 : some x = some a := h
        cases h2; rfl
      subst hxa
      show (b :: rest).countP pred + _ = _
      rw [List.countP_cons, List.countP_cons]
      omega
    | succ j =>
      have hrec := ih j a b h
      show (x :: rest.set j b).countP pred + _ = (x :: rest).countP pred + _
      rw [List.countP_cons, List.countP_cons]
      omega

/-- Members of an insertion are the new value or old members. -/
theorem mem_of_insertIdx {α : Type} :
    ∀ (l : List α) (n : Nat) (a x : α), x ∈ l.insertIdx n a → x = a ∨ x ∈ l := by
  intro l
  induction l with
  | nil =>
    intro n a x h
    cases n with
    | zero =>
      rw [show ([] : List α).insertIdx 0 a = [a] from rfl] at h
      rcases List.mem_cons.mp h with h | h
      · exact Or.inl h
      · cases h
    | succ j =>
      rw [show ([] : List α).insertIdx (j + 1) a = [] from rfl] at h
      cases h
  | cons y rest ih =>
    intro n a x h
    cases n with
    | zero =>
      rw [show (y :: rest).insertIdx 0 a = a :: y :: rest from rfl] at h
      rcases List.mem_cons.mp h with h | h
      · exact Or.inl h
      · exact Or.inr h
    | succ j =>
      rw [show (y :: rest).insertIdx (j + 1) a = y :: rest.insertIdx j a from rfl] at h
      rcases List.mem_cons.mp h with h | h
      · exact Or.inr (by rw [h]; exact List.mem_cons_self y rest)
      · rcases ih j a x h with h2 | h2
        · exact Or.inl h2
        · exact Or.inr (List.mem_cons_of_mem y h2)

/-- `countP` of an insertion within bounds. -/
theorem countP_insertIdx {α : Type} (pred : α → Bool) :
    ∀ (l : List α) (n : Nat) (a : α), n ≤ l.length →
      (l.insertIdx n a).countP pred =
        l.countP pred + (if pred a then 1 else 0) := by
  intro l
  induction l with
  | nil =>
    intro n a hn
    have : n = 0 := Nat.le_zero.mp hn
    subst this
    rw [show ([] : List α).insertIdx 0 a = [a] from rfl,
      List.countP_cons]
  | cons y rest ih =>
    intro n a hn
    cases n with
    | zero =>
      rw [show (y :: rest).insertIdx 0 a = a :: y :: rest from rfl,
        List.countP_cons, List.countP_cons]
    | succ j =>
      rw [show (y :: rest).insertIdx (j + 1) a = y :: rest.insertIdx j a from rfl,
        List.countP_cons, List.countP_cons,
        ih j a (Nat.le_of_succ_le_succ hn)]
      omega

/-- The insertion scan never runs past the end of the list. -/
theorem insertPos_le (s : Int) : ∀ ps : List Pol, insertPos ps s ≤ ps.length := by
  intro ps
  induction ps with
  | nil => exact Nat.le_refl 0
  | cons q rest ih =>
    show (if s < q.start then 0 else insertPos rest s + 1) ≤ rest.length + 1
    split
    · exact Nat.zero_le _
    · exact Nat.succ_le_succ ih

/-- Inserting a walker inserts its identity at the same position. -/
theorem ids_insertIdx (p : Pol) :
    ∀ (ps : List Pol) (n : Nat), n ≤ ps.length →
      (ps.insertIdx n p).map Pol.id = (ps.map Pol.id).insertIdx n p.id := by
  intro ps
  induction ps with
  | nil =>
    intro n hn
    have : n = 0 := Nat.le_zero.mp hn
    subst this
    rfl
  | cons q rest ih =>
    intro n hn
    cases n with
    | zero => rfl
    | succ j =>
      show (q :: rest.insertIdx j p).map Pol.id =
        (q.id :: rest.map Pol.id).insertIdx (j + 1) p.id
      rw [show (q.id :: rest.map Pol.id).insertIdx (j + 1) p.id =
        q.id :: (rest.map Pol.id).insertIdx j p.id from rfl,
        List.map_cons, ih j (Nat.le_of_succ_le_succ hn)]

/-- Inserting a fresh value into a duplicate-free list keeps it
duplicate-free. -/
theorem nodup_insertIdx (x : Nat) :
    ∀ (l : List Nat) (n : Nat), n ≤ l.length → x ∉ l → l.Nodup →
      (l.insertIdx n x).Nodup := by
  intro l
  induction l with
  | nil =>
    intro n hn _ _
    have : n = 0 := Nat.le_zero.mp hn
    subst this
    simp
  | cons y rest ih =>
    intro n hn hx hnd
    cases n with
    | zero =>
      rw [show (y :: rest).insertIdx 0 x = x :: y :: rest from rfl]
      exact List.nodup_cons.mpr ⟨hx, hnd⟩
    | succ j =>
      rw [show (y :: rest).insertIdx (j + 1) x = y :: rest.insertIdx j x from rfl]
      refine List.nodup_cons.mpr ⟨?_, ?_⟩
      · intro hy
        rcases mem_of_insertIdx rest j x y hy with h | h
        · exact hx (by rw [← h]; exact List.mem_cons_self y rest)
        · exact (List.nodup_cons.mp hnd).1 h
      · exact ih j (Nat.le_of_succ_le_succ hn)
          (fun h => hx (List.mem_cons_of_mem y h)) (List.nodup_cons.mp hnd).2

/-- Deleting at an index commutes with mapping. -/
theorem map_eraseIdx {α β : Type} (f : α → β) :
    ∀ (l : List α) (i : Nat), (l.eraseIdx i).map f = (l.map f).eraseIdx i := by
  intro l
  induction l with
  | nil => intro i; simp
  | cons x rest ih =>
    intro i
    cases i with
    | zero => simp
    | succ j => simp [List.eraseIdx_cons_succ, ih j]

/-- Members after a write-through are the written walker or old
members. -/
theorem mem_syncPol (ps : List Pol) (q : Pol) :
    ∀ r ∈ syncPol ps q, r = q ∨ r ∈ ps := by
  intro r hr
  rcases List.mem_map.mp hr with ⟨r0, hr0, heq⟩
  by_cases h : (r0.id == q.id) = true
  · rw [show (if r0.id == q.id then q else r0) = q by rw [if_pos h]] at heq
    exact Or.inl heq.symm
  · rw [show (if r0.id == q.id then q else r0) = r0 by rw [if_neg h]] at heq
    exact Or.inr (heq ▸ hr0)

/-- A write-through whose argument carries the coordinates already stored
under its identity leaves the coordinate list unchanged. -/
theorem syncPol_coordsOf (ps : List Pol) (q : Pol)
    (hC : ∀ r ∈ ps, r.id = q.id → coordsOf r = coordsOf q) :
    (syncPol ps q).map coordsOf = ps.map coordsOf := by
  show (ps.map _).map coordsOf = ps.map coordsOf
  rw [List.map_map]
  refine List.map_congr_left ?_
  intro r hr
  show coordsOf (if r.id == q.id then q else r) = coordsOf r
  by_cases h : (r.id == q.id) = true
  · rw [if_pos h, hC r hr (by simpa using h)]
  · rw [if_neg h]

/-- A write-through whose argument carries the name and coordinates
already stored under its identity leaves the key list unchanged. -/
theorem syncPol_polKey (ps : List Pol) (q : Pol)
    (hC : ∀ r ∈ ps, r.id = q.id → polKey r = polKey q) :
    (syncPol ps q).map polKey = ps.map polKey := by
  show (ps.map _).map polKey = ps.map polKey
  rw [List.map_map]
  refine List.map_congr_left ?_
  intro r hr
  show polKey (if r.id == q.id then q else r) = polKey r
  by_cases h : (r.id == q.id) = true
  · rw [if_pos h, hC r hr (by simpa using h)]
  · rw [if_neg h]

/-- Equal keys give equal coordinates. -/
theorem polKey_coords (p q : Pol) (h : polKey p = polKey q) :
    coordsOf p = coordsOf q := by
  simp only [polKey, Prod.mk.injEq] at h
  simp only [coordsOf, h.2.1, h.2.2]

/-- Equal keys give equal names. -/
theorem polKey_name (p q : Pol) (h : polKey p = polKey q) : p.name = q.name := by
  simp only [polKey, Prod.mk.injEq] at h
  exact h.1

/-- The walker count of an element only reads walker coordinates. -/
theorem wcount_eq_coords (ps : List Pol) (e : Elt) :
    wcount ps e = (ps.map coordsOf).countP
      (fun c => elements_intersect c.1 c.2 e.start e.stop) := by
  rw [wcount, List.countP_map]
  rfl

/-- The walker count of an element only reads walker keys. -/
theorem wcount_eq_keys (ps : List Pol) (e : Elt) :
    wcount ps e = (ps.map polKey).countP
      (fun k => elements_intersect k.2.1 k.2.2 e.start e.stop) := by
  rw [wcount, List.countP_map]
  rfl

/-- Two indices holding the same identity coincide in a list with
duplicate-free identities. -/
theorem nodup_ids_get (a b : Pol) (hid : a.id = b.id) :
    ∀ (ps : List Pol) (i j : Nat), (ps.map Pol.id).Nodup →
      ps.get? i = some a → ps.get? j = some b → i = j := by
  intro ps
  induction ps with
  | nil => intro i j _ ha _; cases ha
  | cons q rest ih =>
    intro i j hnd ha hb
    cases i with
    | zero =>
      cases j with
      | zero => rfl
      | succ j2 =>
        have hqa : some q = some a := ha
        injection hqa with hqa
        have hbm : b ∈ rest := List.get?_mem hb
        exact absurd (show q.id ∈ rest.map Pol.id by
            rw [hqa, hid]; exact List.mem_map_of_mem Pol.id hbm)
          (List.nodup_cons.mp hnd).1
    | succ i2 =>
      cases j with
      | zero =>
        have hqb : some q = some b := hb
        injection hqb with hqb
        have ham : a ∈ rest := List.get?_mem ha
        exact absurd (show q.id ∈ rest.map Pol.id by
            rw [hqb, ← hid]; exact List.mem_map_of_mem Pol.id ham)
          (List.nodup_cons.mp hnd).1
      | succ j2 =>
        have := ih i2 j2 (List.nodup_cons.mp hnd).2 ha hb
        omega

/-- In a list with duplicate-free identities a stored identity determines
the record. -/
theorem id_unique (ps : List Pol) (hnd : (ps.map Pol.id).Nodup) (p0 : Pol)
    (hmem : p0 ∈ ps) : ∀ r ∈ ps, r.id = p0.id → r = p0 := by
  intro r hr hrid
  rcases List.mem_iff_get?.mp hr with ⟨i, hi⟩
  rcases List.mem_iff_get?.mp hmem with ⟨j, hj⟩
  have hij := nodup_ids_get r p0 hrid ps i j hnd hi hj
  subst hij
  rw [hi] at hj
  injection hj

/-- With duplicate-free identities, write-through is a point update at
the identity's index. -/
theorem syncPol_eq_set (q : Pol) :
    ∀ (ps : List Pol) (idx : Nat) (p0 : Pol), (ps.map Pol.id).Nodup →
      ps.get? idx = some p0 → q.id = p0.id → syncPol ps q = ps.set idx q := by
  intro ps
  induction ps with
  | nil => intro idx p0 _ h; cases h
  | cons r rest ih =>
    intro idx p0 hnd hget hq
    cases idx with
    | zero =>
      have h2 : some r = some p0 := hget
      injection h2 with h2
      show (if r.id == q.id then q else r) :: syncPol rest q = q :: rest
      rw [if_pos (by simp [hq, h2])]
      have hnone : idxOfPol rest q.id = none := by
        rw [idxOfPol_eq_none_iff]
        intro s hs hsid
        exact (List.nodup_cons.mp hnd).1
          (by rw [h2, ← hq, ← hsid]; exact List.mem_map_of_mem Pol.id hs)
      rw [syncPol_eq_of_not_mem rest q hnone]
    | succ j =>
      show (if r.id == q.id then q else r) :: syncPol rest q = r :: rest.set j q
      have hpm : p0 ∈ rest := List.get?_mem hget
      have hrq : r.id ≠ q.id := by
        intro h
        exact (List.nodup_cons.mp hnd).1
          (by rw [h, hq]; exact List.mem_map_of_mem Pol.id hpm)
      rw [if_neg (by simp [hrq])]
      rw [ih j p0 (List.nodup_cons.mp hnd).2 hget hq]

/-- Rolling back a move restores the walker. -/
theorem move_move_back (p : Pol) : p.move.move_back = p := by
  cases p
  simp [Pol.move, Pol.move_back]

/-- Equal cores give equal construction fields. -/
theorem eltCore_fields (a b : Elt) (h : eltCore a = eltCore b) :
    a.name = b.name ∧ a.etype = b.etype ∧ a.start = b.start ∧ a.stop = b.stop := by
  simp only [eltCore, Prod.mk.injEq] at h
  exact ⟨h.1, h.2.1, h.2.2.1, h.2.2.2.1⟩

/-- Walker overlap only reads the element's core. -/
theorem polEltInter_core (p : Pol) (a b : Elt) (h : eltCore a = eltCore b) :
    polEltInter p a = polEltInter p b := by
  obtain ⟨-, -, h3, h4⟩ := eltCore_fields a b h
  simp only [polEltInter, h3, h4]

/-- Mask overlap only reads the element's core. -/
theorem maskEltInter_core (m : Mask) (a b : Elt) (h : eltCore a = eltCore b) :
    maskEltInter m a = maskEltInter m b := by
  obtain ⟨-, -, h3, h4⟩ := eltCore_fields a b h
  simp only [maskEltInter, h3, h4]

/-- The walker bit only reads the element's core. -/
theorem polBitN_core (p : Pol) (a b : Elt) (h : eltCore a = eltCore b) :
    polBitN p a = polBitN p b := by
  simp only [polBitN, polEltInter_core p a b h]

/-- The mask bit only reads the element's core. -/
theorem maskBitN_core (m : Mask) (a b : Elt) (h : eltCore a = eltCore b) :
    maskBitN m a = maskBitN m b := by
  simp only [maskBitN, maskEltInter_core m a b h]

/-- The walker count only reads the element's core. -/
theorem wcount_core (ps : List Pol) (a b : Elt) (h : eltCore a = eltCore b) :
    wcount ps a = wcount ps b := by
  have hf : (fun p => polEltInter p a) = (fun p => polEltInter p b) :=
    funext fun p => polEltInter_core p a b h
  simp only [wcount, hf]

/-- The walker bit only reads the walker's coordinates. -/
theorem polBitN_coords (p q : Pol) (h : coordsOf p = coordsOf q) (e : Elt) :
    polBitN p e = polBitN q e := by
  have h2 : p.start = q.start ∧ p.stop = q.stop := by
    simpa only [coordsOf, Prod.mk.injEq] using h
  simp only [polBitN, polEltInter, h2.1, h2.2]

/-- Arithmetic reading of a failed overlap test. -/
theorem elements_intersect_false_iff (s1 t1 s2 t2 : Int) :
    elements_intersect s1 t1 s2 t2 = false ↔ (t1 < s2 ∨ t2 < s1) := by
  simp only [elements_intersect, Bool.and_eq_false_iff, decide_eq_false_iff_not]
  omega

/-- Arithmetic reading of a successful overlap test. -/
theorem elements_intersect_true_iff (s1 t1 s2 t2 : Int) :
    elements_intersect s1 t1 s2 t2 = true ↔ (s2 ≤ t1 ∧ s1 ≤ t2) := by
  simp [elements_intersect]

/-- Reading an index after a point update. -/
theorem get_set_if {α : Type} (l : List α) (idx k : Nat) (a : α)
    (hk : k < (l.set idx a).length) :
    (l.set idx a).get ⟨k, hk⟩ =
      if idx = k then a else l.get ⟨k, by simpa using hk⟩ := by
  rw [List.get_eq_getElem, List.getElem_set]
  by_cases h : idx = k
  · rw [if_pos h, if_pos h]
  · rw [if_neg h, if_neg h, List.get_eq_getElem]

/-- Receding the mask never creates a mask overlap. -/
theorem recede_fields (m : Mask) :
    m.recede.start = (if m.start < m.stop then m.start + 1 else m.start) ∧
    m.recede.stop = m.stop ∧
    ∀ n, m.recede.check_interaction n = m.check_interaction n :=
  ⟨rfl, rfl, fun _ => rfl⟩

/-- Receding never moves the mask start backwards. -/
theorem recede_start_ge (m : Mask) : m.start ≤ m.recede.start := by
  rw [(recede_fields m).1]
  split <;> omega

/-- A walker overlapping the receded mask already overlapped the
mask. -/
theorem polMaskInter_recede (q : Pol) (m : Mask)
    (h : polMaskInter q m.recede = true) : polMaskInter q m = true := by
  simp only [polMaskInter, elements_intersect_true_iff] at h ⊢
  rw [(recede_fields m).1] at h
  rw [(recede_fields m).2.1] at h
  revert h
  split <;> (intro h; omega)

theorem maskBitN_recede_le (m : Mask) (e : Elt) :
    maskBitN m.recede e ≤ maskBitN m e := by
  simp only [maskBitN]
  by_cases h1 : maskEltInter m.recede e = true
  · have h2 : maskEltInter m e = true := by
      simp only [maskEltInter, elements_intersect_true_iff] at h1 ⊢
      rw [(recede_fields m).1] at h1
      rw [(recede_fields m).2.1] at h1
      revert h1
      split <;> (intro h1; omega)
    rw [if_pos h1, if_pos h2]
  · rw [if_neg h1]
    exact Nat.zero_le _

/-- Ordered insertion of a walker of positive extent disjoint from every
stored walker keeps the strict ordering. -/
theorem insertIdx_gap (p : Pol) (hp : p.start < p.stop) :
    ∀ ps : List Pol, ps.Pairwise (fun a b => a.stop < b.start) →
      (∀ q ∈ ps, q.start < q.stop) →
      (∀ q ∈ ps, polPolInter q p = false) →
      (ps.insertIdx (insertPos ps p.start) p).Pairwise
        (fun a b => a.stop < b.start) := by
  intro ps
  induction ps with
  | nil =>
    intro _ _ _
    show ([p] : List Pol).Pairwise _
    simp
  | cons q rest ih =>
    intro hord hne hdisj
    have hq := hdisj q (List.mem_cons_self q rest)
    have hqq := hne q (List.mem_cons_self q rest)
    simp only [polPolInter, elements_intersect_false_iff] at hq
    by_cases hlt : p.start < q.start
    · rw [show insertPos (q :: rest) p.start = 0 by simp [insertPos, hlt]]
      rw [show (q :: rest).insertIdx 0 p = p :: q :: rest from rfl]
      refine List.pairwise_cons.mpr ⟨?_, hord⟩
      intro x hx
      have hpq : p.stop < q.start := by omega
      rcases List.mem_cons.mp hx with h | h
      · rw [h]; exact hpq
      · have := (List.pairwise_cons.mp hord).1 x h
        omega
    · rw [show insertPos (q :: rest) p.start = insertPos rest p.start + 1 by
        simp [insertPos, hlt]]
      rw [show (q :: rest).insertIdx (insertPos rest p.start + 1) p =
        q :: rest.insertIdx (insertPos rest p.start) p from rfl]
      refine List.pairwise_cons.mpr ⟨?_, ?_⟩
      · intro x hx
        rcases mem_of_insertIdx rest (insertPos rest p.start) p x hx with h | h
        · rw [h]; omega
        · exact (List.pairwise_cons.mp hord).1 x h
      · exact ih (List.pairwise_cons.mp hord).2
          (fun r hr => hne r (List.mem_cons_of_mem q hr))
          (fun r hr => hdisj r (List.mem_cons_of_mem q hr))

/-- Moving the walker at an index one position forward keeps the strict
ordering when it still clears the next walker. -/
theorem set_gap (ps : List Pol) (idx : Nat) (p0 pn : Pol)
    (hget : ps.get? idx = some p0)
    (hord : ps.Pairwise fun a b => a.stop < b.start)
    (hne : ∀ q ∈ ps, q.start < q.stop)
    (hlo : p0.start ≤ pn.start)
    (hnext : ∀ q, ps.get? (idx + 1) = some q → pn.stop < q.start) :
    (ps.set idx pn).Pairwise fun a b => a.stop < b.start := by
  rw [List.pairwise_iff_get] at hord ⊢
  intro i j hij
  rw [get_set_if, get_set_if]
  have hi2 : (i : Nat) < ps.length := by
    have := i.isLt; simpa using this
  have hj2 : (j : Nat) < ps.length := by
    have := j.isLt; simpa using this
  have hidxlen : idx < ps.length := (List.get?_eq_some.mp hget).1
  have hgetv : ps.get ⟨idx, hidxlen⟩ = p0 := (List.get?_eq_some.mp hget).2
  by_cases hii : idx = (i : Nat)
  · rw [if_pos hii]
    have hji : ¬(idx = (j : Nat)) := by omega
    rw [if_neg hji]
    -- pn before the walker at j > idx
    have hnext2 : idx + 1 < ps.length := by omega
    have hq := hnext (ps.get ⟨idx + 1, hnext2⟩) (List.get?_eq_get hnext2)
    by_cases hj1 : (j : Nat) = idx + 1
    · have : ps.get ⟨(j : Nat), hj2⟩ = ps.get ⟨idx + 1, hnext2⟩ := by
        congr 1
        exact Fin.ext hj1
      rw [this]
      exact hq
    · have hlt : idx + 1 < (j : Nat) := by
        have : (i : Nat) < (j : Nat) := hij
        omega
      have hstep := hord ⟨idx + 1, hnext2⟩ ⟨(j : Nat), hj2⟩ hlt
      have hne2 := hne (ps.get ⟨idx + 1, hnext2⟩)
        (List.get_mem ps (idx + 1) hnext2)
      omega
  · rw [if_neg hii]
    by_cases hjj : idx = (j : Nat)
    · rw [if_pos hjj]
      -- the walker at i < idx ends before p0.start ≤ pn.start
      have hlt : (i : Nat) < idx := by
        have : (i : Nat) < (j : Nat) := hij
        omega
      have hstep := hord ⟨(i : Nat), hi2⟩ ⟨idx, hidxlen⟩ hlt
      rw [hgetv] at hstep
      omega
    · rw [if_neg hjj]
      exact hord ⟨(i : Nat), hi2⟩ ⟨(j : Nat), hj2⟩ hij

/-- A point update preserving the element's core keeps elements pairwise
disjoint. -/
theorem EltsDisjoint_set (es : List Elt) (i : Nat) (a b : Elt)
    (hget : es.get? i = some a) (hcore : eltCore b = eltCore a)
    (hd : EltsDisjoint es) : EltsDisjoint (es.set i b) := by
  unfold EltsDisjoint at hd ⊢
  rw [List.pairwise_iff_get] at hd ⊢
  intro x y hxy
  rw [get_set_if, get_set_if]
  obtain ⟨-, -, hs, ht⟩ := eltCore_fields b a hcore
  have hx2 : (x : Nat) < es.length := by have := x.isLt; simpa using this
  have hy2 : (y : Nat) < es.length := by have := y.isLt; simpa using this
  have hilen : i < es.length := (List.get?_eq_some.mp hget).1
  have hgetv : es.get ⟨i, hilen⟩ = a := (List.get?_eq_some.mp hget).2
  have hxy2 : (x : Nat) < (y : Nat) := hxy
  by_cases hxi : i = (x : Nat)
  · rw [if_pos hxi]
    rw [if_neg (by omega)]
    have hx3 : es.get ⟨(x : Nat), hx2⟩ = a := by
      rw [← hgetv]
      congr 1
      exact Fin.ext hxi.symm
    have hrel := hd ⟨(x : Nat), hx2⟩ ⟨(y : Nat), hy2⟩ hxy2
    rw [hx3] at hrel
    rw [hs, ht]
    exact hrel
  · rw [if_neg hxi]
    by_cases hyi : i = (y : Nat)
    · rw [if_pos hyi]
      have hy3 : es.get ⟨(y : Nat), hy2⟩ = a := by
        rw [← hgetv]
        congr 1
        exact Fin.ext hyi.symm
      have hrel := hd ⟨(x : Nat), hx2⟩ ⟨(y : Nat), hy2⟩ hxy2
      rw [hy3] at hrel
      rw [hs, ht]
      exact hrel
    · rw [if_neg hyi]
      exact hd ⟨(x : Nat), hx2⟩ ⟨(y : Nat), hy2⟩ hxy2

/-- Pairwise disjointness transports along a core-preserving
reindexing. -/
theorem EltsDisjoint_of_core (es es2 : List Elt)
    (hlen : es2.length = es.length)
    (hcore : ∀ (j : Nat) (hj : j < es.length) (hj2 : j < es2.length),
      eltCore (es2.get ⟨j, hj2⟩) = eltCore (es.get ⟨j, hj⟩))
    (hd : EltsDisjoint es) : EltsDisjoint es2 := by
  unfold EltsDisjoint at hd ⊢
  rw [List.pairwise_iff_get] at hd ⊢
  intro x y hxy
  have hx2 : (x : Nat) < es.length := by rw [← hlen]; exact x.isLt
  have hy2 : (y : Nat) < es.length := by rw [← hlen]; exact y.isLt
  show elements_intersect (es2.get ⟨(x : Nat), x.isLt⟩).start
    (es2.get ⟨(x : Nat), x.isLt⟩).stop (es2.get ⟨(y : Nat), y.isLt⟩).start
    (es2.get ⟨(y : Nat), y.isLt⟩).stop = false
  obtain ⟨-, -, hxs, hxt⟩ := eltCore_fields _ _ (hcore (x : Nat) hx2 x.isLt)
  obtain ⟨-, -, hys, hyt⟩ := eltCore_fields _ _ (hcore (y : Nat) hy2 y.isLt)
  rw [hxs, hxt, hys, hyt]
  exact hd ⟨(x : Nat), hx2⟩ ⟨(y : Nat), hy2⟩ hxy

/-- Every index returned by the promoter scan holds a free promoter with
the requested name. -/
theorem element_choices_spec (st : PSt) (promoter : String) (k i : Nat)
    (h : (element_choices st promoter).get? k = some i) :
    ∃ e, st.elements.get? i = some e ∧ e.name = promoter ∧ e.covered = 0 := by
  have hmem : i ∈ element_choices st promoter := List.get?_mem h
  unfold element_choices at hmem
  have hpred := List.of_mem_filter hmem
  cases hget : st.elements.get? i with
  | none => rw [hget] at hpred; cases hpred
  | some e =>
    rw [hget] at hpred
    simp only [Bool.and_eq_true, beq_iff_eq, Bool.not_eq_true'] at hpred
    refine ⟨e, rfl, hpred.1, ?_⟩
    have h2 := hpred.2
    unfold Elt.is_covered at h2
    simpa using h2

theorem bind_ok (st : PSt) (pol : Pol) (promoter : String) (k : Nat)
    (st2 : PSt) (tr : List Ev)
    (h : bind_polymerase st pol promoter k = (st2, tr, none)) :
    ∃ (i : Nat) (e : Elt) (p1 : Pol),
      (element_choices st promoter).get? k = some i ∧
      st.elements.get? i = some e ∧
      p1 = { pol with start := e.start, stop := e.start + pol.footprint } ∧
      e.check_interaction pol.name = true ∧
      p1.stop ≤ e.stop ∧ p1.stop ≤ st.mask.start ∧
      idxOfPol st.polymerases p1.id = none ∧
      st2 = { st with
        elements := st.elements.set i (e.cover.save_state),
        uncovered := uset st.uncovered e.name (uget st.uncovered e.name - 1),
        polymerases := st.polymerases.insertIdx
          (insertPos st.polymerases p1.start) p1,
        prop_list := st.prop_list.insertIdx
          (insertPos st.polymerases p1.start) p1.speed,
        prop_sum := st.prop_sum + p1.speed } := by
  simp only [bind_polymerase] at h
  split at h
  · simp at h
  · split at h
    · simp at h
    · split at h
      · simp at h
      · split at h
        · simp at h
        · split at h
          · simp at h
          · split at h
            · simp at h
            · split at h
              · simp at h
              · rename_i hne x1 i hk x2 element hel hint hfoot hmaskd x3 st3 hins
                have hid : idxOfPol st.polymerases
                    ({ pol with
                       start := element.start,
                       stop := element.start + pol.footprint } : Pol).id = none := by
                  simp only [insert_polymerase] at hins
                  split at hins
                  · simp at hins
                  · rename_i hso
                    rw [idxOfPol_syncPol] at hso
                    exact Option.not_isSome_iff_eq_none.mp hso
                have hsync : syncPol st.polymerases
                    { pol with
                      start := element.start,
                      stop := element.start + pol.footprint } = st.polymerases :=
                  syncPol_eq_of_not_mem _ _ hid
                refine ⟨i, element, _, hk, hel, rfl, ?_, ?_, ?_, hid, ?_⟩
                · simpa using hint
                · show element.start + pol.footprint ≤ element.stop
                  simp only [decide_eq_true_eq] at hfoot
                  omega
                · show element.start + pol.footprint ≤ st.mask.start
                  simp only [decide_eq_true_eq] at hmaskd
                  omega
                · simp only [insert_polymerase] at hins
                  split at hins
                  · simp at hins
                  · rw [Prod.mk.injEq] at hins
                    rw [Prod.mk.injEq, Prod.mk.injEq] at h
                    obtain ⟨hA, -, -⟩ := h
                    rw [← hA, ← hins.1]
                    dsimp only
                    rw [hsync]

/-- A successful bind preserves the state invariant (the walker's
footprint must be positive for it to occupy a nonempty interval). -/
theorem bind_preserves_Inv (st : PSt) (pol : Pol) (promoter : String) (k : Nat)
    (st2 : PSt) (tr : List Ev) (hfp : 0 < pol.footprint)
    (h : bind_polymerase st pol promoter k = (st2, tr, none))
    (hInv : Inv st) : Inv st2 := by
  obtain ⟨hord, hne, hgm, hnd, hdis, hcov⟩ := hInv
  obtain ⟨i, e, p1, hk, hel, hp1, hint, hfoot, hmaskv, hid, hst2⟩ :=
    bind_ok st pol promoter k st2 tr h
  obtain ⟨e2, hel2, hname, hcov0⟩ := element_choices_spec st promoter k i hk
  rw [hel] at hel2
  injection hel2 with he2
  subst he2
  have hilen : i < st.elements.length := (List.get?_eq_some.mp hel).1
  have hgetv : st.elements.get ⟨i, hilen⟩ = e := (List.get?_eq_some.mp hel).2
  have hlb := hcov i hilen
  rw [hgetv, hcov0] at hlb
  have hw0 : wcount st.polymerases e = 0 := by omega
  have hm0 : maskBitN st.mask e = 0 := by omega
  have hnomask : maskEltInter st.mask e = false := by
    by_cases hmm : maskEltInter st.mask e = true
    · rw [maskBitN, if_pos hmm] at hm0; cases hm0
    · simpa using hmm
  have hnopol : ∀ q ∈ st.polymerases, polEltInter q e = false := by
    intro q hq
    have h2 := List.countP_eq_zero.mp hw0 q hq
    simpa using h2
  have hp1s : p1.start = e.start := by rw [hp1]
  have hp1t : p1.stop = e.start + pol.footprint := by rw [hp1]
  have hp1ne : p1.start < p1.stop := by rw [hp1s, hp1t]; omega
  have hfoot2 : e.start + pol.footprint ≤ e.stop := by rw [← hp1t]; exact hfoot
  have hdisj : ∀ q ∈ st.polymerases, polPolInter q p1 = false := by
    intro q hq
    have hqe := hnopol q hq
    simp only [polEltInter, elements_intersect_false_iff] at hqe
    simp only [polPolInter, elements_intersect_false_iff]
    rw [hp1s, hp1t]
    omega
  have hp1m : polMaskInter p1 st.mask = false := by
    simp only [maskEltInter, elements_intersect_false_iff] at hnomask
    simp only [polMaskInter, elements_intersect_false_iff]
    rw [hp1s, hp1t]
    omega
  have hGW : (st.polymerases.insertIdx (insertPos st.polymerases p1.start) p1).Pairwise
      (fun a b => a.stop < b.start) :=
    insertIdx_gap p1 hp1ne st.polymerases hord hne hdisj
  have hGne : ∀ q ∈ st.polymerases.insertIdx (insertPos st.polymerases p1.start) p1,
      q.start < q.stop := by
    intro q hq
    rcases mem_of_insertIdx st.polymerases _ p1 q hq with h2 | h2
    · rw [h2]; exact hp1ne
    · exact hne q h2
  have hGM : ∀ q ∈ st.polymerases.insertIdx (insertPos st.polymerases p1.start) p1,
      polMaskInter q st.mask = true → st.mask.check_interaction q.name = true := by
    intro q hq hqi
    rcases mem_of_insertIdx st.polymerases _ p1 q hq with h2 | h2
    · rw [h2] at hqi
      rw [hp1m] at hqi
      cases hqi
    · exact hgm q h2 hqi
  have hGId : ((st.polymerases.insertIdx (insertPos st.polymerases p1.start) p1).map
      Pol.id).Nodup := by
    rw [ids_insertIdx p1 st.polymerases _ (insertPos_le p1.start st.polymerases)]
    refine nodup_insertIdx p1.id (st.polymerases.map Pol.id) _ ?_ ?_ hnd
    · rw [List.length_map]; exact insertPos_le p1.start st.polymerases
    · intro hmem
      rcases List.mem_map.mp hmem with ⟨q, hq, hqid⟩
      exact (idxOfPol_eq_none_iff st.polymerases p1.id).mp hid q hq hqid
  have hED : EltsDisjoint (st.elements.set i e.cover.save_state) :=
    EltsDisjoint_set st.elements i e e.cover.save_state hel rfl hdis
  have hCL : CoverLB (st.elements.set i e.cover.save_state)
      (st.polymerases.insertIdx (insertPos st.polymerases p1.start) p1) st.mask := by
    intro j hj
    rw [get_set_if]
    by_cases hij : i = j
    · rw [if_pos hij]
      have hcore : eltCore e.cover.save_state = eltCore e := rfl
      have hwc : wcount (st.polymerases.insertIdx (insertPos st.polymerases p1.start) p1)
          e.cover.save_state =
          wcount st.polymerases e.cover.save_state + polBitN p1 e.cover.save_state := by
        unfold wcount polBitN
        exact countP_insertIdx _ st.polymerases _ p1 (insertPos_le p1.start st.polymerases)
      rw [hwc, wcount_core st.polymerases _ e hcore, hw0,
        maskBitN_core st.mask _ e hcore, hm0]
      have hcv : (e.cover.save_state).covered = e.covered + 1 := rfl
      have hpb : polBitN p1 e.cover.save_state ≤ 1 := by
        unfold polBitN
        split <;> omega
      omega
    · rw [if_neg hij]
      have hj2 : j < st.elements.length := by simpa using hj
      have hsep : e.stop < (st.elements.get ⟨j, hj2⟩).start ∨
          (st.elements.get ⟨j, hj2⟩).stop < e.start := by
        rcases Nat.lt_or_ge i j with hij2 | hij2
        · have h3 := List.pairwise_iff_get.mp hdis ⟨i, hilen⟩ ⟨j, hj2⟩ hij2
          rw [hgetv] at h3
          rw [elements_intersect_false_iff] at h3
          omega
        · have hji : j < i := by omega
          have h3 := List.pairwise_iff_get.mp hdis ⟨j, hj2⟩ ⟨i, hilen⟩ hji
          rw [hgetv] at h3
          rw [elements_intersect_false_iff] at h3
          omega
      have hpe : polEltInter p1 (st.elements.get ⟨j, hj2⟩) = false := by
        simp only [polEltInter, elements_intersect_false_iff]
        rw [hp1s, hp1t]
        omega
      have hwc : wcount (st.polymerases.insertIdx (insertPos st.polymerases p1.start) p1)
          (st.elements.get ⟨j, hj2⟩) =
          wcount st.polymerases (st.elements.get ⟨j, hj2⟩) +
            polBitN p1 (st.elements.get ⟨j, hj2⟩) := by
        unfold wcount polBitN
        exact countP_insertIdx _ st.polymerases _ p1 (insertPos_le p1.start st.polymerases)
      rw [hwc, show polBitN p1 (st.elements.get ⟨j, hj2⟩) = 0 by
        unfold polBitN; rw [if_neg (by rw [hpe]; simp)]]
      have := hcov j hj2
      omega
  rw [hst2]
  exact ⟨hGW, hGne, hGM, hGId, hED, hCL⟩

/-- The constructor fold appends its input elements in order, covering
exactly those under the mask. -/
theorem initFold_shape (mask : Mask) :
    ∀ (es acc : List Elt) (um : UMap),
      (es.foldl (initStep mask) (acc, um)).1 =
        acc ++ es.map (fun e => if maskEltInter mask e then e.cover else e) := by
  intro es
  induction es with
  | nil => intro acc um; simp
  | cons e rest ih =>
    intro acc um
    simp only [List.foldl_cons, initStep]
    by_cases hm : maskEltInter mask e = true
    · simp only [hm, if_true]
      rw [ih]
      simp [hm]
    · simp only [Bool.not_eq_true] at hm
      simp only [hm, Bool.false_eq_true, if_false]
      rw [ih]
      simp [hm]

/-- Construction from well-formed elements establishes the invariant. -/
theorem init_Inv (kind : PKind) (name : String) (length : Int)
    (elements : List Elt) (mask : Mask) (tmpl : List Gene)
    (hwf : ElemsWf elements) :
    Inv (initPolymer kind name length elements mask tmpl) := by
  obtain ⟨hdis, hfresh⟩ := hwf
  have hsh := initFold_shape mask elements [] []
  have hcores : ∀ x : Elt,
      eltCore (if maskEltInter mask x then x.cover else x) = eltCore x := by
    intro x
    split <;> rfl
  have hED : EltsDisjoint
      (elements.map fun e => if maskEltInter mask e then e.cover else e) := by
    unfold EltsDisjoint
    rw [List.pairwise_map]
    refine hdis.imp ?_
    intro a b hr
    obtain ⟨-, -, has, hat⟩ := eltCore_fields _ _ (hcores a)
    obtain ⟨-, -, hbs, hbt⟩ := eltCore_fields _ _ (hcores b)
    rw [has, hat, hbs, hbt]
    exact hr
  have hCL : CoverLB
      (elements.map fun e => if maskEltInter mask e then e.cover else e) [] mask := by
    intro j hj
    have hj2 : j < elements.length := by simpa using hj
    have hget : (elements.map fun e =>
        if maskEltInter mask e then e.cover else e).get ⟨j, hj⟩ =
        if maskEltInter mask (elements.get ⟨j, hj2⟩) then
          (elements.get ⟨j, hj2⟩).cover else elements.get ⟨j, hj2⟩ := by
      rw [List.get_eq_getElem, List.getElem_map, List.get_eq_getElem]
    rw [hget]
    have hmem : elements.get ⟨j, hj2⟩ ∈ elements := List.get_mem elements j hj2
    have h0 := (hfresh _ hmem).1
    by_cases hm : maskEltInter mask (elements.get ⟨j, hj2⟩) = true
    · rw [if_pos hm]
      have hb : maskBitN mask (elements.get ⟨j, hj2⟩).cover ≤ 1 := by
        unfold maskBitN
        split <;> omega
      have hcv : ((elements.get ⟨j, hj2⟩).cover).covered =
          (elements.get ⟨j, hj2⟩).covered + 1 := rfl
      have hw : wcount [] (elements.get ⟨j, hj2⟩).cover = 0 := rfl
      omega
    · rw [if_neg hm]
      have hb : maskBitN mask (elements.get ⟨j, hj2⟩) = 0 := by
        unfold maskBitN
        rw [if_neg hm]
      have hw : wcount [] (elements.get ⟨j, hj2⟩) = 0 := rfl
      omega
  refine ⟨List.Pairwise.nil, ?_, ?_,
    by show (([] : List Pol).map Pol.id).Nodup; simp, ?_, ?_⟩
  · intro p hp
    exact absurd hp (List.not_mem_nil p)
  · intro p hp
    exact absurd hp (List.not_mem_nil p)
  · show EltsDisjoint ((elements.foldl (initStep mask) ([], [])).1)
    rw [hsh]
    simpa using hED
  · show CoverLB ((elements.foldl (initStep mask) ([], [])).1) [] mask
    rw [hsh]
    simpa using hCL

theorem check_state_core (i : Nat) (e : Elt) (um : UMap) :
    eltCore (check_state i e um).1 = eltCore e ∧
    (check_state i e um).1.covered = e.covered := by
  simp only [check_state]
  by_cases h1 : (e.was_covered && e.etype != "terminator") = true
  · rw [if_pos h1]
    split
    · split <;> exact ⟨rfl, rfl⟩
    · exact ⟨rfl, rfl⟩
  · rw [if_neg h1]
    split
    · split <;> exact ⟨rfl, rfl⟩
    · exact ⟨rfl, rfl⟩

theorem terminateRun_ok (st : PSt) (pol : Pol) (st2 : PSt) (tr : List Ev)
    (h : terminateRun st pol = (st2, tr, none)) :
    ∃ i, idxOfPol st.polymerases pol.id = some i ∧
      st2 = { st with
        prop_sum := st.prop_sum - pol.speed,
        polymerases := st.polymerases.eraseIdx i,
        prop_list := st.prop_list.eraseIdx i } := by
  simp only [terminateRun, terminateCore] at h
  split at h
  · simp at h
  · rename_i x st1 tr1 heq
    split at heq
    · simp at heq
    · rename_i i hidx
      rw [Prod.mk.injEq, Prod.mk.injEq] at heq
      obtain ⟨h1, -, -⟩ := heq
      refine ⟨i, hidx, ?_⟩
      split at h <;>
        (rw [Prod.mk.injEq, Prod.mk.injEq] at h
         obtain ⟨h2, -, -⟩ := h
         rw [← h2, ← h1])

/-- A successful terminate erases one walker and its speed and keeps the
invariant. -/
theorem terminate_preserves_Inv (st : PSt) (pol : Pol) (st2 : PSt) (tr : List Ev)
    (h : terminateRun st pol = (st2, tr, none)) (hInv : Inv st) : Inv st2 := by
  obtain ⟨hord, hne, hgm, hnd, hdis, hcov⟩ := hInv
  obtain ⟨i, hidx, hst2⟩ := terminateRun_ok st pol st2 tr h
  subst hst2
  have hsub : (st.polymerases.eraseIdx i).Sublist st.polymerases :=
    List.eraseIdx_sublist _ i
  refine ⟨hord.sublist hsub, ?_, ?_, ?_, hdis, ?_⟩
  · intro p hp
    exact hne p (hsub.subset hp)
  · intro p hp
    exact hgm p (hsub.subset hp)
  · show ((st.polymerases.eraseIdx i).map Pol.id).Nodup
    rw [map_eraseIdx]
    exact hnd.sublist (List.eraseIdx_sublist _ i)
  · intro j hj
    have hj2 : j < st.elements.length := hj
    have hc := hcov j hj2
    have hwle : wcount (st.polymerases.eraseIdx i) (st.elements.get ⟨j, hj2⟩) ≤
        wcount st.polymerases (st.elements.get ⟨j, hj2⟩) := hsub.countP_le _
    show wcount (st.polymerases.eraseIdx i) (st.elements.get ⟨j, hj2⟩) +
      maskBitN st.mask (st.elements.get ⟨j, hj2⟩) ≤
      (st.elements.get ⟨j, hj2⟩).covered
    omega

theorem firstMaskIdx_spec (m : Mask) :
    ∀ (es : List Elt) (n j : Nat) (e : Elt),
      firstMaskIdx m n es = some (j, e) →
      n ≤ j ∧ es.get? (j - n) = some e ∧ maskEltInter m e = true := by
  intro es
  induction es with
  | nil => intro n j e h; cases h
  | cons x rest ih =>
    intro n j e h
    by_cases hm : maskEltInter m x = true
    · simp only [firstMaskIdx, hm, if_true] at h
      injection h with h
      rw [Prod.mk.injEq] at h
      obtain ⟨h1, h2⟩ := h
      subst h1
      subst h2
      exact ⟨Nat.le_refl n, by simp, hm⟩
    · simp only [firstMaskIdx, hm] at h
      rw [if_neg (by simp [hm])] at h
      obtain ⟨hle, hget, hint⟩ := ih (n + 1) j e h
      refine ⟨by omega, ?_, hint⟩
      rw [show j - n = (j - (n + 1)) + 1 by omega]
      exact hget

theorem shift_preserves_Inv (st : PSt) (hInv : Inv st) : Inv (shift_mask st).1 := by
  obtain ⟨hord, hne, hgm, hnd, hdis, hcov⟩ := hInv
  simp only [shift_mask]
  split
  · exact ⟨hord, hne, hgm, hnd, hdis, hcov⟩
  · have hGM : ∀ p ∈ st.polymerases, polMaskInter p st.mask.recede = true →
        st.mask.recede.check_interaction p.name = true := by
      intro p hp hpi
      rw [(recede_fields st.mask).2.2 p.name]
      exact hgm p hp (polMaskInter_recede p st.mask hpi)
    split
    · refine ⟨hord, hne, hGM, hnd, hdis, ?_⟩
      intro j hj
      have hj2 : j < st.elements.length := hj
      have hc := hcov j hj2
      have hb := maskBitN_recede_le st.mask (st.elements.get ⟨j, hj2⟩)
      show wcount st.polymerases (st.elements.get ⟨j, hj2⟩) +
        maskBitN st.mask.recede (st.elements.get ⟨j, hj2⟩) ≤
        (st.elements.get ⟨j, hj2⟩).covered
      omega
    · rename_i hmne x i e heq
      obtain ⟨-, hget0, hint⟩ := firstMaskIdx_spec st.mask st.elements 0 i e heq
      rw [Nat.sub_zero] at hget0
      have hilen : i < st.elements.length := (List.get?_eq_some.mp hget0).1
      have hgetv : st.elements.get ⟨i, hilen⟩ = e := (List.get?_eq_some.mp hget0).2
      have hci := hcov i hilen
      rw [hgetv] at hci
      have hb1 : maskBitN st.mask e = 1 := by
        unfold maskBitN
        rw [if_pos hint]
      by_cases hmr : maskEltInter st.mask.recede e.save_state.uncover = true
      · rw [if_pos hmr]
        have hcs := check_state_core i e.save_state.uncover.cover st.uncovered
        have hcore : eltCore (check_state i e.save_state.uncover.cover st.uncovered).1 =
            eltCore e := hcs.1.trans rfl
        have hcovd : (check_state i e.save_state.uncover.cover st.uncovered).1.covered =
            e.covered - 1 + 1 := hcs.2.trans rfl
        refine ⟨hord, hne, hGM, hnd, ?_, ?_⟩
        · exact EltsDisjoint_set st.elements i e _ hget0 hcore hdis
        · intro j hj
          have hj2 : j < st.elements.length := by simpa using hj
          show wcount st.polymerases ((st.elements.set i
              (check_state i e.save_state.uncover.cover st.uncovered).1).get ⟨j, hj⟩) +
            maskBitN st.mask.recede ((st.elements.set i
              (check_state i e.save_state.uncover.cover st.uncovered).1).get ⟨j, hj⟩) ≤
            ((st.elements.set i
              (check_state i e.save_state.uncover.cover st.uncovered).1).get ⟨j, hj⟩).covered
          rw [get_set_if]
          by_cases hij : i = j
          · rw [if_pos hij]
            rw [wcount_core st.polymerases _ e hcore,
              maskBitN_core st.mask.recede _ e hcore, hcovd]
            have hb2 : maskBitN st.mask.recede e ≤ 1 := by
              unfold maskBitN
              split <;> omega
            omega
          · rw [if_neg hij]
            have hc := hcov j hj2
            have hb := maskBitN_recede_le st.mask (st.elements.get ⟨j, hj2⟩)
            omega
      · rw [if_neg hmr]
        have hmrf : maskEltInter st.mask.recede e.save_state.uncover = false := by
          revert hmr
          cases maskEltInter st.mask.recede e.save_state.uncover <;> simp
        have hcs := check_state_core i e.save_state.uncover st.uncovered
        have hcore : eltCore (check_state i e.save_state.uncover st.uncovered).1 =
            eltCore e := hcs.1.trans rfl
        have hcovd : (check_state i e.save_state.uncover st.uncovered).1.covered =
            e.covered - 1 := hcs.2.trans rfl
        have hbre : maskBitN st.mask.recede e = 0 := by
          have h5 : maskEltInter st.mask.recede e = false := by
            rw [← maskEltInter_core st.mask.recede e.save_state.uncover e rfl]
            exact hmrf
          unfold maskBitN
          rw [if_neg (by rw [h5]; simp)]
        refine ⟨hord, hne, hGM, hnd, ?_, ?_⟩
        · exact EltsDisjoint_set st.elements i e _ hget0 hcore hdis
        · intro j hj
          have hj2 : j < st.elements.length := by simpa using hj
          show wcount st.polymerases ((st.elements.set i
              (check_state i e.save_state.uncover st.uncovered).1).get ⟨j, hj⟩) +
            maskBitN st.mask.recede ((st.elements.set i
              (check_state i e.save_state.uncover st.uncovered).1).get ⟨j, hj⟩) ≤
            ((st.elements.set i
              (check_state i e.save_state.uncover st.uncovered).1).get ⟨j, hj⟩).covered
          rw [get_set_if]
          by_cases hij : i = j
          · rw [if_pos hij]
            rw [wcount_core st.polymerases _ e hcore,
              maskBitN_core st.mask.recede _ e hcore, hcovd, hbre]
            omega
          · rw [if_neg hij]
            have hc := hcov j hj2
            have hb := maskBitN_recede_le st.mask (st.elements.get ⟨j, hj2⟩)
            omega

/-- The save-and-uncover pass keeps the element's core and subtracts the
walker and mask bits from its covering count. -/
theorem phase1Elt_covered (p : Pol) (m : Mask) (e : Elt) :
    eltCore (phase1Elt p m e) = eltCore e ∧
    (phase1Elt p m e).covered = e.covered - polBitN p e - maskBitN m e := by
  simp only [phase1Elt, polBitN, maskBitN]
  by_cases hp : polEltInter p e = true
  · rw [if_pos hp, if_pos hp]
    have hm2 : maskEltInter m e.save_state.uncover = maskEltInter m e :=
      maskEltInter_core m e.save_state.uncover e rfl
    by_cases hm : maskEltInter m e = true
    · rw [hm2, if_pos hm, if_pos hm]
      exact ⟨rfl, rfl⟩
    · rw [hm2, if_neg hm, if_neg hm]
      exact ⟨rfl, rfl⟩
  · rw [if_neg hp, if_neg hp]
    by_cases hm : maskEltInter m e = true
    · rw [if_pos hm, if_pos hm]
      exact ⟨rfl, rfl⟩
    · rw [if_neg hm, if_neg hm]
      exact ⟨rfl, rfl⟩

/-- Index view of the save-and-uncover pass. -/
theorem phase1_get (p : Pol) (m : Mask) (es : List Elt) (i : Nat) :
    (phase1 p m i es).1.length = es.length ∧
    ∀ (j : Nat) (hj : j < es.length) (hj2 : j < (phase1 p m i es).1.length),
      (phase1 p m i es).1.get ⟨j, hj2⟩ = phase1Elt p m (es.get ⟨j, hj⟩) := by
  rw [phase1_fst p m es i]
  refine ⟨List.length_map es _, ?_⟩
  intro j hj hj2
  rw [List.get_eq_getElem, List.getElem_map, List.get_eq_getElem]

/-- Outcomes of a successful downstream-collision resolution. -/
theorem resolveCollisions_ok (ps : List Pol) (idx : Nat) (p p2 : Pol) (c : Bool)
    (h : resolveCollisions ps idx p = Except.ok (p2, c)) :
    (p2 = p ∧ ∀ q, ps.get? (idx + 1) = some q → polPolInter p q = false) ∨
    (p2 = p.move_back ∧ ∃ q, ps.get? (idx + 1) = some q ∧ polPolInter p q = true) := by
  simp only [resolveCollisions] at h
  split at h
  · rename_i hnone
    injection h with h
    rw [Prod.mk.injEq] at h
    refine Or.inl ⟨h.1.symm, ?_⟩
    intro q hq
    rw [hq] at hnone
    cases hnone
  · rename_i q hq
    split at h
    · rename_i hinter
      split at h
      · cases h
      · injection h with h
        rw [Prod.mk.injEq] at h
        exact Or.inr ⟨h.1.symm, q, hq, hinter⟩
    · rename_i hnin
      injection h with h
      rw [Prod.mk.injEq] at h
      refine Or.inl ⟨h.1.symm, ?_⟩
      intro q2 hq2
      rw [hq] at hq2
      injection hq2 with hq2
      subst hq2
      revert hnin
      cases polPolInter p q <;> simp

/-- Outcomes of a successful mask-collision resolution. -/
theorem resolveMaskCollisions_ok (m : Mask) (p : Pol) (m2 : Mask) (p3 : Pol)
    (c : Bool) (h : resolveMaskCollisions m p = Except.ok (m2, p3, c)) :
    (m2 = m ∧ p3 = p ∧ polMaskInter p m = false) ∨
    (m2 = m.recede ∧ p3 = p ∧ polMaskInter p m = true ∧
      m.check_interaction p.name = true) ∨
    (m2 = m ∧ p3 = p.move_back ∧ polMaskInter p m = true ∧
      m.check_interaction p.name = false) := by
  simp only [resolveMaskCollisions] at h
  split at h
  · rename_i hint
    split at h
    · cases h
    · split at h
      · rename_i hwl
        injection h with h
        rw [Prod.mk.injEq, Prod.mk.injEq] at h
        exact Or.inr (Or.inl ⟨h.1.symm, h.2.1.symm, hint, hwl⟩)
      · rename_i hwl
        injection h with h
        rw [Prod.mk.injEq, Prod.mk.injEq] at h
        refine Or.inr (Or.inr ⟨h.1.symm, h.2.1.symm, hint, ?_⟩)
        revert hwl
        cases m.check_interaction p.name <;> simp
  · rename_i hnint
    injection h with h
    rw [Prod.mk.injEq, Prod.mk.injEq] at h
    refine Or.inl ⟨h.1.symm, h.2.1.symm, ?_⟩
    revert hnint
    cases polMaskInter p m <;> simp

/-- The walker part of a recover step never changes stored walker names
or coordinates: write-through rewrites key-equal records and termination
at most erases one. -/
theorem polBranch_coords (i : Nat) (e1 : Elt) (ms1 : MSt)
    (hC : PolAliasKey ms1) :
    ((polBranch i e1 ms1).2.1.polymerases.map polKey).Sublist
      (ms1.polymerases.map polKey) ∧
    polKey (polBranch i e1 ms1).2.1.pol = polKey ms1.pol ∧
    PolAliasKey (polBranch i e1 ms1).2.1 := by
  by_cases hp : polEltInter ms1.pol e1 = true
  · by_cases ht : (e1.cover.check_interaction ms1.pol.name &&
        e1.cover.etype == "terminator") = true
    · obtain ⟨hid, hstart, hstop, hspeed, hname⟩ :=
        resolve_termination_pol e1.cover ms1.pol ms1.draws
      have hrt : polKey (resolve_termination e1.cover ms1.pol ms1.draws).2.1 =
          polKey ms1.pol := by
        simp only [polKey, hname, hstart, hstop]
      have hCsync : ∀ r ∈ ms1.polymerases,
          r.id = (resolve_termination e1.cover ms1.pol ms1.draws).2.1.id →
          polKey r = polKey (resolve_termination e1.cover ms1.pol ms1.draws).2.1 := by
        intro r hr hrid
        rw [hrt]
        exact hC r hr (by rw [← hid]; exact hrid)
      have hmap := syncPol_polKey ms1.polymerases
        (resolve_termination e1.cover ms1.pol ms1.draws).2.1 hCsync
      have hCout : ∀ r ∈ syncPol ms1.polymerases
          (resolve_termination e1.cover ms1.pol ms1.draws).2.1,
          r.id = (resolve_termination e1.cover ms1.pol ms1.draws).2.1.id →
          polKey r = polKey (resolve_termination e1.cover ms1.pol ms1.draws).2.1 := by
        intro r hr hrid
        rcases mem_syncPol ms1.polymerases _ r hr with h | h
        · rw [h]
        · exact hCsync r h hrid
      by_cases ha : (resolve_termination e1.cover ms1.pol ms1.draws).2.1.attached = true
      · rw [polBranch_eq_alive i e1 ms1 hp ht ha]
        refine ⟨by rw [hmap], hrt, ?_⟩
        intro r hr hrid
        exact hCout r hr hrid
      · have ha2 : (resolve_termination e1.cover ms1.pol ms1.draws).2.1.attached = false := by
          revert ha
          cases (resolve_termination e1.cover ms1.pol ms1.draws).2.1.attached <;> simp
        cases hidx : idxOfPol (syncPol ms1.polymerases
            (resolve_termination e1.cover ms1.pol ms1.draws).2.1)
            (resolve_termination e1.cover ms1.pol ms1.draws).2.1.id with
        | none =>
          rw [polBranch_eq_term_err i e1 ms1 hp ht ha2 hidx]
          refine ⟨by rw [hmap], hrt, ?_⟩
          intro r hr hrid
          exact hCout r hr hrid
        | some j =>
          rw [polBranch_eq_term i e1 ms1 j hp ht ha2 hidx]
          refine ⟨?_, hrt, ?_⟩
          · rw [map_eraseIdx, hmap]
            exact List.eraseIdx_sublist _ j
          · intro r hr hrid
            have hr2 : r ∈ syncPol ms1.polymerases
                (resolve_termination e1.cover ms1.pol ms1.draws).2.1 :=
              (List.eraseIdx_sublist _ j).subset hr
            exact hCout r hr2 hrid
    · have ht2 : (e1.cover.check_interaction ms1.pol.name &&
          e1.cover.etype == "terminator") = false := by
        revert ht
        cases (e1.cover.check_interaction ms1.pol.name &&
          e1.cover.etype == "terminator") <;> simp
      rw [polBranch_eq_cover i e1 ms1 hp ht2]
      exact ⟨List.Sublist.refl _, rfl, hC⟩
  · have hp2 : polEltInter ms1.pol e1 = false := by
      revert hp
      cases polEltInter ms1.pol e1 <;> simp
    rw [polBranch_eq_miss i e1 ms1 hp2]
    exact ⟨List.Sublist.refl _, rfl, hC⟩

/-- A recover step never changes stored walker names or coordinates. -/
theorem recoverElt_coords (m : Mask) (i : Nat) (e : Elt) (ms : MSt)
    (hC : PolAliasKey ms) :
    ((recoverElt m i e ms).2.1.polymerases.map polKey).Sublist
      (ms.polymerases.map polKey) ∧
    polKey (recoverElt m i e ms).2.1.pol = polKey ms.pol ∧
    PolAliasKey (recoverElt m i e ms).2.1 := by
  obtain ⟨hpols, hpol, hkind, herr⟩ := recoverElt_fields m i e ms
  have hpb := polBranch_coords i (maskBranch m i e ms.uncovered).1
    { ms with uncovered := (maskBranch m i e ms.uncovered).2.1 } hC
  refine ⟨?_, ?_, ?_⟩
  · rw [hpols]
    exact hpb.1
  · rw [hpol]
    exact hpb.2.1
  · intro r hr hrid
    rw [hpols] at hr
    rw [hpol] at hrid ⊢
    exact hpb.2.2 r hr hrid

/-- The recover loop never changes stored walker names or coordinates,
and keeps the moving walker's name and coordinates. -/
theorem recover_coords (m : Mask) :
    ∀ (es : List Elt) (i : Nat) (ms : MSt), ms.err = none → PolAliasKey ms →
      ((recover m i es ms).2.1.polymerases.map polKey).Sublist
        (ms.polymerases.map polKey) ∧
      polKey (recover m i es ms).2.1.pol = polKey ms.pol ∧
      PolAliasKey (recover m i es ms).2.1 := by
  intro es
  induction es with
  | nil =>
    intro i ms h0 hC
    exact ⟨List.Sublist.refl _, rfl, hC⟩
  | cons e rest ih =>
    intro i ms h0 hC
    rw [recover_cons m i e rest ms h0]
    obtain ⟨hsub1, hpol1, hC1⟩ := recoverElt_coords m i e ms hC
    cases herr1 : (recoverElt m i e ms).2.1.err with
    | some er =>
      rw [recover_err m rest (i + 1) _ er herr1]
      exact ⟨hsub1, hpol1, hC1⟩
    | none =>
      obtain ⟨hsub2, hpol2, hC2⟩ := ih (i + 1) (recoverElt m i e ms).2.1 herr1 hC1
      exact ⟨hsub2.trans hsub1, hpol2.trans hpol1, hC2⟩

/-- The recover loop only erases identities from the walker list. -/
theorem recover_ids (m : Mask) :
    ∀ (es : List Elt) (i : Nat) (ms : MSt), ms.err = none →
      ((recover m i es ms).2.1.polymerases.map Pol.id).Sublist
        (ms.polymerases.map Pol.id) := by
  intro es
  induction es with
  | nil =>
    intro i ms h0
    exact List.Sublist.refl _
  | cons e rest ih =>
    intro i ms h0
    rw [recover_cons m i e rest ms h0]
    have hsub1 := (recoverElt_state m i e ms h0).1
    cases herr1 : (recoverElt m i e ms).2.1.err with
    | some er =>
      rw [recover_err m rest (i + 1) _ er herr1]
      exact hsub1
    | none => exact (ih (i + 1) _ herr1).trans hsub1

/-- Termination resolution keeps the element's core and covering
count. -/
theorem resolve_termination_core (e : Elt) (p : Pol) (d : List Bool) :
    eltCore (resolve_termination e p d).1 = eltCore e ∧
    (resolve_termination e p d).1.covered = e.covered := by
  simp only [resolve_termination]
  split
  · exact ⟨rfl, rfl⟩
  · split
    · exact ⟨rfl, rfl⟩
    · split
      · exact ⟨rfl, rfl⟩
      · split <;> exact ⟨rfl, rfl⟩

/-- The mask part of a recover step keeps the core and adds the mask
bit. -/
theorem maskBranch_covered (m : Mask) (i : Nat) (e : Elt) (um : UMap) :
    eltCore (maskBranch m i e um).1 = eltCore e ∧
    (maskBranch m i e um).1.covered = e.covered + maskBitN m e := by
  simp only [maskBranch, maskBitN]
  by_cases hm : maskEltInter m e = true
  · rw [if_pos hm, if_pos hm]
    have hcs := check_state_core i e.cover um
    exact ⟨hcs.1.trans rfl, hcs.2.trans rfl⟩
  · rw [if_neg hm, if_neg hm]
    exact ⟨rfl, rfl⟩

/-- The walker part of a recover step keeps the core and adds the walker
bit. -/
theorem polBranch_covered (i : Nat) (e1 : Elt) (ms1 : MSt) :
    eltCore (polBranch i e1 ms1).1 = eltCore e1 ∧
    (polBranch i e1 ms1).1.covered = e1.covered + polBitN ms1.pol e1 := by
  simp only [polBranch, polBitN]
  by_cases hp : polEltInter ms1.pol e1 = true
  · rw [if_pos hp, if_pos hp]
    have hrc := resolve_termination_core e1.cover ms1.pol ms1.draws
    split
    · split
      · exact ⟨hrc.1.trans rfl, hrc.2.trans rfl⟩
      · exact ⟨hrc.1.trans rfl, hrc.2.trans rfl⟩
    · exact ⟨rfl, rfl⟩
  · rw [if_neg hp, if_neg hp]
    exact ⟨rfl, rfl⟩

/-- A recover step keeps the element's core and adds the mask and walker
bits to its covering count. -/
theorem recoverElt_covered (m : Mask) (i : Nat) (e : Elt) (ms : MSt) :
    eltCore (recoverElt m i e ms).1 = eltCore e ∧
    (recoverElt m i e ms).1.covered =
      e.covered + maskBitN m e + polBitN ms.pol e := by
  have hmb := maskBranch_covered m i e ms.uncovered
  have hpb := polBranch_covered i (maskBranch m i e ms.uncovered).1
    { ms with uncovered := (maskBranch m i e ms.uncovered).2.1 }
  have htrans : polBitN ms.pol (maskBranch m i e ms.uncovered).1 = polBitN ms.pol e :=
    polBitN_core ms.pol _ e hmb.1
  have hcomb : (polBranch i (maskBranch m i e ms.uncovered).1
      { ms with uncovered := (maskBranch m i e ms.uncovered).2.1 }).1.covered =
      e.covered + maskBitN m e + polBitN ms.pol e := by
    rw [hpb.2, hmb.2]
    have hproj : ({ ms with
        uncovered := (maskBranch m i e ms.uncovered).2.1 } : MSt).pol = ms.pol := rfl
    rw [hproj, htrans]
  simp only [recoverElt]
  split
  · exact ⟨hpb.1.trans hmb.1, hcomb⟩
  · have hcs := check_state_core i (polBranch i (maskBranch m i e ms.uncovered).1
      { ms with uncovered := (maskBranch m i e ms.uncovered).2.1 }).1
      (polBranch i (maskBranch m i e ms.uncovered).1
        { ms with uncovered := (maskBranch m i e ms.uncovered).2.1 }).2.1.uncovered
    exact ⟨hcs.1.trans (hpb.1.trans hmb.1), hcs.2.trans hcomb⟩

/-- Index view of a successful recover loop: cores are kept and every
element regains its mask and walker bits. -/
theorem recover_elts (m : Mask) :
    ∀ (es : List Elt) (i : Nat) (ms : MSt), ms.err = none → PolAliasKey ms →
      (recover m i es ms).2.1.err = none →
      (recover m i es ms).1.length = es.length ∧
      ∀ (j : Nat) (hj : j < es.length) (hj2 : j < (recover m i es ms).1.length),
        eltCore ((recover m i es ms).1.get ⟨j, hj2⟩) = eltCore (es.get ⟨j, hj⟩) ∧
        ((recover m i es ms).1.get ⟨j, hj2⟩).covered =
          (es.get ⟨j, hj⟩).covered + maskBitN m (es.get ⟨j, hj⟩) +
            polBitN ms.pol (es.get ⟨j, hj⟩) := by
  intro es
  induction es with
  | nil =>
    intro i ms h0 hC hok
    exact ⟨rfl, fun j hj => absurd hj (Nat.not_lt_zero j)⟩
  | cons e rest ih =>
    intro i ms h0 hC hok
    have hfin := congrArg (fun t => t.2.1.err) (recover_cons m i e rest ms h0)
    dsimp only at hfin
    cases herr1 : (recoverElt m i e ms).2.1.err with
    | some er =>
      rw [hfin, recover_err m rest (i + 1) _ er herr1] at hok
      dsimp only at hok
      rw [herr1] at hok
      cases hok
    | none =>
      rw [hfin] at hok
      obtain ⟨hsub1, hpol1, hC1⟩ := recoverElt_coords m i e ms hC
      obtain ⟨hlen2, hget2⟩ := ih (i + 1) (recoverElt m i e ms).2.1 herr1 hC1 hok
      rw [recover_cons m i e rest ms h0]
      refine ⟨?_, ?_⟩
      · show ((recoverElt m i e ms).1 ::
          (recover m (i + 1) rest (recoverElt m i e ms).2.1).1).length =
          rest.length + 1
        rw [List.length_cons, hlen2]
      · intro j hj hj2
        cases j with
        | zero =>
          have hre := recoverElt_covered m i e ms
          exact ⟨hre.1, hre.2⟩
        | succ j2 =>
          have hj2r : j2 < rest.length := Nat.lt_of_succ_lt_succ hj
          have hj2r2 : j2 < (recover m (i + 1) rest (recoverElt m i e ms).2.1).1.length := by
            rw [hlen2]
            exact hj2r
          have hthis := hget2 j2 hj2r hj2r2
          have hpb := polBitN_coords (recoverElt m i e ms).2.1.pol ms.pol
            (polKey_coords _ _ hpol1) (rest.get ⟨j2, hj2r⟩)
          refine ⟨?_, ?_⟩
          · show eltCore ((recover m (i + 1) rest (recoverElt m i e ms).2.1).1.get
              ⟨j2, hj2r2⟩) = eltCore (rest.get ⟨j2, hj2r⟩)
            exact hthis.1
          · show ((recover m (i + 1) rest (recoverElt m i e ms).2.1).1.get
              ⟨j2, hj2r2⟩).covered = (rest.get ⟨j2, hj2r⟩).covered +
              maskBitN m (rest.get ⟨j2, hj2r⟩) + polBitN ms.pol (rest.get ⟨j2, hj2r⟩)
            rw [← hpb]
            exact hthis.2

/-- The recover phase of a successful move: starting from a point update
of the moving walker that satisfies the geometric invariants, the final
state satisfies the invariant. -/
theorem move_recover_Inv (st : PSt) (idx : Nat) (p0 p3 : Pol) (m2 : Mask)
    (draws : List Bool)
    (hp0 : st.polymerases.get? idx = some p0)
    (hnd : (st.polymerases.map Pol.id).Nodup)
    (hdis : EltsDisjoint st.elements)
    (hcov : CoverLB st.elements st.polymerases st.mask)
    (hp3id : p3.id = p0.id)
    (hGW3 : (st.polymerases.set idx p3).Pairwise fun a b => a.stop < b.start)
    (hGne3 : ∀ q ∈ st.polymerases.set idx p3, q.start < q.stop)
    (hGM3 : ∀ q ∈ st.polymerases.set idx p3, polMaskInter q m2 = true →
      m2.check_interaction q.name = true)
    (herr : (recover m2 0 (phase1 p0 st.mask 0 st.elements).1
      { kind := st.kind, pol := p3, polymerases := st.polymerases.set idx p3,
        prop_list := st.prop_list, prop_sum := st.prop_sum,
        uncovered := st.uncovered, draws := draws, err := none }).2.1.err = none) :
    Inv { st with
      elements := (recover m2 0 (phase1 p0 st.mask 0 st.elements).1
        { kind := st.kind, pol := p3, polymerases := st.polymerases.set idx p3,
          prop_list := st.prop_list, prop_sum := st.prop_sum,
          uncovered := st.uncovered, draws := draws, err := none }).1,
      mask := m2,
      polymerases := (recover m2 0 (phase1 p0 st.mask 0 st.elements).1
        { kind := st.kind, pol := p3, polymerases := st.polymerases.set idx p3,
          prop_list := st.prop_list, prop_sum := st.prop_sum,
          uncovered := st.uncovered, draws := draws, err := none }).2.1.polymerases,
      prop_list := (recover m2 0 (phase1 p0 st.mask 0 st.elements).1
        { kind := st.kind, pol := p3, polymerases := st.polymerases.set idx p3,
          prop_list := st.prop_list, prop_sum := st.prop_sum,
          uncovered := st.uncovered, draws := draws, err := none }).2.1.prop_list,
      prop_sum := (recover m2 0 (phase1 p0 st.mask 0 st.elements).1
        { kind := st.kind, pol := p3, polymerases := st.polymerases.set idx p3,
          prop_list := st.prop_list, prop_sum := st.prop_sum,
          uncovered := st.uncovered, draws := draws, err := none }).2.1.prop_sum,
      uncovered := (recover m2 0 (phase1 p0 st.mask 0 st.elements).1
        { kind := st.kind, pol := p3, polymerases := st.polymerases.set idx p3,
          prop_list := st.prop_list, prop_sum := st.prop_sum,
          uncovered := st.uncovered, draws := draws, err := none }).2.1.uncovered } := by
  have hidxlen : idx < st.polymerases.length := (List.get?_eq_some.mp hp0).1
  have hC0 : PolAliasKey
      { kind := st.kind, pol := p3, polymerases := st.polymerases.set idx p3,
        prop_list := st.prop_list, prop_sum := st.prop_sum,
        uncovered := st.uncovered, draws := draws, err := none } := by
    intro r hr hrid
    rcases List.mem_iff_get?.mp hr with ⟨j, hj⟩
    by_cases hji : j = idx
    · subst hji
      rw [List.get?_set_eq_of_lt p3 hidxlen] at hj
      injection hj with hj
      rw [hj]
    · rw [List.get?_set_ne p3 st.polymerases (fun hh => hji hh.symm)] at hj
      have hj2 := nodup_ids_get r p0 (by rw [← hp3id]; exact hrid)
        st.polymerases j idx hnd hj hp0
      exact absurd hj2 hji
  obtain ⟨hplen, hpget⟩ := phase1_get p0 st.mask st.elements 0
  obtain ⟨hrsub, hrpol, hrC⟩ := recover_coords m2
    (phase1 p0 st.mask 0 st.elements).1 0 _ rfl hC0
  have hrids := recover_ids m2 (phase1 p0 st.mask 0 st.elements).1 0
    { kind := st.kind, pol := p3, polymerases := st.polymerases.set idx p3,
      prop_list := st.prop_list, prop_sum := st.prop_sum,
      uncovered := st.uncovered, draws := draws, err := none } rfl
  obtain ⟨hrlen, hrget⟩ := recover_elts m2
    (phase1 p0 st.mask 0 st.elements).1 0 _ rfl hC0 herr
  have hmapget : (st.polymerases.map Pol.id).get? idx = some p0.id := by
    rw [List.get?_map, hp0]
    rfl
  have hids3 : (st.polymerases.set idx p3).map Pol.id = st.polymerases.map Pol.id := by
    rw [List.map_set, hp3id, set_get_self _ _ _ hmapget]
  refine ⟨?_, ?_, ?_, ?_, ?_, ?_⟩
  · have h1 : ((st.polymerases.set idx p3).map polKey).Pairwise
        (fun a b => a.2.2 < b.2.1) := by
      rw [List.pairwise_map]
      exact hGW3
    exact List.pairwise_map.mp (h1.sublist hrsub)
  · intro q hq
    have h2 := hrsub.subset (List.mem_map_of_mem polKey hq)
    rcases List.mem_map.mp h2 with ⟨r, hr, hcr⟩
    have h3 := hGne3 r hr
    have h4 : r.start = q.start ∧ r.stop = q.stop := by
      have h5 := polKey_coords r q hcr
      simpa only [coordsOf, Prod.mk.injEq] using h5
    omega
  · intro q hq hqi
    have h2 := hrsub.subset (List.mem_map_of_mem polKey hq)
    rcases List.mem_map.mp h2 with ⟨r, hr, hcr⟩
    have h4 : r.start = q.start ∧ r.stop = q.stop := by
      have h5 := polKey_coords r q hcr
      simpa only [coordsOf, Prod.mk.injEq] using h5
    have h5 : polMaskInter r m2 = true := by
      simp only [polMaskInter] at hqi ⊢
      rw [h4.1, h4.2]
      exact hqi
    rw [← polKey_name r q hcr]
    exact hGM3 r hr h5
  · rw [hids3] at hrids
    exact hnd.sublist hrids
  · refine EltsDisjoint_of_core st.elements _ ?_ ?_ hdis
    · rw [hrlen, hplen]
    · intro j hj hj2
      have hjP : j < (phase1 p0 st.mask 0 st.elements).1.length := by
        rw [hplen]
        exact hj
      refine (hrget j hjP hj2).1.trans ?_
      rw [hpget j hj hjP]
      exact (phase1Elt_covered p0 st.mask (st.elements.get ⟨j, hj⟩)).1
  · intro j hj
    show wcount (recover m2 0 (phase1 p0 st.mask 0 st.elements).1
        { kind := st.kind, pol := p3, polymerases := st.polymerases.set idx p3,
          prop_list := st.prop_list, prop_sum := st.prop_sum,
          uncovered := st.uncovered, draws := draws, err := none }).2.1.polymerases
        ((recover m2 0 (phase1 p0 st.mask 0 st.elements).1
        { kind := st.kind, pol := p3, polymerases := st.polymerases.set idx p3,
          prop_list := st.prop_list, prop_sum := st.prop_sum,
          uncovered := st.uncovered, draws := draws, err := none }).1.get ⟨j, hj⟩) +
      maskBitN m2 ((recover m2 0 (phase1 p0 st.mask 0 st.elements).1
        { kind := st.kind, pol := p3, polymerases := st.polymerases.set idx p3,
          prop_list := st.prop_list, prop_sum := st.prop_sum,
          uncovered := st.uncovered, draws := draws, err := none }).1.get ⟨j, hj⟩) ≤
      ((recover m2 0 (phase1 p0 st.mask 0 st.elements).1
        { kind := st.kind, pol := p3, polymerases := st.polymerases.set idx p3,
          prop_list := st.prop_list, prop_sum := st.prop_sum,
          uncovered := st.uncovered, draws := draws, err := none }).1.get ⟨j, hj⟩).covered
    have hjP : j < (phase1 p0 st.mask 0 st.elements).1.length := by
      rw [← hrlen]
      exact hj
    have hj0 : j < st.elements.length := by
      rw [← hplen]
      exact hjP
    have hPcore : eltCore ((phase1 p0 st.mask 0 st.elements).1.get ⟨j, hjP⟩) =
        eltCore (st.elements.get ⟨j, hj0⟩) := by
      rw [hpget j hj0 hjP]
      exact (phase1Elt_covered p0 st.mask (st.elements.get ⟨j, hj0⟩)).1
    have hcore_j := ((hrget j hjP hj).1).trans hPcore
    have hcv := (hrget j hjP hj).2
    have hPcv : ((phase1 p0 st.mask 0 st.elements).1.get ⟨j, hjP⟩).covered =
        (st.elements.get ⟨j, hj0⟩).covered -
          polBitN p0 (st.elements.get ⟨j, hj0⟩) -
          maskBitN st.mask (st.elements.get ⟨j, hj0⟩) := by
      rw [hpget j hj0 hjP]
      exact (phase1Elt_covered p0 st.mask (st.elements.get ⟨j, hj0⟩)).2
    rw [maskBitN_core m2 _ _ hPcore, polBitN_core _ _ _ hPcore, hPcv] at hcv
    have hbit3 : polBitN
        ({ kind := st.kind,
           pol := p3,
           polymerases := st.polymerases.set idx p3,
           prop_list := st.prop_list,
           prop_sum := st.prop_sum,
           uncovered := st.uncovered,
           draws := draws,
           err := none } : MSt).pol (st.elements.get ⟨j, hj0⟩) =
        polBitN p3 (st.elements.get ⟨j, hj0⟩) := rfl
    rw [hbit3] at hcv
    have hwfx : wcount ((recover m2 0 (phase1 p0 st.mask 0 st.elements).1
        { kind := st.kind, pol := p3, polymerases := st.polymerases.set idx p3,
          prop_list := st.prop_list, prop_sum := st.prop_sum,
          uncovered := st.uncovered, draws := draws,
          err := none }).2.1.polymerases) (st.elements.get ⟨j, hj0⟩) ≤
        wcount (st.polymerases.set idx p3) (st.elements.get ⟨j, hj0⟩) := by
      rw [wcount_eq_keys, wcount_eq_keys]
      exact hrsub.countP_le _
    have hset : wcount (st.polymerases.set idx p3) (st.elements.get ⟨j, hj0⟩) +
        polBitN p0 (st.elements.get ⟨j, hj0⟩) =
        wcount st.polymerases (st.elements.get ⟨j, hj0⟩) +
          polBitN p3 (st.elements.get ⟨j, hj0⟩) := by
      unfold wcount polBitN
      exact countP_set_add _ st.polymerases idx p0 p3 hp0
    have hmemb : polBitN p0 (st.elements.get ⟨j, hj0⟩) ≤
        wcount st.polymerases (st.elements.get ⟨j, hj0⟩) := by
      unfold polBitN wcount
      by_cases hb : polEltInter p0 (st.elements.get ⟨j, hj0⟩) = true
      · rw [if_pos hb]
        have h5 : 0 < st.polymerases.countP
            (fun p => polEltInter p (st.elements.get ⟨j, hj0⟩)) :=
          List.countP_pos_iff.mpr ⟨p0, List.get?_mem hp0, hb⟩
        omega
      · rw [if_neg hb]
        exact Nat.zero_le _
    have hcb := hcov j hj0
    rw [wcount_core _ _ _ hcore_j, maskBitN_core m2 _ _ hcore_j, hcv]
    omega

/-- A successful move preserves the invariant. -/
theorem move_preserves_Inv (st : PSt) (polId : Nat) (draws : List Bool)
    (st2 : PSt) (tr : List Ev)
    (h : move_polymerase st polId draws = (st2, tr, none))
    (hInv : Inv st) : Inv st2 := by
  obtain ⟨hord, hne, hgm, hnd, hdis, hcov⟩ := hInv
  simp only [move_polymerase] at h
  split at h
  · simp at h
  · split at h
    · simp at h
    · split at h
      · simp at h
      · split at h
        · simp at h
        · rename_i x1 idx hidx x2 p0 hp0 x3 p2 polC hcol x4 m2 p3 maskC hmask
          rw [Prod.mk.injEq, Prod.mk.injEq] at h
          obtain ⟨hst2, -, herr⟩ := h
          subst hst2
          have hidxlen : idx < st.polymerases.length := (List.get?_eq_some.mp hp0).1
          have hgetv : st.polymerases.get ⟨idx, hidxlen⟩ = p0 :=
            (List.get?_eq_some.mp hp0).2
          have hp0mem : p0 ∈ st.polymerases := List.get?_mem hp0
          have hsync1 : syncPol st.polymerases p0.move = st.polymerases.set idx p0.move :=
            syncPol_eq_set p0.move st.polymerases idx p0 hnd hp0 rfl
          have hmapget : (st.polymerases.map Pol.id).get? idx = some p0.id := by
            rw [List.get?_map, hp0]
            rfl
          have hids_set : ∀ q : Pol, q.id = p0.id →
              ((st.polymerases.set idx q).map Pol.id).Nodup ∧
              (st.polymerases.set idx q).get? idx = some q := by
            intro q hqid
            constructor
            · rw [List.map_set, hqid, set_get_self _ _ _ hmapget]
              exact hnd
            · exact List.get?_set_eq_of_lt q hidxlen
          have hsync_step : ∀ (q q2 : Pol), q.id = p0.id → q2.id = p0.id →
              syncPol (st.polymerases.set idx q) q2 = st.polymerases.set idx q2 := by
            intro q q2 hq hq2
            rw [syncPol_eq_set q2 (st.polymerases.set idx q) idx q (hids_set q hq).1
              (hids_set q hq).2 (hq2.trans hq.symm), List.set_set]
          have hsetid : st.polymerases.set idx p0 = st.polymerases :=
            set_get_self _ _ _ hp0
          have hmv : p0.move.start = p0.start + 1 ∧ p0.move.stop = p0.stop + 1 :=
            ⟨rfl, rfl⟩
          rw [hsync1] at hcol
          rcases resolveCollisions_ok _ idx p0.move p2 polC hcol with
            ⟨hp2, hnocol⟩ | ⟨hp2, q, hq, hqint⟩
          · -- no downstream collision: the walker stays moved unless the
            -- mask pushes it back
            subst hp2
            have hget_ne : (st.polymerases.set idx p0.move).get? (idx + 1) =
                st.polymerases.get? (idx + 1) :=
              List.get?_set_ne p0.move st.polymerases (by omega)
            have hnext : ∀ q', st.polymerases.get? (idx + 1) = some q' →
                p0.move.stop < q'.start := by
              intro q' hq'
              have hpp := hnocol q' (by rw [hget_ne]; exact hq')
              simp only [polPolInter, elements_intersect_false_iff] at hpp
              rw [hmv.1, hmv.2] at hpp
              have hq'len : idx + 1 < st.polymerases.length :=
                (List.get?_eq_some.mp hq').1
              have hgap : p0.stop < q'.start := by
                have hg := List.pairwise_iff_get.mp hord ⟨idx, hidxlen⟩
                  ⟨idx + 1, hq'len⟩ (Nat.lt_succ_self idx)
                rw [hgetv, (List.get?_eq_some.mp hq').2] at hg
                exact hg
              have hq'ne := hne q' (List.get?_mem hq')
              have hp0ne := hne p0 hp0mem
              rw [hmv.2]
              omega
            have hGW3 : (st.polymerases.set idx p0.move).Pairwise
                (fun a b => a.stop < b.start) :=
              set_gap st.polymerases idx p0 p0.move hp0 hord hne
                (by rw [hmv.1]; omega) hnext
            have hGne3 : ∀ q' ∈ st.polymerases.set idx p0.move,
                q'.start < q'.stop := by
              intro q' hq'
              rcases List.mem_or_eq_of_mem_set hq' with h2 | h2
              · exact hne q' h2
              · rw [h2, hmv.1, hmv.2]
                have := hne p0 hp0mem
                omega
            rcases resolveMaskCollisions_ok st.mask p0.move m2 p3 maskC hmask with
              ⟨hm2, hp3, hnom⟩ | ⟨hm2, hp3, hyes, hwl⟩ | ⟨hm2, hp3, hyes, hnwl⟩
            · -- B1: no mask contact
              subst hm2
              subst hp3
              rw [hsync1, hsync_step p0.move p0.move rfl rfl,
                hsync_step p0.move p0.move rfl rfl] at herr ⊢
              have hGM3 : ∀ q' ∈ st.polymerases.set idx p0.move,
                  polMaskInter q' st.mask = true →
                  st.mask.check_interaction q'.name = true := by
                intro q' hq' hqi
                rcases List.mem_or_eq_of_mem_set hq' with h2 | h2
                · exact hgm q' h2 hqi
                · rw [h2] at hqi
                  rw [hnom] at hqi
                  cases hqi
              exact move_recover_Inv st idx p0 p0.move st.mask draws hp0 hnd hdis
                hcov rfl hGW3 hGne3 hGM3 herr
            · -- B2: whitelisted walker, mask recedes
              subst hm2
              subst hp3
              rw [hsync1, hsync_step p0.move p0.move rfl rfl,
                hsync_step p0.move p0.move rfl rfl] at herr ⊢
              have hGM3 : ∀ q' ∈ st.polymerases.set idx p0.move,
                  polMaskInter q' st.mask.recede = true →
                  st.mask.recede.check_interaction q'.name = true := by
                intro q' hq' hqi
                rw [(recede_fields st.mask).2.2 q'.name]
                rcases List.mem_or_eq_of_mem_set hq' with h2 | h2
                · exact hgm q' h2 (polMaskInter_recede q' st.mask hqi)
                · rw [h2]
                  exact hwl
              exact move_recover_Inv st idx p0 p0.move st.mask.recede draws hp0 hnd
                hdis hcov rfl hGW3 hGne3 hGM3 herr
            · -- B3: mask pushes the walker back to its old position
              subst hm2
              rw [hp3, move_move_back] at herr ⊢
              rw [hsync1, hsync_step p0.move p0.move rfl rfl,
                hsync_step p0.move p0 rfl rfl] at herr ⊢
              refine move_recover_Inv st idx p0 p0 st.mask draws hp0 hnd hdis hcov
                rfl ?_ ?_ ?_ herr
              · rw [hsetid]
                exact hord
              · rw [hsetid]
                exact hne
              · rw [hsetid]
                exact hgm
          · -- downstream collision: the walker rolls back to its old position
            rw [hp2, move_move_back] at hmask herr ⊢
            rcases resolveMaskCollisions_ok st.mask p0 m2 p3 maskC hmask with
              ⟨hm2, hp3, -⟩ | ⟨hm2, hp3, hyes, hwl⟩ | ⟨-, -, hyes, hnwl⟩
            · subst hm2
              rw [hp3] at herr ⊢
              rw [hsync1, hsync_step p0.move p0 rfl rfl,
                hsync_step p0 p0 rfl rfl] at herr ⊢
              refine move_recover_Inv st idx p0 p0 st.mask draws hp0 hnd hdis hcov
                rfl ?_ ?_ ?_ herr
              · rw [hsetid]
                exact hord
              · rw [hsetid]
                exact hne
              · rw [hsetid]
                exact hgm
            · subst hm2
              rw [hp3] at herr ⊢
              rw [hsync1, hsync_step p0.move p0 rfl rfl,
                hsync_step p0 p0 rfl rfl] at herr ⊢
              refine move_recover_Inv st idx p0 p0 st.mask.recede draws hp0 hnd
                hdis hcov rfl ?_ ?_ ?_ herr
              · rw [hsetid]
                exact hord
              · rw [hsetid]
                exact hne
              · rw [hsetid]
                intro q hq hqi
                rw [(recede_fields st.mask).2.2 q.name]
                exact hgm q hq (polMaskInter_recede q st.mask hqi)
            · rw [hgm p0 hp0mem hyes] at hnwl
              cases hnwl

/-- Every reachable state satisfies the invariant. -/
theorem reach_Inv (st : PSt) (h : Reach st) : Inv st := by
  induction h with
  | init kind name length elements mask tmpl hwf =>
    exact init_Inv kind name length elements mask tmpl hwf
  | step st st2 hreach hstep ih =>
    cases hstep with
    | bind pol promoter k s2 tr hfp hbind =>
      exact bind_preserves_Inv st pol promoter k st2 tr hfp hbind ih
    | exec i draws s2 tr hexec =>
      simp only [execute] at hexec
      split at hexec
      · simp at hexec
      · split at hexec
        · simp at hexec
        · split at hexec
          · simp at hexec
          · rename_i x p hp
            exact move_preserves_Inv st p.id draws st2 tr hexec ih
    | shiftStep =>
      exact shift_preserves_Inv st ih
    | termStep k hk s2 tr hterm =>
      exact terminate_preserves_Inv st (st.polymerases.get ⟨k, hk⟩) st2 tr hterm ih

/-- The two-walker state of the C2 scenario is reachable. -/
theorem reach_c2 : Reach c2r2.1 := by
  have h0 : Reach c2st0 := Reach.init PKind.polymer "plm" 200
    [Promoter "p" 5 15 ["w"], Promoter "q" 20 30 ["v"], Promoter "p" 40 60 ["w"]]
    { name := "mask", start := 90, stop := 100, interactions := [] } []
    ⟨by decide, by decide⟩
  have h1 : Step c2st0 c2r1.1 := Step.bind c2st0 (Polymerase 1 "w" 10 30) "p" 0
    c2r1.1 c2r1.2.1 (by decide) (by decide)
  have h2 : Step c2r1.1 c2r2.1 := Step.bind c2r1.1 (Polymerase 2 "v" 8 20) "q" 0
    c2r2.1 c2r2.2.1 (by decide) (by decide)
  exact Reach.step _ _ (Reach.step _ _ h0 h1) h2

/-- C2 (amended): after every successful external call on a polymer
constructed from pairwise non-overlapping elements, the walker list is
strictly ordered — `walkers[i].stop < walkers[i+1].start` for every
consecutive pair — and hence pairwise non-overlapping, so a walker never
passes the walker downstream of it.  (The original claim quantifies over
every external call; a call that raises AlreadyBound can break the
order, see the counterexample.) -/
theorem walkers_sorted_after_successful_calls (st : PSt) (h : Reach st) :
    st.polymerases.Pairwise (fun a b => a.stop < b.start) ∧
    st.polymerases.Pairwise (fun a b => polPolInter a b = false) ∧
    ∀ (i : Nat) (hi : i + 1 < st.polymerases.length),
      (st.polymerases.get ⟨i, Nat.lt_of_succ_lt hi⟩).stop <
        (st.polymerases.get ⟨i + 1, hi⟩).start := by
  obtain ⟨hord, -, -, -, -, -⟩ := reach_Inv st h
  refine ⟨hord, ?_, ?_⟩
  · refine hord.imp ?_
    intro a b hab
    simp only [polPolInter, elements_intersect_false_iff]
    omega
  · intro i hi
    exact List.pairwise_iff_get.mp hord ⟨i, Nat.lt_of_succ_lt hi⟩ ⟨i + 1, hi⟩
      (Nat.lt_succ_self i)

/-- C2 counterexample: from a reachable two-walker state, a
`bind_polymerase` call that raises AlreadyBound writes the new
coordinates through to the stored walker before the boundedness check,
leaving the list with `walkers[0] = [40, 50]` before
`walkers[1] = [20, 28]`: the claimed `walkers[i].stop <
walkers[i+1].start` fails after this external call. -/
theorem walker_order_broken_by_failed_bind :
    Reach c2r2.1 ∧
    c2r3.2.2 = some Err.alreadyBound ∧
    c2r3.1.polymerases.map coordsOf = [(40, 50), (20, 28)] ∧
    ∃ (h0 : 0 < c2r3.1.polymerases.length) (h1 : 1 < c2r3.1.polymerases.length),
      ¬((c2r3.1.polymerases.get ⟨0, h0⟩).stop <
        (c2r3.1.polymerases.get ⟨1, h1⟩).start) :=
  ⟨reach_c2, by decide, by decide, by decide, by decide, by decide⟩

/-- C2 witness: the amended theorem applied at the concrete reachable
two-walker state, whose walkers sit at `[5, 15]` and `[20, 28]`. -/
theorem walkers_sorted_after_successful_calls_witness :
    c2r2.1.polymerases.Pairwise (fun a b => a.stop < b.start) ∧
    c2r2.1.polymerases.map coordsOf = [(5, 15), (20, 28)] :=
  ⟨(walkers_sorted_after_successful_calls c2r2.1 reach_c2).1, by decide⟩

end Pinetree
